import Mathlib

/-!
Verification of the hierarchical drag-and-drop reordering engine of the
Layer application, as described by the repository specification.

The development shallowly embeds the JavaScript sources:
* `src/components/task-list-sortable.js` (the task-tree reorder planner,
  local mutation and persistence adapters),
* `src/components/side-list-sortable.js` (the heterogeneous side-list
  planner and its adapters),
* the generic sortable engine (`makeSortable` and its `handleSort` /
  `handleDragStop` handlers, found in the utils bundle),
* the task-helper ancestry utilities (`getTaskDescendants`,
  `isTaskDescendantOf`).

Two collaborators used by the sortable adapters are not part of the
source tree (`src/state/optimistic-state.js` and `src/data/tree-utils.js`);
their behaviour is modelled from the specification and marked as such in
the corresponding doc comments.

JavaScript numbers for order indices are embedded as `Int` (all arithmetic
performed on them here is small-integer addition/multiplication, exact in
IEEE doubles); cursor geometry is embedded as `ℚ`.  Sibling sorting uses
`List.insertionSort`, which agrees with the ECMAScript stable sort for a
consistent comparator such as `(a, b) => (a.orderIndex || 0) - (b.orderIndex || 0)`:
a stable sort of a list under a total preorder is unique, so any compliant
implementation returns the same list.
-/

/-- JavaScript `x || null` applied to a nullable string: `null`, `undefined`
and the falsy empty string normalize to `null`. -/
def jsOrNull : Option String → Option String
  | none => none
  | some s => if s = "" then none else some s

/-- The comparison key `(t.orderIndex || 0)` used by the sibling sort:
a missing order index counts as `0` (and `0 || 0` is `0`). -/
def jsOrZero : Option Int → Int
  | none => 0
  | some v => v

/-- The ordering induced by an integer key; `keyLe key a b` is what the JS
comparator `(a, b) => key(a) - key(b)` answers with a non-positive number. -/
def keyLe {α : Type} (key : α → Int) (a b : α) : Prop := key a ≤ key b

instance {α : Type} (key : α → Int) : DecidableRel (keyLe key) :=
  fun a b => inferInstanceAs (Decidable (key a ≤ key b))

instance {α : Type} (key : α → Int) : IsTotal α (keyLe key) :=
  ⟨fun a b => Int.le_total (key a) (key b)⟩

instance {α : Type} (key : α → Int) : IsTrans α (keyLe key) :=
  ⟨fun _ _ _ h₁ h₂ => Int.le_trans h₁ h₂⟩

/-- Strict version of `keyLe`, used to identify a sorted list uniquely once
the keys are known to be distinct. -/
def keyLt {α : Type} (key : α → Int) (a b : α) : Prop := key a < key b

instance {α : Type} (key : α → Int) : IsAntisymm α (keyLt key) :=
  ⟨fun _ _ h₁ h₂ => absurd (Int.lt_trans h₁ h₂) (Int.lt_irrefl _)⟩

/-- JavaScript `Array.prototype.splice(i, 0, a)`: insert `a` at index `i`,
clamping an out-of-range index to the end of the array. -/
def spliceAt {α : Type} : Nat → α → List α → List α
  | 0, a, l => a :: l
  | _ + 1, a, [] => [a]
  | n + 1, a, x :: xs => x :: spliceAt n a xs

/-- JavaScript `Array.prototype.findIndex`: `none` plays the role of `-1`. -/
def findIdxO {α : Type} (p : α → Bool) : List α → Option Nat
  | [] => none
  | x :: xs => if p x then some 0 else (findIdxO p xs).map (· + 1)

/-- JavaScript in-place mutation of the first array element satisfying `p`
(`const x = arr.find(p); if (x) { mutate x }`). -/
def setFirst {α : Type} (p : α → Bool) (f : α → α) : List α → List α
  | [] => []
  | x :: xs => if p x then f x :: xs else x :: setFirst p f xs

namespace TaskListSortable

/-- A task row as seen by `task-list-sortable.js`: an id, the nullable
parent-task reference, the nullable order index, and an inert payload
standing for all the fields the drag engine never touches. -/
structure Task where
  id : String
  parentTaskId : Option String
  orderIndex : Option Int
  text : String
deriving DecidableEq, Repr

/-- One entry of the planner output
`{ id, orderIndex: index * 1000, parentTaskId: targetParentId }`. -/
structure TaskUpdate where
  id : String
  orderIndex : Int
  parentTaskId : Option String
deriving DecidableEq, Repr

/-- Sibling sort key `(t.orderIndex || 0)`. -/
def oiKey (t : Task) : Int := jsOrZero t.orderIndex

/-- The container-membership test
`(t.parentTaskId || null) === targetParentId`. -/
def containerEq (target : Option String) (t : Task) : Bool :=
  jsOrNull t.parentTaskId == target

/-- The sorted sibling list of the target container:
`_currentTasks.filter(...)` followed by
`siblings.sort((a, b) => (a.orderIndex || 0) - (b.orderIndex || 0))`. -/
def siblingsOf (tasks : List Task) (target : Option String) : List Task :=
  List.insertionSort (keyLe oiKey) (tasks.filter (containerEq target))

/-- `siblings = siblings.filter(t => t.id !== taskId)`. -/
def siblingsWithout (tasks : List Task) (target : Option String)
    (taskId : String) : List Task :=
  (siblingsOf tasks target).filter (fun t => t.id != taskId)

/-- Insertion-index computation of `buildUpdatesArray`:
`insertIndex` starts at `0`; a present `prevEl` found in the sibling list
moves it after that neighbour; with neither neighbour present the item is
appended at the end. -/
def insertIndexOf (sibs : List Task) (prevId : Option String)
    (nextIsNone : Bool) : Nat :=
  match prevId with
  | some p =>
    match findIdxO (fun t => t.id == p) sibs with
    | some i => i + 1
    | none => 0
  | none => if nextIsNone then sibs.length else 0

/-- `siblings.map((task, index) => ({ id: task.id, orderIndex: index * 1000,
parentTaskId: targetParentId }))`, with the running index made explicit. -/
def renumber (target : Option String) : Nat → List Task → List TaskUpdate
  | _, [] => []
  | i, t :: ts => ⟨t.id, (i : Int) * 1000, target⟩ :: renumber target (i + 1) ts

/-- The task-list reorder planner `buildUpdatesArray(taskId, targetParentId,
prevEl, nextEl)` over the current task collection.  `prevId`/`nextId` carry
the DOM neighbours (`none` = the element is absent); only the presence of
`nextEl` is ever inspected by the source. -/
def buildUpdatesArray (tasks : List Task) (taskId : String)
    (target : Option String) (prevId nextId : Option String) :
    Option (List TaskUpdate) :=
  let sibs := siblingsWithout tasks target taskId
  match tasks.find? (fun t => t.id == taskId) with
  | none => none
  | some moved =>
    let i := insertIndexOf sibs prevId nextId.isNone
    some (renumber target 0 (spliceAt i moved sibs))

/-- `applyUpdatesLocally`: for each update, find the task by id in the
collection and overwrite its `orderIndex` and `parentTaskId`. -/
def applyUpdatesLocally (tasks : List Task) (updates : List TaskUpdate) :
    List Task :=
  updates.foldl
    (fun ts u =>
      setFirst (fun t => t.id == u.id)
        (fun t => { t with orderIndex := some u.orderIndex,
                           parentTaskId := u.parentTaskId }) ts)
    tasks

/-- One `Repository.updateTaskOrder(id, orderIndex, parentTaskId)` call. -/
structure PersistCall where
  id : String
  orderIndex : Int
  parentTaskId : Option String
deriving DecidableEq, Repr

/-- `persistUpdates`: one concurrent repository write per update. -/
def persistUpdates (updates : List TaskUpdate) : List PersistCall :=
  updates.map (fun u => ⟨u.id, u.orderIndex, u.parentTaskId⟩)

/-- Pre-mutation snapshot entry of one task (its id plus the two fields the
mutation can touch). -/
structure Snap where
  id : String
  orderIndex : Option Int
  parentTaskId : Option String
deriving DecidableEq, Repr

/-- Modelled from the spec: `src/state/optimistic-state.js` is not part of
the source tree; per §4.5 the coordinator first snapshots the current
values of every node referenced in the plan updates. -/
def snapshotOf (tasks : List Task) (updates : List TaskUpdate) : List Snap :=
  (tasks.filter (fun t => updates.any (fun u => u.id == t.id))).map
    (fun t => ⟨t.id, t.orderIndex, t.parentTaskId⟩)

/-- Modelled from the spec: `src/state/optimistic-state.js` is not part of
the source tree; per §4.5 a persistence failure restores every snapshotted
node to its pre-mutation values. -/
def restoreSnapshot (tasks : List Task) (snap : List Snap) : List Task :=
  tasks.map (fun t =>
    match snap.find? (fun s => s.id == t.id) with
    | some s => { t with orderIndex := s.orderIndex,
                         parentTaskId := s.parentTaskId }
    | none => t)

/-- Observable outcome of one optimistic mutation: the final task
collection, the persistence calls issued, whether the user was shown the
rollback toast, and whether an error escaped to the caller. -/
structure CoordinatorRun where
  tasks : List Task
  persistCalls : List PersistCall
  notifiedError : Bool
  threw : Bool
deriving DecidableEq, Repr

/-- Modelled from the spec: `src/state/optimistic-state.js` is not part of
the source tree.  Per §4.5 `optimisticUpdate` snapshots the touched nodes,
runs the local mutation synchronously, then persists; `persistResults`
lists the outcomes of the per-node writes (`Promise.all` fails iff any one
write rejects), in which case every snapshotted node is restored and the
caller-supplied `onError` (which shows the error toast in both sortable
adapters) runs; the failure is swallowed, never re-thrown. -/
def optimisticUpdateRun (tasks : List Task) (updates : List TaskUpdate)
    (persistResults : List Bool) : CoordinatorRun :=
  let snapshot := snapshotOf tasks updates
  let mutated := applyUpdatesLocally tasks updates
  if persistResults.all (fun b => b) then
    ⟨mutated, persistUpdates updates, false, false⟩
  else
    ⟨restoreSnapshot mutated snapshot, persistUpdates updates, true, false⟩

/-- Proof-layer characterization (not a source function): the effect of a
single update on a single task, used to describe `applyUpdatesLocally` as
a pointwise map when ids are unique. -/
def applyOne (t : Task) (u : TaskUpdate) : Task :=
  if t.id == u.id then
    { t with orderIndex := some u.orderIndex, parentTaskId := u.parentTaskId }
  else t

/-- `updateTaskPosition`: build the plan; with no plan (`InvalidMove`) log
and return without touching state or the repository, otherwise run the
optimistic update. -/
def updateTaskPosition (tasks : List Task) (taskId : String)
    (target : Option String) (prevId nextId : Option String)
    (persistResults : List Bool) : CoordinatorRun :=
  match buildUpdatesArray tasks taskId target prevId nextId with
  | none => ⟨tasks, [], false, false⟩
  | some updates => optimisticUpdateRun tasks updates persistResults

end TaskListSortable

namespace SideListSortable

/-- A folder row (`data.folders`): parent reference is `parentId`. -/
structure Folder where
  id : String
  parentId : Option String
  orderIndex : Option Int
deriving DecidableEq, Repr

/-- A non-folder side-list row (objective, note, bookmark or task list):
parent reference is `folderId`. -/
structure SideRec where
  id : String
  folderId : Option String
  orderIndex : Option Int
deriving DecidableEq, Repr

/-- The state read and mutated by `side-list-sortable.js`: the `AppState`
collections plus the bookmark store behind
`BookmarkStorage.loadAllBookmarks` / `updateBookmarkOrder`. -/
structure SideState where
  folders : List Folder
  objectives : List SideRec
  notes : List SideRec
  bookmarks : List SideRec
  taskLists : List SideRec
deriving DecidableEq, Repr

/-- An element of the planner's `allItems` working list: the spread
`{ ...item, _type }` of which only `id`, `orderIndex` and `_type` are read
downstream. -/
structure SideItem where
  id : String
  itype : String
  orderIndex : Option Int
deriving DecidableEq, Repr

/-- One entry of the side-list planner output.  The JS object carries
either a `parentId` (folders) or a `folderId` (other kinds), the other
field being `undefined`; `none` stands for `undefined` here. -/
structure SideUpdate where
  id : String
  itype : String
  orderIndex : Int
  parentId : Option (Option String)
  folderId : Option (Option String)
deriving DecidableEq, Repr

/-- Sibling sort key `(item.orderIndex || 0)`. -/
def oiKeyS (t : SideItem) : Int := jsOrZero t.orderIndex

/-- The heterogeneous `allItems` list: folders whose `parentId` (normalized)
equals the target, then objectives, notes, bookmarks and task lists whose
`folderId` (normalized) equals the target, each tagged with its `_type`, in
the push order of the source. -/
def allItemsOf (st : SideState) (target : Option String) : List SideItem :=
  (st.folders.filter (fun f => jsOrNull f.parentId == target)).map
      (fun f => ⟨f.id, "folder", f.orderIndex⟩)
    ++ (st.objectives.filter (fun o => jsOrNull o.folderId == target)).map
      (fun o => ⟨o.id, "objective", o.orderIndex⟩)
    ++ (st.notes.filter (fun n => jsOrNull n.folderId == target)).map
      (fun n => ⟨n.id, "note", n.orderIndex⟩)
    ++ (st.bookmarks.filter (fun b => jsOrNull b.folderId == target)).map
      (fun b => ⟨b.id, "bookmark", b.orderIndex⟩)
    ++ (st.taskLists.filter (fun tl => jsOrNull tl.folderId == target)).map
      (fun tl => ⟨tl.id, "task-list", tl.orderIndex⟩)

/-- `allItems.sort((a, b) => (a.orderIndex || 0) - (b.orderIndex || 0))`. -/
def sortedItemsOf (st : SideState) (target : Option String) : List SideItem :=
  List.insertionSort (keyLe oiKeyS) (allItemsOf st target)

/-- `allItems = allItems.filter(item => item.id !== id)`. -/
def itemsWithout (st : SideState) (target : Option String) (id : String) :
    List SideItem :=
  (sortedItemsOf st target).filter (fun t => t.id != id)

/-- Lookup of the dropped item in its own collection, dispatched on the
dragged `type` string; an unknown type leaves `droppedItem` undefined. -/
def findDropped (st : SideState) (itype : String) (id : String) :
    Option SideItem :=
  if itype == "folder" then
    (st.folders.find? (fun f => f.id == id)).map
      (fun f => ⟨f.id, "folder", f.orderIndex⟩)
  else if itype == "objective" then
    (st.objectives.find? (fun o => o.id == id)).map
      (fun o => ⟨o.id, "objective", o.orderIndex⟩)
  else if itype == "note" then
    (st.notes.find? (fun n => n.id == id)).map
      (fun n => ⟨n.id, "note", n.orderIndex⟩)
  else if itype == "bookmark" then
    (st.bookmarks.find? (fun b => b.id == id)).map
      (fun b => ⟨b.id, "bookmark", b.orderIndex⟩)
  else if itype == "task-list" then
    (st.taskLists.find? (fun tl => tl.id == id)).map
      (fun tl => ⟨tl.id, "task-list", tl.orderIndex⟩)
  else none

/-- Side-list insertion index: same shape as the task-list planner. -/
def insertIndexOfS (sibs : List SideItem) (prevId : Option String)
    (nextIsNone : Bool) : Nat :=
  match prevId with
  | some p =>
    match findIdxO (fun t => t.id == p) sibs with
    | some i => i + 1
    | none => 0
  | none => if nextIsNone then sibs.length else 0

/-- `allItems.map((item, index) => ({ id, _type, orderIndex: index * 1000,
parentId: folder ? target : undefined, folderId: folder ? undefined :
target }))`. -/
def renumberS (target : Option String) : Nat → List SideItem →
    List SideUpdate
  | _, [] => []
  | i, t :: ts =>
    ⟨t.id, t.itype, (i : Int) * 1000,
      if t.itype == "folder" then some target else none,
      if t.itype == "folder" then none else some target⟩
      :: renumberS target (i + 1) ts

/-- The side-list planner `buildUpdatesArray(type, id, targetParentId,
prevEl, nextEl)`.  `prevId` carries the id extracted from `prevEl` when the
element is present; only the presence of `nextEl` is inspected. -/
def buildUpdatesArray (st : SideState) (itype : String) (id : String)
    (target : Option String) (prevId nextId : Option String) :
    Option (List SideUpdate) :=
  let sibs := itemsWithout st target id
  match findDropped st itype id with
  | none => none
  | some dropped =>
    let i := insertIndexOfS sibs prevId nextId.isNone
    some (renumberS target 0 (spliceAt i dropped sibs))

/-- JS reading of a possibly-`undefined` assigned field: the later
`(x || null)` reads make an assigned `undefined` indistinguishable from
`null`. -/
def joinOpt : Option (Option String) → Option String
  | none => none
  | some v => v

/-- `applyUpdatesLocally(type, updates)`: each update mutates the matching
element of the collection selected by its `_type`; bookmarks are updated
through the bookmark store. -/
def applyUpdatesLocally (st : SideState) (updates : List SideUpdate) :
    SideState :=
  updates.foldl
    (fun s u =>
      if u.itype == "folder" then
        { s with folders :=
            (setFirst (fun f => f.id == u.id)
              (fun f => { f with orderIndex := some u.orderIndex,
                                 parentId := joinOpt u.parentId }) s.folders) }
      else if u.itype == "objective" then
        { s with objectives :=
            (setFirst (fun o => o.id == u.id)
              (fun o => { o with orderIndex := some u.orderIndex,
                                 folderId := joinOpt u.folderId }) s.objectives) }
      else if u.itype == "note" then
        { s with notes :=
            (setFirst (fun n => n.id == u.id)
              (fun n => { n with orderIndex := some u.orderIndex,
                                 folderId := joinOpt u.folderId }) s.notes) }
      else if u.itype == "bookmark" then
        { s with bookmarks :=
            (setFirst (fun b => b.id == u.id)
              (fun b => { b with orderIndex := some u.orderIndex,
                                 folderId := joinOpt u.folderId }) s.bookmarks) }
      else if u.itype == "task-list" then
        { s with taskLists :=
            (setFirst (fun tl => tl.id == u.id)
              (fun tl => { tl with orderIndex := some u.orderIndex,
                                   folderId := joinOpt u.folderId }) s.taskLists) }
      else s)
    st

/-- One asynchronous persistence call issued by `persistUpdates`; bookmarks
are localStorage-only and issue none. -/
inductive SidePersistCall where
  | updateFolder (id : String) (orderIndex : Int) (parentId : Option String)
  | updateObjectiveOrder (id : String) (orderIndex : Int)
      (folderId : Option String)
  | updateNoteOrder (id : String) (orderIndex : Int) (folderId : Option String)
  | updateTaskListOrder (id : String) (orderIndex : Int)
      (folderId : Option String)
deriving DecidableEq, Repr

/-- `persistUpdates(type, updates, ...)`: the save promises pushed for the
four repository-backed kinds. -/
def persistUpdatesS (updates : List SideUpdate) : List SidePersistCall :=
  updates.filterMap (fun u =>
    if u.itype == "folder" then
      some (.updateFolder u.id u.orderIndex (joinOpt u.parentId))
    else if u.itype == "objective" then
      some (.updateObjectiveOrder u.id u.orderIndex (joinOpt u.folderId))
    else if u.itype == "note" then
      some (.updateNoteOrder u.id u.orderIndex (joinOpt u.folderId))
    else if u.itype == "task-list" then
      some (.updateTaskListOrder u.id u.orderIndex (joinOpt u.folderId))
    else none)

/-- Observable outcome of one side-list position update. -/
structure SideRun where
  state : SideState
  persistCalls : List SidePersistCall
  notifiedError : Bool
  threw : Bool
deriving DecidableEq, Repr

/-- Per-kind snapshot entry.  Modelled from the spec:
`src/state/optimistic-state.js` is not part of the source tree; per §4.5
the coordinator snapshots the pre-mutation values of every node referenced
in the plan and restores them on persistence failure. -/
def snapshotOfS (st : SideState) (updates : List SideUpdate) : SideState :=
  ⟨st.folders.filter (fun f => updates.any (fun u => u.id == f.id)),
    st.objectives.filter (fun o => updates.any (fun u => u.id == o.id)),
    st.notes.filter (fun n => updates.any (fun u => u.id == n.id)),
    st.bookmarks.filter (fun b => updates.any (fun u => u.id == b.id)),
    st.taskLists.filter (fun tl => updates.any (fun u => u.id == tl.id))⟩

/-- Modelled from the spec (§4.5): restore every snapshotted node to its
pre-mutation `orderIndex` and parent key. -/
def restoreSnapshotS (st snap : SideState) : SideState :=
  ⟨st.folders.map (fun f =>
      match snap.folders.find? (fun s => s.id == f.id) with
      | some s => { f with orderIndex := s.orderIndex, parentId := s.parentId }
      | none => f),
    st.objectives.map (fun o =>
      match snap.objectives.find? (fun s => s.id == o.id) with
      | some s => { o with orderIndex := s.orderIndex, folderId := s.folderId }
      | none => o),
    st.notes.map (fun n =>
      match snap.notes.find? (fun s => s.id == n.id) with
      | some s => { n with orderIndex := s.orderIndex, folderId := s.folderId }
      | none => n),
    st.bookmarks.map (fun b =>
      match snap.bookmarks.find? (fun s => s.id == b.id) with
      | some s => { b with orderIndex := s.orderIndex, folderId := s.folderId }
      | none => b),
    st.taskLists.map (fun tl =>
      match snap.taskLists.find? (fun s => s.id == tl.id) with
      | some s => { tl with orderIndex := s.orderIndex, folderId := s.folderId }
      | none => tl)⟩

/-- Modelled from the spec: the shared optimistic-update engine
(`src/state/optimistic-state.js`, not under the source tree) applied to the
side-list adapter, mirroring `optimisticUpdateRun` for tasks. -/
def optimisticUpdateRunS (st : SideState) (updates : List SideUpdate)
    (persistResults : List Bool) : SideRun :=
  let snapshot := snapshotOfS st updates
  let mutated := applyUpdatesLocally st updates
  if persistResults.all (fun b => b) then
    ⟨mutated, persistUpdatesS updates, false, false⟩
  else
    ⟨restoreSnapshotS mutated snapshot, persistUpdatesS updates, true, false⟩

/-- `updateItemPosition(type, id, targetParentId, prevEl, nextEl)`: build
the plan; with no plan log an error and re-render only, otherwise run the
optimistic update. -/
def updateItemPosition (st : SideState) (itype : String) (id : String)
    (target : Option String) (prevId nextId : Option String)
    (persistResults : List Bool) : SideRun :=
  match buildUpdatesArray st itype id target prevId nextId with
  | none => ⟨st, [], false, false⟩
  | some updates => optimisticUpdateRunS st updates persistResults

end SideListSortable

namespace Sortable

/-- A `DOMRect` of a candidate target, as read by `handleSort` via
`getBoundingClientRect()`; `height` is the rectangle's height property. -/
structure Rect where
  top : ℚ
  bottom : ℚ
  left : ℚ
  right : ℚ
  height : ℚ
deriving DecidableEq

/-- One candidate element of the `$container.find(itemSelector)` scan:
`el` is the element's identity (the `targetEl === _draggedEl` comparison
is reference equality). -/
structure Candidate where
  el : Nat
  rect : Rect
deriving DecidableEq

/-- The parts of the `makeSortable` configuration that `handleSort`
consults: the resolved drop-zone threshold and the `isDropTarget` /
`canDrop` callbacks (keyed by element identity). -/
structure HoverConfig where
  dropZoneThreshold : ℚ
  isDropTarget : Nat → Bool
  canDrop : Nat → Nat → Bool

/-- `dropZoneThreshold: options.dropZoneThreshold ?? 0.25`. -/
def resolveDropZoneThreshold (o : Option ℚ) : ℚ := o.getD (1 / 4)

/-- The bounds check of `handleSort`: the cursor is outside the rectangle
when `cursorX < rect.left || cursorX > rect.right || cursorY < rect.top ||
cursorY > rect.bottom`. -/
def outsideRect (r : Rect) (x y : ℚ) : Bool :=
  decide (x < r.left) || decide (x > r.right)
    || decide (y < r.top) || decide (y > r.bottom)

/-- The center-zone test of `handleSort`:
`relativeY > threshold && relativeY < rect.height - threshold` with
`threshold = rect.height * dropZoneThreshold`. -/
def inCenterZone (th : ℚ) (r : Rect) (y : ℚ) : Bool :=
  let relativeY := y - r.top
  let threshold := r.height * th
  decide (relativeY > threshold) && decide (relativeY < r.height - threshold)

/-- The target-scanning loop of `handleSort`: skip non-drop-targets, the
dragged element itself and elements the cursor is outside of; the first
remaining candidate whose center zone contains the cursor and whose drop is
allowed becomes the hover target (breaking the loop); otherwise the hover
target is cleared. -/
def hoverResult (cfg : HoverConfig) (draggedEl : Nat) (x y : ℚ) :
    List Candidate → Option Nat
  | [] => none
  | c :: rest =>
    if !cfg.isDropTarget c.el then hoverResult cfg draggedEl x y rest
    else if c.el == draggedEl then hoverResult cfg draggedEl x y rest
    else if outsideRect c.rect x y then hoverResult cfg draggedEl x y rest
    else if inCenterZone cfg.dropZoneThreshold c.rect y
        && cfg.canDrop draggedEl c.el then some c.el
    else hoverResult cfg draggedEl x y rest

/-- How `handleDragStop` resolves a completed drag: a captured hover target
produces the drop-into path, otherwise the reorder path runs on the DOM
neighbours. -/
inductive DropResolution where
  | into (targetEl : Nat)
  | reorder
deriving DecidableEq

/-- `if (dropTargetEl) { onDropInto ... } else { onReorder ... }`. -/
def resolveDrop (hover : Option Nat) : DropResolution :=
  match hover with
  | some t => .into t
  | none => .reorder

end Sortable

namespace TaskHelpers

open TaskListSortable (Task)

/-- `getTaskDescendants(tasks, taskId)`: ids of all transitive children,
parent-first (`children.forEach` pushes each child's id and then that
child's own descendants).  The JS recursion has no termination guard;
`fuel` makes the embedding total and structural, with `none` meaning the
recursion did not bottom out within `fuel` levels (on acyclic data enough
fuel always exists). -/
def getTaskDescendantsF (tasks : List Task) : Nat → String →
    Option (List String)
  | 0, _ => none
  | fuel + 1, taskId =>
    (tasks.filter (fun t => t.parentTaskId == some taskId)).foldr
      (fun c acc => do
        let sub ← getTaskDescendantsF tasks fuel c.id
        let rest ← acc
        pure (c.id :: (sub ++ rest)))
      (some [])

/-- `isTaskDescendantOf(tasks, potentialDescendantId, potentialAncestorId)`:
self counts as a descendant; otherwise membership in the computed
descendant list. -/
def isTaskDescendantOfF (tasks : List Task) (fuel : Nat)
    (potentialDescendantId potentialAncestorId : String) : Option Bool :=
  if potentialDescendantId == potentialAncestorId then some true
  else
    (getTaskDescendantsF tasks fuel potentialAncestorId).map
      (fun ds => ds.contains potentialDescendantId)

/-- The `canDrop` callback of `task-list-sortable.js`: a task may not be
dropped into itself nor into any of its own descendants. -/
def canDropTask (tasks : List Task) (fuel : Nat)
    (draggedId targetId : String) : Option Bool :=
  if draggedId == targetId then some false
  else
    match isTaskDescendantOfF tasks fuel targetId draggedId with
    | none => none
    | some b => some (if b then false else true)

end TaskHelpers

namespace TreeUtils

/-- A node of the side-list tree (folders): id plus nullable parent. -/
structure SideNode where
  id : String
  parentId : Option String
deriving DecidableEq, Repr

/-- Modelled from the spec: `src/data/tree-utils.js` is not part of the
source tree.  Per §4.1, `getDescendantIds(nodeId)` returns all nodes
reachable by following `parentId` links downward, and an unknown id yields
the empty set.  Fuel makes the recursion total and structural, as for the
task variant. -/
def getDescendantIdsF (nodes : List SideNode) : Nat → String →
    Option (List String)
  | 0, _ => none
  | fuel + 1, nodeId =>
    (nodes.filter (fun n => n.parentId == some nodeId)).foldr
      (fun c acc => do
        let sub ← getDescendantIdsF nodes fuel c.id
        let rest ← acc
        pure (c.id :: (sub ++ rest)))
      (some [])

/-- Modelled from the spec (§4.1): `isDescendantOf(candidateDescendantId,
candidateAncestorId)` is true on equality (self counts as descendant) or on
membership in the descendant set. -/
def isDescendantOfF (nodes : List SideNode) (fuel : Nat)
    (candidateDescendantId candidateAncestorId : String) : Option Bool :=
  if candidateDescendantId == candidateAncestorId then some true
  else
    (getDescendantIdsF nodes fuel candidateAncestorId).map
      (fun ds => ds.contains candidateDescendantId)

/-- The `canDrop` callback of `side-list-sortable.js`: a dragged folder may
not be dropped into itself nor into its own descendants; non-folder items
are always accepted (they have no descendants in the folder tree). -/
def sideCanDrop (tree : List SideNode) (fuel : Nat)
    (draggedType draggedId targetId : String) : Option Bool :=
  if draggedType == "folder" && draggedId == targetId then some false
  else if draggedType == "folder" then
    match isDescendantOfF tree fuel targetId draggedId with
    | none => none
    | some true => some false
    | some false => some true
  else some true

end TreeUtils

namespace SideFlat

open SideListSortable

/-- Proof-layer flat view of one side-list row (not a source structure):
the row's id, its collection's `_type` tag, its container key (`parentId`
for folders, `folderId` otherwise) and its order index, used to reason
about the five heterogeneous collections uniformly. -/
structure FlatRec where
  id : String
  kind : String
  key : Option String
  orderIndex : Option Int
deriving DecidableEq, Repr

/-- Flat view of a folder row. -/
def ofFolder (f : Folder) : FlatRec := ⟨f.id, "folder", f.parentId, f.orderIndex⟩

/-- Flat view of a non-folder row under its collection's `_type` tag. -/
def ofRec (K : String) (o : SideRec) : FlatRec := ⟨o.id, K, o.folderId, o.orderIndex⟩

/-- All side-list rows in collection order, flattened. -/
def allRecords (st : SideState) : List FlatRec :=
  st.folders.map ofFolder ++ st.objectives.map (ofRec "objective")
    ++ st.notes.map (ofRec "note") ++ st.bookmarks.map (ofRec "bookmark")
    ++ st.taskLists.map (ofRec "task-list")

/-- The working-list item built from a flat row (the planner reads only
`id`, `_type` and `orderIndex`). -/
def toItem (r : FlatRec) : SideItem := ⟨r.id, r.kind, r.orderIndex⟩

/-- Proof-layer per-row effect of `applyUpdatesLocally` (not a source
function): an update mutates the row whose collection matches the update's
`_type` tag and whose id matches, setting the order index and the
container key read back later through `(x || null)`. -/
def flatApply (r : FlatRec) (u : SideUpdate) : FlatRec :=
  if u.itype == r.kind && u.id == r.id then
    { r with orderIndex := some u.orderIndex,
             key := if u.itype == "folder" then joinOpt u.parentId
               else joinOpt u.folderId }
  else r

/-- Proof-layer per-item effect of one plan entry on a working-list item
(not a source function). -/
def itemApply (x : SideItem) (u : SideUpdate) : SideItem :=
  if u.id == x.id then ⟨u.id, u.itype, some u.orderIndex⟩ else x

end SideFlat

/-! ### Generic list lemmas used by the planner proofs -/

section ListLemmas

variable {α β : Type}

theorem spliceAt_length (a : α) (n : Nat) (l : List α) :
    (spliceAt n a l).length = l.length + 1 := by
  induction n generalizing l with
  | zero => simp [spliceAt]
  | succ n ih =>
    cases l with
    | nil => simp [spliceAt]
    | cons x xs => simp [spliceAt, ih]

theorem spliceAt_perm (a : α) (n : Nat) (l : List α) :
    List.Perm (spliceAt n a l) (a :: l) := by
  induction n generalizing l with
  | zero => simp [spliceAt]
  | succ n ih =>
    cases l with
    | nil => simp [spliceAt]
    | cons x xs =>
      exact ((ih xs).cons x).trans (List.Perm.swap a x xs)

theorem spliceAt_map (f : α → β) (a : α) (n : Nat) (l : List α) :
    (spliceAt n a l).map f = spliceAt n (f a) (l.map f) := by
  induction n generalizing l with
  | zero => simp [spliceAt]
  | succ n ih =>
    cases l with
    | nil => simp [spliceAt]
    | cons x xs => simp [spliceAt, ih]

theorem spliceAt_filter_neg {p : α → Bool} {a : α} (ha : p a = false)
    (n : Nat) (l : List α) : (spliceAt n a l).filter p = l.filter p := by
  induction n generalizing l with
  | zero => simp [spliceAt, ha]
  | succ n ih =>
    cases l with
    | nil => simp [spliceAt, ha]
    | cons x xs => simp [spliceAt, List.filter_cons, ih]

theorem spliceAt_getElem?_lt {a : α} {n i : Nat} (l : List α) (h : i < n)
    (hn : n ≤ l.length) : (spliceAt n a l)[i]? = l[i]? := by
  induction n generalizing l i with
  | zero => omega
  | succ n ih =>
    cases l with
    | nil => simp at hn
    | cons x xs =>
      cases i with
      | zero => simp [spliceAt]
      | succ i =>
        simp only [spliceAt, List.getElem?_cons_succ]
        exact ih xs (by omega) (by simpa using hn)

theorem spliceAt_getElem?_self {a : α} {n : Nat} (l : List α)
    (hn : n ≤ l.length) : (spliceAt n a l)[n]? = some a := by
  induction n generalizing l with
  | zero => simp [spliceAt]
  | succ n ih =>
    cases l with
    | nil => simp at hn
    | cons x xs =>
      simp only [spliceAt, List.getElem?_cons_succ]
      exact ih xs (by simpa using hn)

theorem spliceAt_getElem?_gt {a : α} {n i : Nat} (l : List α) (h : n < i)
    (hn : n ≤ l.length) : (spliceAt n a l)[i]? = l[i - 1]? := by
  induction n generalizing l i with
  | zero =>
    cases i with
    | zero => omega
    | succ i => simp [spliceAt]
  | succ n ih =>
    cases l with
    | nil => simp at hn
    | cons x xs =>
      cases i with
      | zero => omega
      | succ i =>
        obtain ⟨j, rfl⟩ : ∃ j, i = j + 1 := ⟨i - 1, by omega⟩
        simp only [spliceAt, List.getElem?_cons_succ]
        rw [ih xs (by omega) (by simpa using hn)]
        simp

theorem findIdxO_eq_none {p : α → Bool} {l : List α}
    (h : ∀ x ∈ l, p x = false) : findIdxO p l = none := by
  induction l with
  | nil => rfl
  | cons x xs ih =>
    simp [findIdxO, h x (by simp), ih (fun y hy => h y (by simp [hy]))]

theorem findIdxO_eq_some {p : α → Bool} :
    ∀ {l : List α} {i : Nat} {x : α}, l[i]? = some x → p x = true →
      (∀ j y, j < i → l[j]? = some y → p y = false) →
      findIdxO p l = some i := by
  intro l
  induction l with
  | nil => intro i x hx; simp at hx
  | cons a as ih =>
    intro i x hx hp hbefore
    cases i with
    | zero =>
      simp only [List.getElem?_cons_zero, Option.some.injEq] at hx
      subst hx
      simp [findIdxO, hp]
    | succ i =>
      have ha : p a = false := hbefore 0 a (by omega) (by simp)
      simp only [List.getElem?_cons_succ] at hx
      simp only [findIdxO, ha, Bool.false_eq_true, if_false]
      rw [ih hx hp (fun j y hj hy => hbefore (j + 1) y (by omega) (by simpa using hy))]
      rfl

theorem setFirst_map {p : α → Bool} {f : α → α} {g : α → β}
    (hg : ∀ a, g (f a) = g a) (l : List α) :
    (setFirst p f l).map g = l.map g := by
  induction l with
  | nil => rfl
  | cons x xs ih =>
    by_cases h : p x
    · simp [setFirst, h, hg]
    · simp [setFirst, h, ih]

theorem setFirst_eq_map {p : α → Bool} {f : α → α} {l : List α}
    (h : List.Pairwise (fun a b => p a = true → p b = false) l) :
    setFirst p f l = l.map (fun a => if p a then f a else a) := by
  induction l with
  | nil => rfl
  | cons x xs ih =>
    by_cases hx : p x
    · have : ∀ a ∈ xs, p a = false := fun a ha =>
        (List.pairwise_cons.mp h).1 a ha hx
      simp only [setFirst, hx, if_true, List.map_cons]
      congr 1
      have : xs.map (fun a => if p a then f a else a) = xs.map (fun a => a) := by
        apply List.map_congr_left
        intro a ha
        simp [this a ha]
      simp [this]
    · simp only [setFirst, hx, if_false, List.map_cons, if_neg hx]
      rw [ih (List.pairwise_cons.mp h).2]
      simp

theorem setFirst_eq_self {p : α → Bool} {f : α → α} {l : List α}
    (h : ∀ a ∈ l, p a = false) : setFirst p f l = l := by
  induction l with
  | nil => rfl
  | cons x xs ih =>
    simp [setFirst, h x (by simp), ih (fun a ha => h a (by simp [ha]))]

theorem orderedInsert_of_forall_le {key : α → Int} {x : α} {l : List α}
    (h : ∀ z ∈ l, key x ≤ key z) :
    l.orderedInsert (keyLe key) x = x :: l := by
  cases l with
  | nil => rfl
  | cons y ys =>
    simp only [List.orderedInsert]
    rw [if_pos (show keyLe key x y from h y (by simp))]

theorem filter_orderedInsert {key : α → Int} (p : α → Bool) (x : α) :
    ∀ (l : List α), List.Sorted (keyLe key) l →
      (l.orderedInsert (keyLe key) x).filter p =
        if p x then (l.filter p).orderedInsert (keyLe key) x
        else l.filter p := by
  intro l
  induction l with
  | nil =>
    intro _
    by_cases hx : p x <;> simp [List.orderedInsert, hx]
  | cons y ys ih =>
    intro hs
    have hys : List.Sorted (keyLe key) ys := hs.of_cons
    have hyall : ∀ b ∈ ys, keyLe key y b := List.rel_of_sorted_cons hs
    by_cases hxy : keyLe key x y
    · rw [List.orderedInsert, if_pos hxy]
      by_cases hx : p x
      · by_cases hy : p y
        · simp only [List.filter_cons, hx, hy, if_pos, if_true]
          rw [List.orderedInsert, if_pos hxy]
        · simp only [List.filter_cons, hx, hy, if_true]
          simp only [Bool.false_eq_true, if_false]
          rw [orderedInsert_of_forall_le]
          intro z hz
          have hzys : z ∈ ys := List.mem_of_mem_filter hz
          exact Int.le_trans hxy (hyall z hzys)
      · simp [List.filter_cons, hx]
    · rw [List.orderedInsert, if_neg hxy]
      by_cases hy : p y
      · simp only [List.filter_cons, hy, if_true, ih hys]
        by_cases hx : p x
        · simp only [hx, if_true]
          rw [List.orderedInsert, if_neg hxy]
        · simp [hx]
      · simp only [List.filter_cons, hy, Bool.false_eq_true, if_false, ih hys]

theorem filter_insertionSort {key : α → Int} (p : α → Bool) (l : List α) :
    (List.insertionSort (keyLe key) l).filter p =
      List.insertionSort (keyLe key) (l.filter p) := by
  induction l with
  | nil => rfl
  | cons x xs ih =>
    simp only [List.insertionSort]
    rw [filter_orderedInsert p x _ (List.sorted_insertionSort _ xs)]
    by_cases hx : p x
    · simp only [hx, if_true, List.filter_cons, ih, List.insertionSort]
    · simp [hx, List.filter_cons, ih]

theorem sorted_lt_of_sorted_le_nodup {key : α → Int} {l : List α}
    (hs : List.Sorted (keyLe key) l) (hn : (l.map key).Nodup) :
    List.Sorted (keyLt key) l := by
  have hn' : List.Pairwise (fun a b => key a ≠ key b) l :=
    (List.pairwise_map.mp hn)
  exact (hs.and hn').imp (fun h => lt_of_le_of_ne h.1 h.2)

theorem filter_or_perm {p q : α → Bool}
    (hdisj : ∀ x, ¬(p x = true ∧ q x = true)) :
    ∀ l : List α,
      List.Perm (l.filter (fun x => p x || q x))
        (l.filter p ++ l.filter q) := by
  intro l
  induction l with
  | nil => simp
  | cons x xs ih =>
    by_cases hp : p x
    · have hq : q x = false :=
        Bool.eq_false_iff.mpr (fun h => hdisj x ⟨hp, h⟩)
      simp only [List.filter_cons, hp, hq, Bool.true_or, if_true,
        Bool.false_eq_true, if_false]
      exact ih.cons x
    · by_cases hq : q x
      · simp only [List.filter_cons, hp, hq, Bool.false_eq_true, if_false,
          Bool.false_or, if_true]
        exact (ih.cons x).trans List.perm_middle.symm
      · simp only [List.filter_cons, hp, hq, Bool.false_eq_true, if_false,
          Bool.false_or]
        exact ih

theorem filter_eq_singleton_of_find? {p : α → Bool} {l : List α} {m : α}
    (hn : List.Pairwise (fun a b => p a = true → p b = false) l)
    (hf : l.find? p = some m) : l.filter p = [m] := by
  induction l with
  | nil => simp at hf
  | cons x xs ih =>
    by_cases hx : p x
    · rw [List.find?_cons_of_pos _ hx] at hf
      have hxs : ∀ a ∈ xs, p a = false := fun a ha =>
        (List.pairwise_cons.mp hn).1 a ha hx
      simp only [Option.some.injEq] at hf
      subst hf
      have hnilf : List.filter p xs = [] :=
        List.filter_eq_nil_iff.mpr (fun a ha => by simp [hxs a ha])
      simp [List.filter_cons, hx, hnilf]
    · rw [List.find?_cons_of_neg _ hx] at hf
      simp only [List.filter_cons, hx, Bool.false_eq_true, if_false]
      exact ih (List.pairwise_cons.mp hn).2 hf

theorem find?_map (g : α → β) (p : β → Bool) (l : List α) :
    (l.map g).find? p = (l.find? (fun a => p (g a))).map g := by
  induction l with
  | nil => rfl
  | cons x xs ih =>
    by_cases hx : p (g x)
    · simp [List.find?_cons_of_pos, hx]
    · simp only [List.map_cons, List.find?_cons, hx, Bool.false_eq_true,
        if_false]
      simpa using ih

end ListLemmas

/-! ### Properties of the task-list planner -/

section TaskPlannerProofs

open TaskListSortable

theorem renumber_getElem? (target : Option String) :
    ∀ (k : Nat) (l : List Task) (i : Nat),
      (renumber target k l)[i]? =
        (l[i]?).map (fun t => ⟨t.id, ((k + i : Nat) : Int) * 1000, target⟩) := by
  intro k l
  induction l generalizing k with
  | nil => intro i; simp [renumber]
  | cons t ts ih =>
    intro i
    cases i with
    | zero => simp [renumber]
    | succ i =>
      have hk : k + (i + 1) = (k + 1) + i := by omega
      rw [hk]
      simp only [renumber, List.getElem?_cons_succ]
      exact ih (k + 1) i

theorem renumber_length (target : Option String) :
    ∀ (k : Nat) (l : List Task), (renumber target k l).length = l.length := by
  intro k l
  induction l generalizing k with
  | nil => rfl
  | cons t ts ih => simp [renumber, ih]

theorem renumber_map_id (target : Option String) :
    ∀ (k : Nat) (l : List Task),
      (renumber target k l).map TaskUpdate.id = l.map Task.id := by
  intro k l
  induction l generalizing k with
  | nil => rfl
  | cons t ts ih => simp [renumber, ih]

theorem renumber_congr_ids (target : Option String) :
    ∀ (k : Nat) (l₁ l₂ : List Task), l₁.map Task.id = l₂.map Task.id →
      renumber target k l₁ = renumber target k l₂ := by
  intro k l₁
  induction l₁ generalizing k with
  | nil =>
    intro l₂ h
    cases l₂ with
    | nil => rfl
    | cons _ _ => simp at h
  | cons t ts ih =>
    intro l₂ h
    cases l₂ with
    | nil => simp at h
    | cons s ss =>
      simp only [List.map_cons, List.cons.injEq] at h
      simp [renumber, h.1, ih (k + 1) ss h.2]

/-- The working sibling list of the planner (sort, then drop the moved
node) equals the specification's reading (drop the moved node from the
container members, then sort). -/
theorem siblingsWithout_eq_sort_filter (tasks : List Task)
    (target : Option String) (taskId : String) :
    siblingsWithout tasks target taskId =
      List.insertionSort (keyLe oiKey)
        (tasks.filter (fun t => containerEq target t && t.id != taskId)) := by
  unfold siblingsWithout siblingsOf
  rw [filter_insertionSort]
  congr 1
  rw [List.filter_filter]
  exact List.filter_congr (fun a _ => by rw [Bool.and_comm])

end TaskPlannerProofs

/-! ### Properties of the side-list planner -/

section SidePlannerProofs

open SideListSortable

theorem renumberS_getElem? (target : Option String) :
    ∀ (k : Nat) (l : List SideItem) (i : Nat),
      (renumberS target k l)[i]? =
        (l[i]?).map (fun t =>
          ⟨t.id, t.itype, ((k + i : Nat) : Int) * 1000,
            if t.itype == "folder" then some target else none,
            if t.itype == "folder" then none else some target⟩) := by
  intro k l
  induction l generalizing k with
  | nil => intro i; simp [renumberS]
  | cons t ts ih =>
    intro i
    cases i with
    | zero => simp [renumberS]
    | succ i =>
      have hk : k + (i + 1) = (k + 1) + i := by omega
      rw [hk]
      simp only [renumberS, List.getElem?_cons_succ]
      exact ih (k + 1) i

/-- Side-list analogue of `siblingsWithout_eq_sort_filter`: dropping the
moved item after sorting equals sorting the container members without it. -/
theorem itemsWithout_eq_sort_filter (st : SideState)
    (target : Option String) (id : String) :
    itemsWithout st target id =
      List.insertionSort (keyLe oiKeyS)
        ((allItemsOf st target).filter (fun t => t.id != id)) := by
  unfold itemsWithout sortedItemsOf
  rw [filter_insertionSort]

end SidePlannerProofs

/-- C1, task-list part: with the moved node present, the planner returns
the full replacement set of the target container. -/
theorem taskPlanner_full_replacement
    (tasks : List TaskListSortable.Task) (taskId : String)
    (target prevId nextId : Option String)
    (moved : TaskListSortable.Task)
    (hfound : tasks.find? (fun t => t.id == taskId) = some moved) :
    ∃ us, TaskListSortable.buildUpdatesArray tasks taskId target prevId nextId
        = some us ∧
      us = TaskListSortable.renumber target 0
        (spliceAt
          (TaskListSortable.insertIndexOf
            (TaskListSortable.siblingsWithout tasks target taskId)
            prevId nextId.isNone)
          moved
          (List.insertionSort (keyLe TaskListSortable.oiKey)
            (tasks.filter (fun t =>
              TaskListSortable.containerEq target t && t.id != taskId)))) ∧
      (∀ (i : Nat) (u : TaskListSortable.TaskUpdate), us[i]? = some u →
        u.orderIndex = (i : Int) * 1000 ∧ u.parentTaskId = target) ∧
      (∀ (i : Nat) (u v : TaskListSortable.TaskUpdate),
        us[i]? = some u → us[i + 1]? = some v →
        v.orderIndex - u.orderIndex = 1000) := by
  refine ⟨TaskListSortable.renumber target 0
    (spliceAt
      (TaskListSortable.insertIndexOf
        (TaskListSortable.siblingsWithout tasks target taskId)
        prevId nextId.isNone)
      moved (TaskListSortable.siblingsWithout tasks target taskId)),
    by simp [TaskListSortable.buildUpdatesArray, hfound], ?_, ?_, ?_⟩
  · rw [siblingsWithout_eq_sort_filter]
  · intro i u hu
    rw [renumber_getElem? target 0 _ i] at hu
    rcases Option.map_eq_some'.mp hu with ⟨t, _, ht⟩
    refine ⟨?_, ?_⟩
    · rw [← ht]
      simp
    · rw [← ht]
  · intro i u v hu hv
    rw [renumber_getElem? target 0 _ i] at hu
    rw [renumber_getElem? target 0 _ (i + 1)] at hv
    rcases Option.map_eq_some'.mp hu with ⟨t, _, ht⟩
    rcases Option.map_eq_some'.mp hv with ⟨st, _, hs⟩
    rw [← ht, ← hs]
    push_cast
    ring

/-- C1, side-list part: with the dropped item found, the planner returns
the full replacement set of the target folder across all item kinds. -/
theorem sidePlanner_full_replacement
    (st : SideListSortable.SideState) (itype id : String)
    (target prevId nextId : Option String)
    (dropped : SideListSortable.SideItem)
    (hfound : SideListSortable.findDropped st itype id = some dropped) :
    ∃ us, SideListSortable.buildUpdatesArray st itype id target prevId nextId
        = some us ∧
      us = SideListSortable.renumberS target 0
        (spliceAt
          (SideListSortable.insertIndexOfS
            (SideListSortable.itemsWithout st target id)
            prevId nextId.isNone)
          dropped
          (List.insertionSort (keyLe SideListSortable.oiKeyS)
            ((SideListSortable.allItemsOf st target).filter
              (fun t => t.id != id)))) ∧
      (∀ (i : Nat) (u : SideListSortable.SideUpdate), us[i]? = some u →
        u.orderIndex = (i : Int) * 1000 ∧
        u.parentId = (if u.itype == "folder" then some target else none) ∧
        u.folderId = (if u.itype == "folder" then none else some target)) ∧
      (∀ (i : Nat) (u v : SideListSortable.SideUpdate),
        us[i]? = some u → us[i + 1]? = some v →
        v.orderIndex - u.orderIndex = 1000) := by
  refine ⟨SideListSortable.renumberS target 0
    (spliceAt
      (SideListSortable.insertIndexOfS
        (SideListSortable.itemsWithout st target id)
        prevId nextId.isNone)
      dropped (SideListSortable.itemsWithout st target id)),
    by simp [SideListSortable.buildUpdatesArray, hfound], ?_, ?_, ?_⟩
  · rw [itemsWithout_eq_sort_filter]
  · intro i u hu
    rw [renumberS_getElem? target 0 _ i] at hu
    rcases Option.map_eq_some'.mp hu with ⟨t, _, ht⟩
    refine ⟨?_, ?_, ?_⟩
    · rw [← ht]
      simp
    · rw [← ht]
    · rw [← ht]
  · intro i u v hu hv
    rw [renumberS_getElem? target 0 _ i] at hu
    rw [renumberS_getElem? target 0 _ (i + 1)] at hv
    rcases Option.map_eq_some'.mp hu with ⟨t, _, ht⟩
    rcases Option.map_eq_some'.mp hv with ⟨w, _, hw⟩
    rw [← ht, ← hw]
    push_cast
    ring

/-- C1: for every planner invocation where the moved node exists, the
returned update list is exactly the target container's membership (current
members of the container minus the moved node, sorted ascending by current
order index, with the moved node spliced in), each entry `i` being emitted
with `orderIndex = i * 1000` and its parent/container field set to the
target parent — including entries whose position did not change — so
adjacent entries always differ by exactly 1000.  Stated for both the
task-list planner and the heterogeneous side-list planner. -/
theorem claim_C1_full_replacement_stride :
    (∀ (tasks : List TaskListSortable.Task) (taskId : String)
      (target prevId nextId : Option String)
      (moved : TaskListSortable.Task),
      tasks.find? (fun t => t.id == taskId) = some moved →
      ∃ us, TaskListSortable.buildUpdatesArray tasks taskId target prevId
          nextId = some us ∧
        us = TaskListSortable.renumber target 0
          (spliceAt
            (TaskListSortable.insertIndexOf
              (TaskListSortable.siblingsWithout tasks target taskId)
              prevId nextId.isNone)
            moved
            (List.insertionSort (keyLe TaskListSortable.oiKey)
              (tasks.filter (fun t =>
                TaskListSortable.containerEq target t && t.id != taskId)))) ∧
        (∀ (i : Nat) (u : TaskListSortable.TaskUpdate), us[i]? = some u →
          u.orderIndex = (i : Int) * 1000 ∧ u.parentTaskId = target) ∧
        (∀ (i : Nat) (u v : TaskListSortable.TaskUpdate),
          us[i]? = some u → us[i + 1]? = some v →
          v.orderIndex - u.orderIndex = 1000)) ∧
    (∀ (st : SideListSortable.SideState) (itype id : String)
      (target prevId nextId : Option String)
      (dropped : SideListSortable.SideItem),
      SideListSortable.findDropped st itype id = some dropped →
      ∃ us, SideListSortable.buildUpdatesArray st itype id target prevId
          nextId = some us ∧
        us = SideListSortable.renumberS target 0
          (spliceAt
            (SideListSortable.insertIndexOfS
              (SideListSortable.itemsWithout st target id)
              prevId nextId.isNone)
            dropped
            (List.insertionSort (keyLe SideListSortable.oiKeyS)
              ((SideListSortable.allItemsOf st target).filter
                (fun t => t.id != id)))) ∧
        (∀ (i : Nat) (u : SideListSortable.SideUpdate), us[i]? = some u →
          u.orderIndex = (i : Int) * 1000 ∧
          u.parentId = (if u.itype == "folder" then some target else none) ∧
          u.folderId = (if u.itype == "folder" then none else some target)) ∧
        (∀ (i : Nat) (u v : SideListSortable.SideUpdate),
          us[i]? = some u → us[i + 1]? = some v →
          v.orderIndex - u.orderIndex = 1000)) :=
  ⟨fun tasks taskId target prevId nextId moved h =>
      taskPlanner_full_replacement tasks taskId target prevId nextId moved h,
    fun st itype id target prevId nextId dropped h =>
      sidePlanner_full_replacement st itype id target prevId nextId dropped h⟩

/-- Witness for C1 at concrete inputs: a two-task collection with task
`"b"` dropped after `"a"` at root, and a one-folder one-objective side
list with the objective dropped into the root container. -/
theorem claim_C1_full_replacement_stride_witness :
    ((([⟨"a", none, some 0, ""⟩, ⟨"b", none, some 1000, ""⟩] :
        List TaskListSortable.Task).find? (fun t => t.id == "b") =
        some ⟨"b", none, some 1000, ""⟩) ∧
      ∃ us, TaskListSortable.buildUpdatesArray
          [⟨"a", none, some 0, ""⟩, ⟨"b", none, some 1000, ""⟩] "b" none
          (some "a") none = some us ∧
        us = TaskListSortable.renumber none 0
          (spliceAt
            (TaskListSortable.insertIndexOf
              (TaskListSortable.siblingsWithout
                [⟨"a", none, some 0, ""⟩, ⟨"b", none, some 1000, ""⟩]
                none "b")
              (some "a") (none : Option String).isNone)
            ⟨"b", none, some 1000, ""⟩
            (List.insertionSort (keyLe TaskListSortable.oiKey)
              (([⟨"a", none, some 0, ""⟩, ⟨"b", none, some 1000, ""⟩] :
                List TaskListSortable.Task).filter (fun t =>
                TaskListSortable.containerEq none t && t.id != "b")))) ∧
        (∀ (i : Nat) (u : TaskListSortable.TaskUpdate), us[i]? = some u →
          u.orderIndex = (i : Int) * 1000 ∧ u.parentTaskId = none) ∧
        (∀ (i : Nat) (u v : TaskListSortable.TaskUpdate),
          us[i]? = some u → us[i + 1]? = some v →
          v.orderIndex - u.orderIndex = 1000)) :=
  ⟨by decide,
    claim_C1_full_replacement_stride.1
      [⟨"a", none, some 0, ""⟩, ⟨"b", none, some 1000, ""⟩] "b" none
      (some "a") none ⟨"b", none, some 1000, ""⟩ (by decide)⟩

/-- C2 counterexample: the claim's fallbacks do not match the code.
With siblings `a, b` and task `"b"` dropped after a stale neighbour
`"ghost"`, end-of-list insertion (the claim) would order the container
`a, b`, but the planner puts the moved node first (`b, a`, index 0).
With siblings `a, b, c` and task `"c"` dropped with no previous neighbour
and next neighbour `"b"` (at index 1 of the sorted sibling list),
insertion before `"b"` (the claim) would order the container `a, c, b`,
but the planner again puts the moved node first (`c, a, b`). -/
theorem claim_C2_counterexample :
    ((TaskListSortable.siblingsWithout
        [⟨"a", none, some 0, ""⟩, ⟨"b", none, some 1000, ""⟩] none "b"
        ++ ([⟨"b", none, some 1000, ""⟩] : List TaskListSortable.Task)).map
        (fun t => t.id) = ["a", "b"] ∧
      (TaskListSortable.buildUpdatesArray
        [⟨"a", none, some 0, ""⟩, ⟨"b", none, some 1000, ""⟩] "b" none
        (some "ghost") none).map (fun us => us.map (fun u => u.id)) =
        some ["b", "a"] ∧
      (["b", "a"] : List String) ≠ ["a", "b"]) ∧
    ((TaskListSortable.siblingsWithout
        [⟨"a", none, some 0, ""⟩, ⟨"b", none, some 1000, ""⟩,
          ⟨"c", none, some 2000, ""⟩] none "c")[1]? =
        some ⟨"b", none, some 1000, ""⟩ ∧
      (TaskListSortable.buildUpdatesArray
        [⟨"a", none, some 0, ""⟩, ⟨"b", none, some 1000, ""⟩,
          ⟨"c", none, some 2000, ""⟩] "c" none none (some "b")).map
          (fun us => us.map (fun u => u.id)) = some ["c", "a", "b"] ∧
      (["c", "a", "b"] : List String) ≠ ["a", "c", "b"]) := by
  refine ⟨⟨by decide, by decide, by decide⟩, ⟨by decide, by decide, by decide⟩⟩

/-- C2 amended: when `prevSiblingId` is given but does not occur in the
sorted sibling list of the target container (a stale reference), the
planner falls back to start-of-list insertion (index 0) — the moved node
is placed before all remaining siblings — rather than failing; and when
`prevSiblingId` is absent but `nextSiblingId` is given, the planner also
inserts at index 0 (which coincides with inserting immediately before
`nextSiblingId` exactly when that sibling is first in the sorted list).
Stated for both planners. -/
theorem claim_C2_amended_fallback_to_front :
    (∀ (tasks : List TaskListSortable.Task) (taskId p : String)
      (target nextId : Option String) (moved : TaskListSortable.Task),
      tasks.find? (fun t => t.id == taskId) = some moved →
      p ∉ (TaskListSortable.siblingsWithout tasks target taskId).map
        (fun t => t.id) →
      TaskListSortable.buildUpdatesArray tasks taskId target (some p) nextId
        = some (TaskListSortable.renumber target 0
          (moved :: TaskListSortable.siblingsWithout tasks target taskId))) ∧
    (∀ (tasks : List TaskListSortable.Task) (taskId n : String)
      (target : Option String) (moved : TaskListSortable.Task),
      tasks.find? (fun t => t.id == taskId) = some moved →
      TaskListSortable.buildUpdatesArray tasks taskId target none (some n)
        = some (TaskListSortable.renumber target 0
          (moved :: TaskListSortable.siblingsWithout tasks target taskId))) ∧
    (∀ (st : SideListSortable.SideState) (itype id p : String)
      (target nextId : Option String) (dropped : SideListSortable.SideItem),
      SideListSortable.findDropped st itype id = some dropped →
      p ∉ (SideListSortable.itemsWithout st target id).map (fun t => t.id) →
      SideListSortable.buildUpdatesArray st itype id target (some p) nextId
        = some (SideListSortable.renumberS target 0
          (dropped :: SideListSortable.itemsWithout st target id))) ∧
    (∀ (st : SideListSortable.SideState) (itype id n : String)
      (target : Option String) (dropped : SideListSortable.SideItem),
      SideListSortable.findDropped st itype id = some dropped →
      SideListSortable.buildUpdatesArray st itype id target none (some n)
        = some (SideListSortable.renumberS target 0
          (dropped :: SideListSortable.itemsWithout st target id))) := by
  refine ⟨?_, ?_, ?_, ?_⟩
  · intro tasks taskId p target nextId moved hfound hp
    have hidx : findIdxO (fun t => t.id == p)
        (TaskListSortable.siblingsWithout tasks target taskId) = none := by
      apply findIdxO_eq_none
      intro t ht
      have : t.id ≠ p := fun he => hp (he ▸ List.mem_map_of_mem _ ht)
      simpa using this
    simp [TaskListSortable.buildUpdatesArray, hfound,
      TaskListSortable.insertIndexOf, hidx, spliceAt]
  · intro tasks taskId n target moved hfound
    simp [TaskListSortable.buildUpdatesArray, hfound,
      TaskListSortable.insertIndexOf, spliceAt]
  · intro st itype id p target nextId dropped hfound hp
    have hidx : findIdxO (fun t => t.id == p)
        (SideListSortable.itemsWithout st target id) = none := by
      apply findIdxO_eq_none
      intro t ht
      have : t.id ≠ p := fun he => hp (he ▸ List.mem_map_of_mem _ ht)
      simpa using this
    simp [SideListSortable.buildUpdatesArray, hfound,
      SideListSortable.insertIndexOfS, hidx, spliceAt]
  · intro st itype id n target dropped hfound
    simp [SideListSortable.buildUpdatesArray, hfound,
      SideListSortable.insertIndexOfS, spliceAt]

/-- Witness for the amended C2 at concrete inputs: the stale-neighbour
case and the next-only case from the counterexample. -/
theorem claim_C2_amended_fallback_to_front_witness :
    (TaskListSortable.buildUpdatesArray
      [⟨"a", none, some 0, ""⟩, ⟨"b", none, some 1000, ""⟩] "b" none
      (some "ghost") none = some (TaskListSortable.renumber none 0
        (⟨"b", none, some 1000, ""⟩ ::
          TaskListSortable.siblingsWithout
            [⟨"a", none, some 0, ""⟩, ⟨"b", none, some 1000, ""⟩]
            none "b"))) ∧
    (TaskListSortable.buildUpdatesArray
      [⟨"a", none, some 0, ""⟩, ⟨"b", none, some 1000, ""⟩,
        ⟨"c", none, some 2000, ""⟩] "c" none none (some "b")
      = some (TaskListSortable.renumber none 0
        (⟨"c", none, some 2000, ""⟩ ::
          TaskListSortable.siblingsWithout
            [⟨"a", none, some 0, ""⟩, ⟨"b", none, some 1000, ""⟩,
              ⟨"c", none, some 2000, ""⟩] none "c"))) :=
  ⟨claim_C2_amended_fallback_to_front.1
      [⟨"a", none, some 0, ""⟩, ⟨"b", none, some 1000, ""⟩] "b" "ghost"
      none none ⟨"b", none, some 1000, ""⟩ (by decide) (by decide),
    claim_C2_amended_fallback_to_front.2.1
      [⟨"a", none, some 0, ""⟩, ⟨"b", none, some 1000, ""⟩,
        ⟨"c", none, some 2000, ""⟩] "c" "b" none
      ⟨"c", none, some 2000, ""⟩ (by decide)⟩

/-- C9: the planner is deterministic — two runs on equal inputs (same
move id, target, neighbours and the same node collection in the same
order) return identical ordered update lists; ties on the current order
index are resolved by collection order (the stable sort), as the pinned
run on a collection with duplicate order indices shows. -/
theorem claim_C9_determinism :
    (∀ (tasks₁ tasks₂ : List TaskListSortable.Task) (taskId₁ taskId₂ : String)
      (target₁ target₂ prev₁ prev₂ next₁ next₂ : Option String),
      tasks₁ = tasks₂ → taskId₁ = taskId₂ → target₁ = target₂ →
      prev₁ = prev₂ → next₁ = next₂ →
      TaskListSortable.buildUpdatesArray tasks₁ taskId₁ target₁ prev₁ next₁ =
        TaskListSortable.buildUpdatesArray tasks₂ taskId₂ target₂ prev₂ next₂) ∧
    (∀ (st₁ st₂ : SideListSortable.SideState) (itype₁ itype₂ id₁ id₂ : String)
      (target₁ target₂ prev₁ prev₂ next₁ next₂ : Option String),
      st₁ = st₂ → itype₁ = itype₂ → id₁ = id₂ → target₁ = target₂ →
      prev₁ = prev₂ → next₁ = next₂ →
      SideListSortable.buildUpdatesArray st₁ itype₁ id₁ target₁ prev₁ next₁ =
        SideListSortable.buildUpdatesArray st₂ itype₂ id₂ target₂ prev₂ next₂) ∧
    (TaskListSortable.buildUpdatesArray
      [⟨"x", none, some 0, ""⟩, ⟨"y", none, some 0, ""⟩,
        ⟨"z", none, some 5, ""⟩] "z" none (some "y") none =
      some [⟨"x", 0, none⟩, ⟨"y", 1000, none⟩, ⟨"z", 2000, none⟩]) := by
  refine ⟨?_, ?_, by decide⟩
  · intro tasks₁ tasks₂ taskId₁ taskId₂ target₁ target₂ prev₁ prev₂ next₁
      next₂ h₁ h₂ h₃ h₄ h₅
    rw [h₁, h₂, h₃, h₄, h₅]
  · intro st₁ st₂ itype₁ itype₂ id₁ id₂ target₁ target₂ prev₁ prev₂ next₁
      next₂ h₁ h₂ h₃ h₄ h₅ h₆
    rw [h₁, h₂, h₃, h₄, h₅, h₆]

/-- Witness for C9: both determinism parts applied at a concrete pair of
equal runs. -/
theorem claim_C9_determinism_witness :
    (TaskListSortable.buildUpdatesArray [⟨"x", none, some 0, ""⟩] "x" none
        none none =
      TaskListSortable.buildUpdatesArray [⟨"x", none, some 0, ""⟩] "x" none
        none none) ∧
    (SideListSortable.buildUpdatesArray ⟨[], [⟨"o", none, some 0⟩], [], [], []⟩
        "objective" "o" none none none =
      SideListSortable.buildUpdatesArray ⟨[], [⟨"o", none, some 0⟩], [], [], []⟩
        "objective" "o" none none none) :=
  ⟨claim_C9_determinism.1 [⟨"x", none, some 0, ""⟩] [⟨"x", none, some 0, ""⟩]
      "x" "x" none none none none none none rfl rfl rfl rfl rfl,
    claim_C9_determinism.2.1 ⟨[], [⟨"o", none, some 0⟩], [], [], []⟩
      ⟨[], [⟨"o", none, some 0⟩], [], [], []⟩ "objective" "objective" "o" "o"
      none none none none none none rfl rfl rfl rfl rfl rfl⟩

/-- C8: when the moved node does not exist in the node collection, the
planner returns no plan (`InvalidMove`: `buildUpdatesArray` yields null),
and the position-update entry point leaves the local state untouched and
issues no persistence call.  Stated for both adapters. -/
theorem claim_C8_invalid_move_no_updates :
    (∀ (tasks : List TaskListSortable.Task) (taskId : String)
      (target prevId nextId : Option String) (persistResults : List Bool),
      taskId ∉ tasks.map (fun t => t.id) →
      TaskListSortable.buildUpdatesArray tasks taskId target prevId nextId
          = none ∧
      TaskListSortable.updateTaskPosition tasks taskId target prevId nextId
          persistResults = ⟨tasks, [], false, false⟩) ∧
    (∀ (st : SideListSortable.SideState) (itype id : String)
      (target prevId nextId : Option String) (persistResults : List Bool),
      id ∉ st.folders.map (fun f => f.id) →
      id ∉ st.objectives.map (fun o => o.id) →
      id ∉ st.notes.map (fun n => n.id) →
      id ∉ st.bookmarks.map (fun b => b.id) →
      id ∉ st.taskLists.map (fun tl => tl.id) →
      SideListSortable.buildUpdatesArray st itype id target prevId nextId
          = none ∧
      SideListSortable.updateItemPosition st itype id target prevId nextId
          persistResults = ⟨st, [], false, false⟩) := by
  constructor
  · intro tasks taskId target prevId nextId persistResults hmem
    have hfind : tasks.find? (fun t => t.id == taskId) = none := by
      apply List.find?_eq_none.mpr
      intro t ht
      have : t.id ≠ taskId := fun he => hmem (he ▸ List.mem_map_of_mem _ ht)
      simpa using this
    constructor
    · simp [TaskListSortable.buildUpdatesArray, hfind]
    · simp [TaskListSortable.updateTaskPosition,
        TaskListSortable.buildUpdatesArray, hfind]
  · intro st itype id target prevId nextId persistResults h₁ h₂ h₃ h₄ h₅
    have hf : st.folders.find? (fun f => f.id == id) = none := by
      apply List.find?_eq_none.mpr
      intro x hx
      have : x.id ≠ id := fun he => h₁ (he ▸ List.mem_map_of_mem _ hx)
      simpa using this
    have ho : st.objectives.find? (fun o => o.id == id) = none := by
      apply List.find?_eq_none.mpr
      intro x hx
      have : x.id ≠ id := fun he => h₂ (he ▸ List.mem_map_of_mem _ hx)
      simpa using this
    have hn : st.notes.find? (fun n => n.id == id) = none := by
      apply List.find?_eq_none.mpr
      intro x hx
      have : x.id ≠ id := fun he => h₃ (he ▸ List.mem_map_of_mem _ hx)
      simpa using this
    have hb : st.bookmarks.find? (fun b => b.id == id) = none := by
      apply List.find?_eq_none.mpr
      intro x hx
      have : x.id ≠ id := fun he => h₄ (he ▸ List.mem_map_of_mem _ hx)
      simpa using this
    have htl : st.taskLists.find? (fun tl => tl.id == id) = none := by
      apply List.find?_eq_none.mpr
      intro x hx
      have : x.id ≠ id := fun he => h₅ (he ▸ List.mem_map_of_mem _ hx)
      simpa using this
    have hdrop : SideListSortable.findDropped st itype id = none := by
      unfold SideListSortable.findDropped
      split_ifs <;> simp [hf, ho, hn, hb, htl]
    constructor
    · simp [SideListSortable.buildUpdatesArray, hdrop]
    · simp [SideListSortable.updateItemPosition,
        SideListSortable.buildUpdatesArray, hdrop]

/-- Witness for C8: a one-task collection with an unknown move id, and a
side list asked to move an id absent from every collection. -/
theorem claim_C8_invalid_move_no_updates_witness :
    (TaskListSortable.buildUpdatesArray [⟨"a", none, some 0, ""⟩] "nope"
        none none none = none ∧
      TaskListSortable.updateTaskPosition [⟨"a", none, some 0, ""⟩] "nope"
        none none none [true] =
        ⟨[⟨"a", none, some 0, ""⟩], [], false, false⟩) ∧
    (SideListSortable.buildUpdatesArray
        ⟨[⟨"f", none, some 0⟩], [], [], [], []⟩ "folder" "nope" none none
        none = none ∧
      SideListSortable.updateItemPosition
        ⟨[⟨"f", none, some 0⟩], [], [], [], []⟩ "folder" "nope" none none
        none [true] =
        ⟨⟨[⟨"f", none, some 0⟩], [], [], [], []⟩, [], false, false⟩) :=
  ⟨claim_C8_invalid_move_no_updates.1 [⟨"a", none, some 0, ""⟩] "nope" none
      none none [true] (by decide),
    claim_C8_invalid_move_no_updates.2
      ⟨[⟨"f", none, some 0⟩], [], [], [], []⟩ "folder" "nope" none none none
      [true] (by decide) (by decide) (by decide) (by decide) (by decide)⟩

/-! ### Rollback of the optimistic mutation (C3) -/

section RollbackProofs

open TaskListSortable

theorem applyOne_id (t : Task) (u : TaskUpdate) : (applyOne t u).id = t.id := by
  unfold applyOne
  split <;> rfl

theorem applyOne_text (t : Task) (u : TaskUpdate) :
    (applyOne t u).text = t.text := by
  unfold applyOne
  split <;> rfl

theorem foldl_applyOne_id (us : List TaskUpdate) :
    ∀ t : Task, (us.foldl applyOne t).id = t.id := by
  induction us with
  | nil => intro t; rfl
  | cons u us ih =>
    intro t
    simp only [List.foldl_cons]
    rw [ih (applyOne t u), applyOne_id]

theorem foldl_applyOne_text (us : List TaskUpdate) :
    ∀ t : Task, (us.foldl applyOne t).text = t.text := by
  induction us with
  | nil => intro t; rfl
  | cons u us ih =>
    intro t
    simp only [List.foldl_cons]
    rw [ih (applyOne t u), applyOne_text]

theorem foldl_applyOne_of_no_match {us : List TaskUpdate} {t : Task}
    (h : ∀ u ∈ us, u.id ≠ t.id) : us.foldl applyOne t = t := by
  induction us with
  | nil => rfl
  | cons u us ih =>
    simp only [List.foldl_cons]
    have hu : applyOne t u = t := by
      unfold applyOne
      rw [if_neg]
      simp only [beq_iff_eq]
      exact fun he => h u (by simp) he.symm
    rw [hu]
    exact ih (fun v hv => h v (by simp [hv]))

theorem applyUpdatesLocally_eq_map :
    ∀ (us : List TaskUpdate) (tasks : List Task),
      tasks.Pairwise (fun a b => a.id ≠ b.id) →
      applyUpdatesLocally tasks us =
        tasks.map (fun t => us.foldl applyOne t) := by
  intro us
  induction us with
  | nil =>
    intro tasks _
    simp [applyUpdatesLocally]
  | cons u us ih =>
    intro tasks hnd
    have hstep : applyUpdatesLocally tasks (u :: us) =
        applyUpdatesLocally
          (setFirst (fun t => t.id == u.id)
            (fun t => { t with orderIndex := some u.orderIndex,
                               parentTaskId := u.parentTaskId }) tasks) us := rfl
    have hsf : setFirst (fun t => t.id == u.id)
        (fun t => { t with orderIndex := some u.orderIndex,
                           parentTaskId := u.parentTaskId }) tasks
        = tasks.map (fun t => applyOne t u) := by
      rw [setFirst_eq_map (hnd.imp ?_)]
      · apply List.map_congr_left
        intro a _
        rfl
      · intro a b hab hpa
        have ha : a.id = u.id := by simpa using hpa
        have : b.id ≠ u.id := fun hb => hab (ha ▸ hb ▸ rfl)
        simpa using this
    have hnd' : (tasks.map (fun t => applyOne t u)).Pairwise
        (fun a b => a.id ≠ b.id) := by
      rw [List.pairwise_map]
      refine hnd.imp ?_
      intro a b hab
      rw [applyOne_id, applyOne_id]
      exact hab
    rw [hstep, hsf, ih _ hnd', List.map_map]
    apply List.map_congr_left
    intro a _
    simp [Function.comp, List.foldl_cons]

theorem snapshotOf_find_some :
    ∀ {tasks : List TaskListSortable.Task} (us : List TaskUpdate)
      {t : TaskListSortable.Task},
      tasks.Pairwise (fun a b => a.id ≠ b.id) → t ∈ tasks →
      us.any (fun u => u.id == t.id) = true →
      (snapshotOf tasks us).find? (fun s => s.id == t.id) =
        some ⟨t.id, t.orderIndex, t.parentTaskId⟩ := by
  intro tasks
  induction tasks with
  | nil =>
    intro us t _ ht
    simp at ht
  | cons x xs ih =>
    intro us t hnd ht hany
    rcases List.mem_cons.mp ht with rfl | htx
    · simp only [snapshotOf, List.filter_cons, hany, if_true, List.map_cons]
      rw [List.find?_cons_of_pos]
      simp
    · have hxt : x.id ≠ t.id :=
        (List.pairwise_cons.mp hnd).1 t htx
      have ihx := ih us (List.pairwise_cons.mp hnd).2 htx hany
      by_cases hqx : us.any (fun u => u.id == x.id) = true
      · simp only [snapshotOf, List.filter_cons, hqx, if_true, List.map_cons]
        rw [List.find?_cons_of_neg]
        · exact ihx
        · simpa using hxt
      · simp only [snapshotOf, List.filter_cons,
          Bool.eq_false_iff.mpr hqx, Bool.false_eq_true, if_false]
        exact ihx

theorem snapshotOf_find_none {tasks : List TaskListSortable.Task}
    {us : List TaskUpdate} {t : TaskListSortable.Task}
    (h : us.any (fun u => u.id == t.id) = false) :
    (snapshotOf tasks us).find? (fun s => s.id == t.id) = none := by
  apply List.find?_eq_none.mpr
  intro s hs
  rcases List.mem_map.mp hs with ⟨w, hw, rfl⟩
  have hq : us.any (fun u => u.id == w.id) = true :=
    (List.mem_filter.mp hw).2
  intro hbeq
  have hwid : w.id = t.id := by simpa using hbeq
  rw [hwid] at hq
  rw [hq] at h
  exact absurd h (by simp)

theorem restoreSnapshot_applyUpdates (tasks : List TaskListSortable.Task)
    (us : List TaskUpdate)
    (hnd : tasks.Pairwise (fun a b => a.id ≠ b.id)) :
    restoreSnapshot (applyUpdatesLocally tasks us) (snapshotOf tasks us) =
      tasks := by
  rw [applyUpdatesLocally_eq_map us tasks hnd]
  unfold restoreSnapshot
  rw [List.map_map]
  have hpt : ∀ t ∈ tasks,
      ((fun t : TaskListSortable.Task =>
          match (snapshotOf tasks us).find? (fun s => s.id == t.id) with
          | some s => { t with orderIndex := s.orderIndex,
                               parentTaskId := s.parentTaskId }
          | none => t) ∘ (fun t => us.foldl applyOne t)) t
        = (fun t : TaskListSortable.Task => t) t := by
    intro t htmem
    simp only [Function.comp_apply, foldl_applyOne_id]
    by_cases hq : us.any (fun u => u.id == t.id) = true
    · rw [snapshotOf_find_some us hnd htmem hq]
      cases t with
      | mk tid tpk toi ttext =>
        simp [foldl_applyOne_id, foldl_applyOne_text]
    · rw [snapshotOf_find_none (Bool.eq_false_iff.mpr hq)]
      apply foldl_applyOne_of_no_match
      intro u hu he
      have hq' : us.any (fun v => v.id == t.id) = true :=
        List.any_eq_true.mpr ⟨u, hu, by simp [he]⟩
      exact hq hq'
  exact (List.map_congr_left hpt).trans (List.map_id' tasks)

end RollbackProofs

/-- Task-list half of C3: a failed persistence restores the collection
exactly and surfaces the toast. -/
theorem taskRollback_run :
    ∀ (tasks : List TaskListSortable.Task)
      (updates : List TaskListSortable.TaskUpdate)
      (persistResults : List Bool),
      (tasks.map (fun t => t.id)).Nodup →
      persistResults.all (fun b => b) = false →
      TaskListSortable.optimisticUpdateRun tasks updates persistResults =
        ⟨tasks, TaskListSortable.persistUpdates updates, true, false⟩ := by
  intro tasks updates persistResults hnd hfail
  have hp : tasks.Pairwise (fun a b => a.id ≠ b.id) :=
    List.pairwise_map.mp hnd
  unfold TaskListSortable.optimisticUpdateRun
  rw [hfail]
  simp only [Bool.false_eq_true, if_false]
  rw [restoreSnapshot_applyUpdates tasks updates hp]

/-! ### Rollback of the side-list optimistic mutation (C3, side part) -/

section SideRollbackProofs

open SideListSortable

theorem foldCond_eq_map {α : Type} (ident : α → String)
    (cond : SideUpdate → Bool) (ov : SideUpdate → α → α)
    (hovid : ∀ u a, ident (ov u a) = ident a) :
    ∀ (us : List SideUpdate) (l : List α),
      l.Pairwise (fun a b => ident a ≠ ident b) →
      us.foldl (fun acc u => if cond u then
          setFirst (fun x => ident x == u.id) (ov u) acc else acc) l
        = l.map (fun a => us.foldl (fun x u =>
            if cond u && (ident x == u.id) then ov u x else x) a) := by
  intro us
  induction us with
  | nil =>
    intro l _
    simp
  | cons u us ih =>
    intro l hnd
    simp only [List.foldl_cons]
    by_cases hc : cond u = true
    · rw [if_pos hc]
      have hsf : setFirst (fun x => ident x == u.id) (ov u) l
          = l.map (fun a =>
              if cond u && (ident a == u.id) then ov u a else a) := by
        rw [setFirst_eq_map (hnd.imp ?_)]
        · apply List.map_congr_left
          intro a _
          simp [hc]
        · intro a b hab hpa
          have ha : ident a = u.id := by simpa using hpa
          have : ident b ≠ u.id := fun hb => hab (ha ▸ hb ▸ rfl)
          simpa using this
      have hnd' : (l.map (fun a =>
          if cond u && (ident a == u.id) then ov u a else a)).Pairwise
          (fun a b => ident a ≠ ident b) := by
        rw [List.pairwise_map]
        refine hnd.imp ?_
        intro a b hab
        by_cases h1 : (cond u && (ident a == u.id)) = true <;>
          by_cases h2 : (cond u && (ident b == u.id)) = true <;>
          simp [h1, h2, hovid, hab]
      rw [hsf, ih _ hnd', List.map_map]
      apply List.map_congr_left
      intro a _
      simp [Function.comp, List.foldl_cons]
    · rw [if_neg hc]
      rw [ih _ hnd]
      apply List.map_congr_left
      intro a _
      have hcf : (cond u && (ident a == u.id)) = false := by
        simp [Bool.eq_false_iff.mpr hc]
      simp [List.foldl_cons, hcf]

theorem foldCondElem_id {α : Type} (ident : α → String)
    (cond : SideUpdate → Bool) (ov : SideUpdate → α → α)
    (hovid : ∀ u a, ident (ov u a) = ident a) (us : List SideUpdate) :
    ∀ a : α, ident (us.foldl (fun x u =>
        if cond u && (ident x == u.id) then ov u x else x) a) = ident a := by
  induction us with
  | nil => intro a; rfl
  | cons u us ih =>
    intro a
    simp only [List.foldl_cons]
    rw [ih]
    by_cases h : (cond u && (ident a == u.id)) = true
    · simp [h, hovid]
    · simp [h]

theorem foldCondElem_no_match {α : Type} (ident : α → String)
    (cond : SideUpdate → Bool) (ov : SideUpdate → α → α) :
    ∀ (us : List SideUpdate) (a : α),
      (∀ u ∈ us, (u.id == ident a) = false) →
      us.foldl (fun x u =>
        if cond u && (ident x == u.id) then ov u x else x) a = a := by
  intro us
  induction us with
  | nil => intro a _; rfl
  | cons u us ih =>
    intro a h
    have hu : (u.id == ident a) = false := h u (by simp)
    have hcond : (cond u && (ident a == u.id)) = false := by
      have hne : (ident a == u.id) = false := by
        simp only [beq_eq_false_iff_ne, ne_eq] at hu ⊢
        exact fun he => hu he.symm
      simp [hne]
    simp only [List.foldl_cons, hcond, Bool.false_eq_true, if_false]
    exact ih a (fun v hv => h v (by simp [hv]))

theorem applyS_one_folders (st : SideState) (u : SideUpdate) :
    (applyUpdatesLocally st [u]).folders =
      (if u.itype == "folder" then
        setFirst (fun f => f.id == u.id)
          (fun f => { f with orderIndex := some u.orderIndex,
                             parentId := joinOpt u.parentId }) st.folders
       else st.folders) := by
  unfold applyUpdatesLocally
  simp only [List.foldl_cons, List.foldl_nil]
  split_ifs <;> first | rfl | simp_all

theorem applyS_one_objectives (st : SideState) (u : SideUpdate) :
    (applyUpdatesLocally st [u]).objectives =
      (if u.itype == "objective" then
        setFirst (fun o => o.id == u.id)
          (fun o => { o with orderIndex := some u.orderIndex,
                             folderId := joinOpt u.folderId }) st.objectives
       else st.objectives) := by
  unfold applyUpdatesLocally
  simp only [List.foldl_cons, List.foldl_nil]
  split_ifs <;> first | rfl | simp_all

theorem applyS_one_notes (st : SideState) (u : SideUpdate) :
    (applyUpdatesLocally st [u]).notes =
      (if u.itype == "note" then
        setFirst (fun n => n.id == u.id)
          (fun n => { n with orderIndex := some u.orderIndex,
                             folderId := joinOpt u.folderId }) st.notes
       else st.notes) := by
  unfold applyUpdatesLocally
  simp only [List.foldl_cons, List.foldl_nil]
  split_ifs <;> first | rfl | simp_all

theorem applyS_one_bookmarks (st : SideState) (u : SideUpdate) :
    (applyUpdatesLocally st [u]).bookmarks =
      (if u.itype == "bookmark" then
        setFirst (fun b => b.id == u.id)
          (fun b => { b with orderIndex := some u.orderIndex,
                             folderId := joinOpt u.folderId }) st.bookmarks
       else st.bookmarks) := by
  unfold applyUpdatesLocally
  simp only [List.foldl_cons, List.foldl_nil]
  split_ifs <;> first | rfl | simp_all

theorem applyS_one_taskLists (st : SideState) (u : SideUpdate) :
    (applyUpdatesLocally st [u]).taskLists =
      (if u.itype == "task-list" then
        setFirst (fun tl => tl.id == u.id)
          (fun tl => { tl with orderIndex := some u.orderIndex,
                               folderId := joinOpt u.folderId }) st.taskLists
       else st.taskLists) := by
  unfold applyUpdatesLocally
  simp only [List.foldl_cons, List.foldl_nil]
  split_ifs <;> first | rfl | simp_all

theorem applyS_folders (us : List SideUpdate) :
    ∀ (st : SideState), (applyUpdatesLocally st us).folders =
      us.foldl (fun acc u => if u.itype == "folder" then
        setFirst (fun f => f.id == u.id)
          (fun f => { f with orderIndex := some u.orderIndex,
                             parentId := joinOpt u.parentId }) acc else acc)
        st.folders := by
  induction us with
  | nil => intro st; rfl
  | cons u us ih =>
    intro st
    rw [show applyUpdatesLocally st (u :: us)
        = applyUpdatesLocally (applyUpdatesLocally st [u]) us from rfl,
      ih, List.foldl_cons, applyS_one_folders]

theorem applyS_objectives (us : List SideUpdate) :
    ∀ (st : SideState), (applyUpdatesLocally st us).objectives =
      us.foldl (fun acc u => if u.itype == "objective" then
        setFirst (fun o => o.id == u.id)
          (fun o => { o with orderIndex := some u.orderIndex,
                             folderId := joinOpt u.folderId }) acc else acc)
        st.objectives := by
  induction us with
  | nil => intro st; rfl
  | cons u us ih =>
    intro st
    rw [show applyUpdatesLocally st (u :: us)
        = applyUpdatesLocally (applyUpdatesLocally st [u]) us from rfl,
      ih, List.foldl_cons, applyS_one_objectives]

theorem applyS_notes (us : List SideUpdate) :
    ∀ (st : SideState), (applyUpdatesLocally st us).notes =
      us.foldl (fun acc u => if u.itype == "note" then
        setFirst (fun n => n.id == u.id)
          (fun n => { n with orderIndex := some u.orderIndex,
                             folderId := joinOpt u.folderId }) acc else acc)
        st.notes := by
  induction us with
  | nil => intro st; rfl
  | cons u us ih =>
    intro st
    rw [show applyUpdatesLocally st (u :: us)
        = applyUpdatesLocally (applyUpdatesLocally st [u]) us from rfl,
      ih, List.foldl_cons, applyS_one_notes]

theorem applyS_bookmarks (us : List SideUpdate) :
    ∀ (st : SideState), (applyUpdatesLocally st us).bookmarks =
      us.foldl (fun acc u => if u.itype == "bookmark" then
        setFirst (fun b => b.id == u.id)
          (fun b => { b with orderIndex := some u.orderIndex,
                             folderId := joinOpt u.folderId }) acc else acc)
        st.bookmarks := by
  induction us with
  | nil => intro st; rfl
  | cons u us ih =>
    intro st
    rw [show applyUpdatesLocally st (u :: us)
        = applyUpdatesLocally (applyUpdatesLocally st [u]) us from rfl,
      ih, List.foldl_cons, applyS_one_bookmarks]

theorem applyS_taskLists (us : List SideUpdate) :
    ∀ (st : SideState), (applyUpdatesLocally st us).taskLists =
      us.foldl (fun acc u => if u.itype == "task-list" then
        setFirst (fun tl => tl.id == u.id)
          (fun tl => { tl with orderIndex := some u.orderIndex,
                               folderId := joinOpt u.folderId }) acc else acc)
        st.taskLists := by
  induction us with
  | nil => intro st; rfl
  | cons u us ih =>
    intro st
    rw [show applyUpdatesLocally st (u :: us)
        = applyUpdatesLocally (applyUpdatesLocally st [u]) us from rfl,
      ih, List.foldl_cons, applyS_one_taskLists]

theorem filter_find_self {α : Type} (ident : α → String) :
    ∀ {l : List α} (q : α → Bool) {t : α},
      l.Pairwise (fun a b => ident a ≠ ident b) → t ∈ l → q t = true →
      (l.filter q).find? (fun s => ident s == ident t) = some t := by
  intro l
  induction l with
  | nil => intro q t _ ht; simp at ht
  | cons x xs ih =>
    intro q t hnd ht hq
    rcases List.mem_cons.mp ht with rfl | htx
    · simp only [List.filter_cons, hq, if_true]
      rw [List.find?_cons_of_pos]
      simp
    · have hxt : ident x ≠ ident t := (List.pairwise_cons.mp hnd).1 t htx
      have ihx := ih q (List.pairwise_cons.mp hnd).2 htx hq
      by_cases hqx : q x = true
      · simp only [List.filter_cons, hqx, if_true]
        rw [List.find?_cons_of_neg]
        · exact ihx
        · simpa using hxt
      · simp only [List.filter_cons, Bool.eq_false_iff.mpr hqx,
          Bool.false_eq_true, if_false]
        exact ihx

theorem res_foldCondElem {α : Type} (ident : α → String)
    (cond : SideUpdate → Bool) (ov : SideUpdate → α → α) (res : α → α → α)
    (hreso : ∀ a x u, res a (ov u x) = res a x) (a : α) :
    ∀ (us : List SideUpdate) (x : α),
      res a (us.foldl (fun y u =>
        if cond u && (ident y == u.id) then ov u y else y) x) = res a x := by
  intro us
  induction us with
  | nil => intro x; rfl
  | cons u us ih =>
    intro x
    simp only [List.foldl_cons]
    rw [ih]
    by_cases h : (cond u && (ident x == u.id)) = true
    · simp [h, hreso]
    · simp [h]

theorem restore_coll {α : Type} (ident : α → String)
    (cond : SideUpdate → Bool) (ov : SideUpdate → α → α) (res : α → α → α)
    (g : α → α)
    (hovid : ∀ u a, ident (ov u a) = ident a)
    (hress : ∀ a, res a a = a)
    (hreso : ∀ a x u, res a (ov u x) = res a x)
    (us : List SideUpdate) (l : List α)
    (hpw : l.Pairwise (fun a b => ident a ≠ ident b))
    (hgpos : ∀ (s cur : α), (l.filter (fun a =>
        us.any (fun u => u.id == ident a))).find?
        (fun w => ident w == ident cur) = some s → g cur = res s cur)
    (hgneg : ∀ cur : α, (l.filter (fun a =>
        us.any (fun u => u.id == ident a))).find?
        (fun w => ident w == ident cur) = none → g cur = cur) :
    (us.foldl (fun acc u => if cond u then
        setFirst (fun x => ident x == u.id) (ov u) acc else acc) l).map g
      = l := by
  rw [foldCond_eq_map ident cond ov hovid us l hpw, List.map_map]
  have hpt : ∀ a ∈ l, (g ∘ (fun a => us.foldl (fun x u =>
      if cond u && (ident x == u.id) then ov u x else x) a)) a
      = (fun a : α => a) a := by
    intro a ha
    simp only [Function.comp_apply]
    have hpredeq : (fun w => ident w == ident (us.foldl (fun x u =>
        if cond u && (ident x == u.id) then ov u x else x) a))
        = (fun w => ident w == ident a) := by
      funext w
      rw [foldCondElem_id ident cond ov hovid us a]
    by_cases hq : us.any (fun u => u.id == ident a) = true
    · have hfind' : (l.filter (fun b =>
          us.any (fun u => u.id == ident b))).find?
          (fun w => ident w == ident (us.foldl (fun x u =>
            if cond u && (ident x == u.id) then ov u x else x) a))
          = some a := by
        rw [hpredeq]
        exact filter_find_self ident
          (fun b => us.any (fun u => u.id == ident b)) hpw ha hq
      rw [hgpos a _ hfind']
      exact (res_foldCondElem ident cond ov res hreso a us a).trans (hress a)
    · have hfn : (l.filter (fun b =>
          us.any (fun u => u.id == ident b))).find?
          (fun w => ident w == ident (us.foldl (fun x u =>
            if cond u && (ident x == u.id) then ov u x else x) a))
          = none := by
        rw [hpredeq]
        apply List.find?_eq_none.mpr
        intro s hs hbeq
        have hqs : us.any (fun u => u.id == ident s) = true :=
          (List.mem_filter.mp hs).2
        have hsa : ident s = ident a := by simpa using hbeq
        rw [hsa] at hqs
        exact hq hqs
      rw [hgneg _ hfn]
      apply foldCondElem_no_match
      intro u hu
      cases hb : (u.id == ident a) with
      | false => rfl
      | true => exact absurd (List.any_eq_true.mpr ⟨u, hu, hb⟩) hq
  exact (List.map_congr_left hpt).trans (List.map_id' l)

theorem sideState_ext {a b : SideState}
    (h1 : a.folders = b.folders) (h2 : a.objectives = b.objectives)
    (h3 : a.notes = b.notes) (h4 : a.bookmarks = b.bookmarks)
    (h5 : a.taskLists = b.taskLists) : a = b := by
  cases a
  cases b
  simp_all

theorem restoreSnapshotS_applyUpdates (st : SideState)
    (us : List SideUpdate)
    (h1 : st.folders.Pairwise (fun a b => a.id ≠ b.id))
    (h2 : st.objectives.Pairwise (fun a b => a.id ≠ b.id))
    (h3 : st.notes.Pairwise (fun a b => a.id ≠ b.id))
    (h4 : st.bookmarks.Pairwise (fun a b => a.id ≠ b.id))
    (h5 : st.taskLists.Pairwise (fun a b => a.id ≠ b.id)) :
    restoreSnapshotS (applyUpdatesLocally st us) (snapshotOfS st us)
      = st := by
  apply sideState_ext
  · show ((applyUpdatesLocally st us).folders).map (fun f =>
      match (st.folders.filter (fun f =>
          us.any (fun u => u.id == f.id))).find? (fun s => s.id == f.id) with
      | some s => { f with orderIndex := s.orderIndex,
                           parentId := s.parentId }
      | none => f) = st.folders
    rw [applyS_folders]
    apply restore_coll (fun f => f.id) (fun u => u.itype == "folder")
      (fun u f => { f with orderIndex := some u.orderIndex,
                           parentId := joinOpt u.parentId })
      (fun s f => { f with orderIndex := s.orderIndex,
                           parentId := s.parentId })
      _ (fun u a => rfl) (fun a => rfl) (fun a x u => rfl) us st.folders h1
    · intro s cur hfind
      show (match (st.folders.filter (fun f =>
          us.any (fun u => u.id == f.id))).find?
          (fun w => w.id == cur.id) with
        | some w => { cur with orderIndex := w.orderIndex,
                               parentId := w.parentId }
        | none => cur) = _
      rw [hfind]
    · intro cur hfind
      show (match (st.folders.filter (fun f =>
          us.any (fun u => u.id == f.id))).find?
          (fun w => w.id == cur.id) with
        | some w => { cur with orderIndex := w.orderIndex,
                               parentId := w.parentId }
        | none => cur) = _
      rw [hfind]
  · show ((applyUpdatesLocally st us).objectives).map (fun o =>
      match (st.objectives.filter (fun o =>
          us.any (fun u => u.id == o.id))).find? (fun s => s.id == o.id) with
      | some s => { o with orderIndex := s.orderIndex,
                           folderId := s.folderId }
      | none => o) = st.objectives
    rw [applyS_objectives]
    apply restore_coll (fun o => o.id) (fun u => u.itype == "objective")
      (fun u o => { o with orderIndex := some u.orderIndex,
                           folderId := joinOpt u.folderId })
      (fun s o => { o with orderIndex := s.orderIndex,
                           folderId := s.folderId })
      _ (fun u a => rfl) (fun a => rfl) (fun a x u => rfl) us st.objectives h2
    · intro s cur hfind
      show (match (st.objectives.filter (fun o =>
          us.any (fun u => u.id == o.id))).find?
          (fun w => w.id == cur.id) with
        | some w => { cur with orderIndex := w.orderIndex,
                               folderId := w.folderId }
        | none => cur) = _
      rw [hfind]
    · intro cur hfind
      show (match (st.objectives.filter (fun o =>
          us.any (fun u => u.id == o.id))).find?
          (fun w => w.id == cur.id) with
        | some w => { cur with orderIndex := w.orderIndex,
                               folderId := w.folderId }
        | none => cur) = _
      rw [hfind]
  · show ((applyUpdatesLocally st us).notes).map (fun n =>
      match (st.notes.filter (fun n =>
          us.any (fun u => u.id == n.id))).find? (fun s => s.id == n.id) with
      | some s => { n with orderIndex := s.orderIndex,
                           folderId := s.folderId }
      | none => n) = st.notes
    rw [applyS_notes]
    apply restore_coll (fun n => n.id) (fun u => u.itype == "note")
      (fun u n => { n with orderIndex := some u.orderIndex,
                           folderId := joinOpt u.folderId })
      (fun s n => { n with orderIndex := s.orderIndex,
                           folderId := s.folderId })
      _ (fun u a => rfl) (fun a => rfl) (fun a x u => rfl) us st.notes h3
    · intro s cur hfind
      show (match (st.notes.filter (fun n =>
          us.any (fun u => u.id == n.id))).find?
          (fun w => w.id == cur.id) with
        | some w => { cur with orderIndex := w.orderIndex,
                               folderId := w.folderId }
        | none => cur) = _
      rw [hfind]
    · intro cur hfind
      show (match (st.notes.filter (fun n =>
          us.any (fun u => u.id == n.id))).find?
          (fun w => w.id == cur.id) with
        | some w => { cur with orderIndex := w.orderIndex,
                               folderId := w.folderId }
        | none => cur) = _
      rw [hfind]
  · show ((applyUpdatesLocally st us).bookmarks).map (fun b =>
      match (st.bookmarks.filter (fun b =>
          us.any (fun u => u.id == b.id))).find? (fun s => s.id == b.id) with
      | some s => { b with orderIndex := s.orderIndex,
                           folderId := s.folderId }
      | none => b) = st.bookmarks
    rw [applyS_bookmarks]
    apply restore_coll (fun b => b.id) (fun u => u.itype == "bookmark")
      (fun u b => { b with orderIndex := some u.orderIndex,
                           folderId := joinOpt u.folderId })
      (fun s b => { b with orderIndex := s.orderIndex,
                           folderId := s.folderId })
      _ (fun u a => rfl) (fun a => rfl) (fun a x u => rfl) us st.bookmarks h4
    · intro s cur hfind
      show (match (st.bookmarks.filter (fun b =>
          us.any (fun u => u.id == b.id))).find?
          (fun w => w.id == cur.id) with
        | some w => { cur with orderIndex := w.orderIndex,
                               folderId := w.folderId }
        | none => cur) = _
      rw [hfind]
    · intro cur hfind
      show (match (st.bookmarks.filter (fun b =>
          us.any (fun u => u.id == b.id))).find?
          (fun w => w.id == cur.id) with
        | some w => { cur with orderIndex := w.orderIndex,
                               folderId := w.folderId }
        | none => cur) = _
      rw [hfind]
  · show ((applyUpdatesLocally st us).taskLists).map (fun tl =>
      match (st.taskLists.filter (fun tl =>
          us.any (fun u => u.id == tl.id))).find? (fun s => s.id == tl.id) with
      | some s => { tl with orderIndex := s.orderIndex,
                            folderId := s.folderId }
      | none => tl) = st.taskLists
    rw [applyS_taskLists]
    apply restore_coll (fun tl => tl.id) (fun u => u.itype == "task-list")
      (fun u tl => { tl with orderIndex := some u.orderIndex,
                             folderId := joinOpt u.folderId })
      (fun s tl => { tl with orderIndex := s.orderIndex,
                             folderId := s.folderId })
      _ (fun u a => rfl) (fun a => rfl) (fun a x u => rfl) us st.taskLists h5
    · intro s cur hfind
      show (match (st.taskLists.filter (fun tl =>
          us.any (fun u => u.id == tl.id))).find?
          (fun w => w.id == cur.id) with
        | some w => { cur with orderIndex := w.orderIndex,
                               folderId := w.folderId }
        | none => cur) = _
      rw [hfind]
    · intro cur hfind
      show (match (st.taskLists.filter (fun tl =>
          us.any (fun u => u.id == tl.id))).find?
          (fun w => w.id == cur.id) with
        | some w => { cur with orderIndex := w.orderIndex,
                               folderId := w.folderId }
        | none => cur) = _
      rw [hfind]

theorem sideRollback_run :
    ∀ (st : SideState) (updates : List SideUpdate)
      (persistResults : List Bool),
      (st.folders.map (fun f => f.id)).Nodup →
      (st.objectives.map (fun o => o.id)).Nodup →
      (st.notes.map (fun n => n.id)).Nodup →
      (st.bookmarks.map (fun b => b.id)).Nodup →
      (st.taskLists.map (fun tl => tl.id)).Nodup →
      persistResults.all (fun b => b) = false →
      optimisticUpdateRunS st updates persistResults =
        ⟨st, persistUpdatesS updates, true, false⟩ := by
  intro st updates persistResults h1 h2 h3 h4 h5 hfail
  unfold optimisticUpdateRunS
  rw [hfail]
  simp only [Bool.false_eq_true, if_false]
  rw [restoreSnapshotS_applyUpdates st updates
    (List.pairwise_map.mp h1) (List.pairwise_map.mp h2)
    (List.pairwise_map.mp h3) (List.pairwise_map.mp h4)
    (List.pairwise_map.mp h5)]

end SideRollbackProofs

/-- C3: for every applied mutation whose persistence fails (at least one
of the per-node writes rejects — `Promise.all` treats partial success as
total failure), every node touched by the mutation is restored to its
pre-mutation `orderIndex` and parent key exactly as snapshotted (the final
collections are byte-for-byte the originals), the user-visible error toast
is surfaced, and no error escapes to the caller of the optimistic-update
entry point.  Stated for both adapters: the task-list coordinator behind
`updateTaskPosition` and the side-list coordinator behind
`updateItemPosition`, the latter across all five collections.  The
optimistic-state engine itself is not under `src/` and is modelled from
spec §4.5; the local mutations, persistence adapters and error callbacks
are embedded from `task-list-sortable.js` and `side-list-sortable.js`. -/
theorem claim_C3_rollback_restores_exactly :
    (∀ (tasks : List TaskListSortable.Task)
      (updates : List TaskListSortable.TaskUpdate)
      (persistResults : List Bool),
      (tasks.map (fun t => t.id)).Nodup →
      persistResults.all (fun b => b) = false →
      TaskListSortable.optimisticUpdateRun tasks updates persistResults =
        ⟨tasks, TaskListSortable.persistUpdates updates, true, false⟩) ∧
    (∀ (st : SideListSortable.SideState)
      (updates : List SideListSortable.SideUpdate)
      (persistResults : List Bool),
      (st.folders.map (fun f => f.id)).Nodup →
      (st.objectives.map (fun o => o.id)).Nodup →
      (st.notes.map (fun n => n.id)).Nodup →
      (st.bookmarks.map (fun b => b.id)).Nodup →
      (st.taskLists.map (fun tl => tl.id)).Nodup →
      persistResults.all (fun b => b) = false →
      SideListSortable.optimisticUpdateRunS st updates persistResults =
        ⟨st, SideListSortable.persistUpdatesS updates, true, false⟩) :=
  ⟨fun tasks updates persistResults hnd hfail =>
      taskRollback_run tasks updates persistResults hnd hfail,
    fun st updates persistResults h1 h2 h3 h4 h5 hfail =>
      sideRollback_run st updates persistResults h1 h2 h3 h4 h5 hfail⟩

/-- Witness for C3: two root tasks swapped optimistically with the second
write rejecting, and a side list holding one folder and one objective
reordered with its only write rejecting — both final states equal the
initial states exactly, the toast fires, nothing is thrown. -/
theorem claim_C3_rollback_restores_exactly_witness :
    (TaskListSortable.optimisticUpdateRun
      [⟨"a", none, some 0, ""⟩, ⟨"b", none, some 1000, ""⟩]
      [⟨"b", 0, none⟩, ⟨"a", 1000, none⟩] [true, false] =
      ⟨[⟨"a", none, some 0, ""⟩, ⟨"b", none, some 1000, ""⟩],
        TaskListSortable.persistUpdates [⟨"b", 0, none⟩, ⟨"a", 1000, none⟩],
        true, false⟩) ∧
    (SideListSortable.optimisticUpdateRunS
      ⟨[⟨"f", none, some 0⟩], [⟨"o", none, some 1000⟩], [], [], []⟩
      [⟨"o", "objective", 0, none, some none⟩,
        ⟨"f", "folder", 1000, some none, none⟩] [false] =
      ⟨⟨[⟨"f", none, some 0⟩], [⟨"o", none, some 1000⟩], [], [], []⟩,
        SideListSortable.persistUpdatesS
          [⟨"o", "objective", 0, none, some none⟩,
            ⟨"f", "folder", 1000, some none, none⟩],
        true, false⟩) :=
  ⟨claim_C3_rollback_restores_exactly.1
      [⟨"a", none, some 0, ""⟩, ⟨"b", none, some 1000, ""⟩]
      [⟨"b", 0, none⟩, ⟨"a", 1000, none⟩] [true, false]
      (by decide) (by decide),
    claim_C3_rollback_restores_exactly.2
      ⟨[⟨"f", none, some 0⟩], [⟨"o", none, some 1000⟩], [], [], []⟩
      [⟨"o", "objective", 0, none, some none⟩,
        ⟨"f", "folder", 1000, some none, none⟩] [false]
      (by decide) (by decide) (by decide) (by decide) (by decide)
      (by decide)⟩

/-! ### Geometry classification (C5, C6) -/

/-- C5 counterexample: with the default threshold (0.25) and a target
rectangle of height 100 at top 0, a cursor at relative height exactly 25
satisfies the claim's inclusive condition
`threshold * height <= relativeY <= (1 - threshold) * height`, yet the
code's strict comparison (`relativeY > threshold && relativeY <
height - threshold`) classifies it as a reorder, not `into`: the hover
target stays empty. -/
theorem claim_C5_boundary_counterexample :
    Sortable.resolveDropZoneThreshold none * 100 ≤ 25 - 0 ∧
    25 - 0 ≤ (1 - Sortable.resolveDropZoneThreshold none) * 100 ∧
    Sortable.hoverResult
      ⟨Sortable.resolveDropZoneThreshold none, fun _ => true, fun _ _ => true⟩
      0 50 25 [⟨1, ⟨0, 100, 0, 100, 100⟩⟩] = none := by
  refine ⟨by norm_num [Sortable.resolveDropZoneThreshold], by norm_num
    [Sortable.resolveDropZoneThreshold], ?_⟩
  simp [Sortable.hoverResult, Sortable.outsideRect, Sortable.inCenterZone,
    Sortable.resolveDropZoneThreshold]
  norm_num

/-- C5 amended: for a hover evaluation where the candidate target is
nest-capable, is not the dragged element, contains the cursor, and passes
`canDrop`, the classification is `into` exactly when
`threshold * height < relativeY < (1 - threshold) * height` with strict
inequalities (`relativeY = cursorY - rect.top`); at the two boundary
values the drop resolves to a reorder placement.  The threshold fraction
defaults to 0.25 when the option is absent. -/
theorem claim_C5_center_zone_strict :
    (∀ (th : ℚ) (dragged : Nat) (x y : ℚ) (c : Sortable.Candidate)
      (isT : Nat → Bool) (canD : Nat → Nat → Bool),
      isT c.el = true → c.el ≠ dragged →
      Sortable.outsideRect c.rect x y = false → canD dragged c.el = true →
      (Sortable.hoverResult ⟨th, isT, canD⟩ dragged x y [c] = some c.el ↔
        (c.rect.height * th < y - c.rect.top ∧
          y - c.rect.top < (1 - th) * c.rect.height))) ∧
    Sortable.resolveDropZoneThreshold none = 1 / 4 := by
  constructor
  · intro th dragged x y c isT canD hisT hne hout hcan
    have hbeq : (c.el == dragged) = false := by
      simpa using hne
    simp only [Sortable.hoverResult, hisT, Bool.not_true, hbeq, hout,
      Bool.false_eq_true, if_false, hcan, Bool.and_true,
      Sortable.inCenterZone]
    have hiff : (1 - th) * c.rect.height =
        c.rect.height - c.rect.height * th := by ring
    constructor
    · intro h
      by_cases hz : (decide (y - c.rect.top > c.rect.height * th) &&
          decide (y - c.rect.top < c.rect.height - c.rect.height * th)) = true
      · rcases Bool.and_eq_true_iff.mp hz with ⟨h1, h2⟩
        rw [hiff]
        exact ⟨of_decide_eq_true h1, of_decide_eq_true h2⟩
      · rw [if_neg (by simpa using hz)] at h
        simp at h
    · intro ⟨h1, h2⟩
      rw [hiff] at h2
      rw [if_pos]
      simp only [Bool.and_eq_true, decide_eq_true_eq]
      exact ⟨h1, h2⟩
  · rfl

/-- Witness for the amended C5: the default-threshold configuration with a
cursor strictly inside the center zone classifies `into`, by the iff. -/
theorem claim_C5_center_zone_strict_witness :
    Sortable.hoverResult ⟨1 / 4, fun _ => true, fun _ _ => true⟩ 0 50 50
      [⟨1, ⟨0, 100, 0, 100, 100⟩⟩] = some 1 :=
  (claim_C5_center_zone_strict.1 (1 / 4) 0 50 50 ⟨1, ⟨0, 100, 0, 100, 100⟩⟩
      (fun _ => true) (fun _ _ => true) rfl (by decide) (by decide)
      rfl).mpr (by norm_num)

/-- C6: a hover target that is not nest-capable (fails `isDropTarget`) is
never classified `into`, regardless of cursor geometry — the hover scan
can only ever select a drop target, and when no candidate is nest-capable
the drop resolves to a reorder placement. -/
theorem claim_C6_non_nestable_never_into :
    (∀ (cfg : Sortable.HoverConfig) (dragged : Nat) (x y : ℚ)
      (cands : List Sortable.Candidate) (e : Nat),
      Sortable.hoverResult cfg dragged x y cands = some e →
      cfg.isDropTarget e = true) ∧
    (∀ (cfg : Sortable.HoverConfig) (dragged : Nat) (x y : ℚ)
      (cands : List Sortable.Candidate),
      (∀ c ∈ cands, cfg.isDropTarget c.el = false) →
      Sortable.resolveDrop (Sortable.hoverResult cfg dragged x y cands) =
        Sortable.DropResolution.reorder) := by
  constructor
  · intro cfg dragged x y cands
    induction cands with
    | nil =>
      intro e he
      simp [Sortable.hoverResult] at he
    | cons c rest ih =>
      intro e he
      by_cases h1 : cfg.isDropTarget c.el
      · rw [Sortable.hoverResult, if_neg (by simp [h1])] at he
        by_cases h2 : (c.el == dragged) = true
        · rw [if_pos h2] at he
          exact ih e he
        · rw [if_neg h2] at he
          by_cases h3 : Sortable.outsideRect c.rect x y = true
          · rw [if_pos h3] at he
            exact ih e he
          · rw [if_neg h3] at he
            by_cases h4 : (Sortable.inCenterZone cfg.dropZoneThreshold c.rect y
                && cfg.canDrop dragged c.el) = true
            · rw [if_pos h4] at he
              have : e = c.el := by simpa using he.symm
              rw [this]
              exact h1
            · rw [if_neg h4] at he
              exact ih e he
      · rw [Sortable.hoverResult, if_pos (by simp [h1])] at he
        exact ih e he
  · intro cfg dragged x y cands hall
    have hnone : Sortable.hoverResult cfg dragged x y cands = none := by
      induction cands with
      | nil => rfl
      | cons c rest ih =>
        rw [Sortable.hoverResult,
          if_pos (by simp [hall c (by simp)])]
        exact ih (fun d hd => hall d (by simp [hd]))
    rw [hnone]
    rfl

/-- Witness for C6: a cursor dead-center over a non-nest-capable row still
resolves to a reorder placement. -/
theorem claim_C6_non_nestable_never_into_witness :
    Sortable.resolveDrop
      (Sortable.hoverResult ⟨1 / 4, fun _ => false, fun _ _ => true⟩ 0 50 50
        [⟨1, ⟨0, 100, 0, 100, 100⟩⟩]) = Sortable.DropResolution.reorder :=
  claim_C6_non_nestable_never_into.2 ⟨1 / 4, fun _ => false, fun _ _ => true⟩
    0 50 50 [⟨1, ⟨0, 100, 0, 100, 100⟩⟩] (fun _ _ => rfl)

/-! ### Cycle prevention (C4) and descendant-recursion termination (C10) -/

/-- Helper: whenever the hover scan settles on a target, that target
passed the `canDrop` validation. -/
theorem hoverResult_some_canDrop (cfg : Sortable.HoverConfig) (dragged : Nat)
    (x y : ℚ) :
    ∀ (cands : List Sortable.Candidate) (e : Nat),
      Sortable.hoverResult cfg dragged x y cands = some e →
      cfg.canDrop dragged e = true := by
  intro cands
  induction cands with
  | nil =>
    intro e he
    simp [Sortable.hoverResult] at he
  | cons c rest ih =>
    intro e he
    by_cases h1 : cfg.isDropTarget c.el
    · rw [Sortable.hoverResult, if_neg (by simp [h1])] at he
      by_cases h2 : (c.el == dragged) = true
      · rw [if_pos h2] at he
        exact ih e he
      · rw [if_neg h2] at he
        by_cases h3 : Sortable.outsideRect c.rect x y = true
        · rw [if_pos h3] at he
          exact ih e he
        · rw [if_neg h3] at he
          by_cases h4 : (Sortable.inCenterZone cfg.dropZoneThreshold c.rect y
              && cfg.canDrop dragged c.el) = true
          · rw [if_pos h4] at he
            have hec : e = c.el := by simpa using he.symm
            rw [hec]
            exact (Bool.and_eq_true_iff.mp h4).2
          · rw [if_neg h4] at he
            exact ih e he
    · rw [Sortable.hoverResult, if_pos (by simp [h1])] at he
      exact ih e he

/-- C4: self counts as its own descendant (`isDescendantOf(N, N)` is
true), and a drag can never nest a node into itself or into one of its
current descendants: both adapters' `canDrop` callbacks return false in
those cases, and the hover scan never selects a target whose `canDrop`
is false, so the nest-into path is never taken for such a target. -/
theorem claim_C4_no_self_nesting_no_cycles :
    (∀ (tasks : List TaskListSortable.Task) (fuel : Nat) (n : String),
      TaskHelpers.isTaskDescendantOfF tasks fuel n n = some true) ∧
    (∀ (tasks : List TaskListSortable.Task) (fuel : Nat) (d : String),
      TaskHelpers.canDropTask tasks fuel d d = some false) ∧
    (∀ (tasks : List TaskListSortable.Task) (fuel : Nat)
      (draggedId targetId : String),
      TaskHelpers.isTaskDescendantOfF tasks fuel targetId draggedId =
        some true →
      TaskHelpers.canDropTask tasks fuel draggedId targetId = some false) ∧
    (∀ (tree : List TreeUtils.SideNode) (fuel : Nat)
      (draggedId targetId : String),
      (draggedId = targetId ∨
        TreeUtils.isDescendantOfF tree fuel targetId draggedId = some true) →
      TreeUtils.sideCanDrop tree fuel "folder" draggedId targetId =
        some false) ∧
    (∀ (cfg : Sortable.HoverConfig) (dragged : Nat) (x y : ℚ)
      (cands : List Sortable.Candidate) (e : Nat),
      cfg.canDrop dragged e = false →
      Sortable.hoverResult cfg dragged x y cands ≠ some e) := by
  refine ⟨?_, ?_, ?_, ?_, ?_⟩
  · intro tasks fuel n
    simp [TaskHelpers.isTaskDescendantOfF]
  · intro tasks fuel d
    simp [TaskHelpers.canDropTask]
  · intro tasks fuel draggedId targetId hdesc
    unfold TaskHelpers.canDropTask
    by_cases heq : (draggedId == targetId) = true
    · rw [if_pos heq]
    · rw [if_neg heq, hdesc]
      simp
  · intro tree fuel draggedId targetId hcase
    unfold TreeUtils.sideCanDrop
    rcases hcase with rfl | hdesc
    · rw [if_pos (by simp)]
    · by_cases heq : (draggedId == targetId) = true
      · rw [if_pos (by simp [heq])]
      · rw [if_neg (by simp [heq]), if_pos (by simp), hdesc]
  · intro cfg dragged x y cands e hcd he
    have := hoverResult_some_canDrop cfg dragged x y cands e he
    rw [hcd] at this
    exact absurd this (by simp)

/-- Witness for C4: a parent/child task pair, a folder pair for the side
tree, and a hover over a target whose `canDrop` is false. -/
theorem claim_C4_no_self_nesting_no_cycles_witness :
    (TaskHelpers.canDropTask [⟨"c", some "p", none, ""⟩] 2 "p" "c" =
      some false) ∧
    (TreeUtils.sideCanDrop [⟨"f2", some "f1"⟩] 2 "folder" "f1" "f2" =
      some false) ∧
    (Sortable.hoverResult ⟨1 / 4, fun _ => true, fun _ _ => false⟩ 0 50 50
      [⟨1, ⟨0, 100, 0, 100, 100⟩⟩] ≠ some 1) :=
  ⟨claim_C4_no_self_nesting_no_cycles.2.2.1 [⟨"c", some "p", none, ""⟩] 2
      "p" "c" (by decide),
    claim_C4_no_self_nesting_no_cycles.2.2.2.1 [⟨"f2", some "f1"⟩] 2
      "f1" "f2" (Or.inr (by decide)),
    claim_C4_no_self_nesting_no_cycles.2.2.2.2
      ⟨1 / 4, fun _ => true, fun _ _ => false⟩ 0 50 50
      [⟨1, ⟨0, 100, 0, 100, 100⟩⟩] 1 rfl⟩

/-- C10 (implicit): on any finite task collection whose `parentTaskId`
relation is acyclic — witnessed by a rank function that strictly decreases
from parent to child — `getTaskDescendants` terminates with a finite list
(fuel beyond the rank of the queried id is never exhausted), an id with no
children (including one absent from the collection) yields the empty list,
and `isTaskDescendantOf` terminates likewise; without acyclicity the
recursion is not well-founded: on a self-parenting task every fuel bound
is exhausted. -/
theorem claim_C10_descendants_termination :
    (∀ (tasks : List TaskListSortable.Task) (rank : String → Nat),
      (∀ t ∈ tasks, ∀ p, t.parentTaskId = some p → rank t.id < rank p) →
      ∀ (id : String) (fuel : Nat), rank id < fuel →
      (TaskHelpers.getTaskDescendantsF tasks fuel id).isSome = true) ∧
    (∀ (tasks : List TaskListSortable.Task) (id : String) (fuel : Nat),
      0 < fuel → tasks.filter (fun t => t.parentTaskId == some id) = [] →
      TaskHelpers.getTaskDescendantsF tasks fuel id = some []) ∧
    (∀ (tasks : List TaskListSortable.Task) (rank : String → Nat),
      (∀ t ∈ tasks, ∀ p, t.parentTaskId = some p → rank t.id < rank p) →
      ∀ (d a : String) (fuel : Nat), rank a < fuel →
      (TaskHelpers.isTaskDescendantOfF tasks fuel d a).isSome = true) ∧
    (∀ fuel : Nat,
      TaskHelpers.getTaskDescendantsF [⟨"a", some "a", none, ""⟩] fuel "a"
        = none) := by
  have hfold : ∀ (tasks : List TaskListSortable.Task) (n : Nat)
      (cs : List TaskListSortable.Task),
      (∀ c ∈ cs, (TaskHelpers.getTaskDescendantsF tasks n c.id).isSome
        = true) →
      (cs.foldr
        (fun c acc => do
          let sub ← TaskHelpers.getTaskDescendantsF tasks n c.id
          let rest ← acc
          pure (c.id :: (sub ++ rest)))
        (some [])).isSome = true := by
    intro tasks n cs
    induction cs with
    | nil => intro _; rfl
    | cons c cs ih =>
      intro h
      have hc := h c (by simp)
      rcases Option.isSome_iff_exists.mp hc with ⟨sub, hsub⟩
      have hrest := ih (fun d hd => h d (by simp [hd]))
      rcases Option.isSome_iff_exists.mp hrest with ⟨rest, hrestv⟩
      simp only [List.foldr_cons, hsub, hrestv, Option.some_bind]
      rfl
  have hterm : ∀ (tasks : List TaskListSortable.Task) (rank : String → Nat),
      (∀ t ∈ tasks, ∀ p, t.parentTaskId = some p → rank t.id < rank p) →
      ∀ (fuel : Nat) (id : String), rank id < fuel →
      (TaskHelpers.getTaskDescendantsF tasks fuel id).isSome = true := by
    intro tasks rank hrank fuel
    induction fuel with
    | zero =>
      intro id h
      omega
    | succ n ih =>
      intro id hid
      simp only [TaskHelpers.getTaskDescendantsF]
      apply hfold
      intro c hcmem
      have hc : c ∈ tasks := (List.mem_filter.mp hcmem).1
      have hcp : c.parentTaskId = some id := by
        have := (List.mem_filter.mp hcmem).2
        simpa using this
      have hlt : rank c.id < rank id := hrank c hc id hcp
      exact ih c.id (by omega)
  refine ⟨fun tasks rank hrank id fuel hf => hterm tasks rank hrank fuel id hf,
    ?_, ?_, ?_⟩
  · intro tasks id fuel hpos hnochild
    cases fuel with
    | zero => omega
    | succ n =>
      simp only [TaskHelpers.getTaskDescendantsF, hnochild, List.foldr_nil]
  · intro tasks rank hrank d a fuel hf
    unfold TaskHelpers.isTaskDescendantOfF
    by_cases heq : (d == a) = true
    · rw [if_pos heq]
      rfl
    · rw [if_neg heq, Option.isSome_map']
      exact hterm tasks rank hrank fuel a hf
  · intro fuel
    induction fuel with
    | zero => rfl
    | succ n ih =>
      have hfilter : ([⟨"a", some "a", none, ""⟩] :
          List TaskListSortable.Task).filter
          (fun t => t.parentTaskId == some "a") =
          [⟨"a", some "a", none, ""⟩] := by decide
      simp only [TaskHelpers.getTaskDescendantsF, hfilter, List.foldr_cons,
        List.foldr_nil, ih]
      rfl

/-- Witness for C10: a two-level acyclic collection terminates with fuel
2, a childless id yields the empty list, and the ancestry test is defined. -/
theorem claim_C10_descendants_termination_witness :
    ((TaskHelpers.getTaskDescendantsF [⟨"c", some "r", none, ""⟩] 2 "r").isSome
      = true) ∧
    (TaskHelpers.getTaskDescendantsF [⟨"c", some "r", none, ""⟩] 1 "c"
      = some []) ∧
    ((TaskHelpers.isTaskDescendantOfF [⟨"c", some "r", none, ""⟩] 2 "c" "r").isSome
      = true) :=
  ⟨claim_C10_descendants_termination.1 [⟨"c", some "r", none, ""⟩]
      (fun s => if s = "c" then 0 else 1)
      (by
        intro t ht p hp
        rw [List.mem_singleton] at ht
        subst ht
        injection hp with hp
        subst hp
        decide)
      "r" 2 (by decide),
    claim_C10_descendants_termination.2.1 [⟨"c", some "r", none, ""⟩] "c" 1
      (by decide) (by decide),
    claim_C10_descendants_termination.2.2.1 [⟨"c", some "r", none, ""⟩]
      (fun s => if s = "c" then 0 else 1)
      (by
        intro t ht p hp
        rw [List.mem_singleton] at ht
        subst ht
        injection hp with hp
        subst hp
        decide)
      "c" "r" 2 (by decide)⟩

/-! ### Idempotence of the planner (C7) -/

section IdempotenceProofs

open TaskListSortable

theorem getElem?_mem' {α : Type} {l : List α} {i : Nat} {a : α}
    (h : l[i]? = some a) : a ∈ l := by
  induction l generalizing i with
  | nil => simp at h
  | cons x xs ih =>
    cases i with
    | zero =>
      simp only [List.getElem?_cons_zero, Option.some.injEq] at h
      simp [h]
    | succ i =>
      simp only [List.getElem?_cons_succ] at h
      simp [ih h]

theorem filter_map_comm {α β : Type} (f : α → β) (p : β → Bool)
    (l : List α) :
    (l.map f).filter p = (l.filter (fun a => p (f a))).map f := by
  induction l with
  | nil => rfl
  | cons x xs ih =>
    by_cases hx : p (f x)
    · simp [List.filter_cons, hx, ih]
    · simp [List.filter_cons, hx, ih]

theorem findIdxO_lt_length {α : Type} {p : α → Bool} :
    ∀ {l : List α} {i : Nat}, findIdxO p l = some i → i < l.length := by
  intro l
  induction l with
  | nil => intro i h; simp [findIdxO] at h
  | cons x xs ih =>
    intro i h
    by_cases hx : p x
    · simp only [findIdxO, hx, if_true, Option.some.injEq] at h
      simp only [List.length_cons]
      omega
    · simp only [findIdxO, hx, Bool.false_eq_true, if_false] at h
      rcases Option.map_eq_some'.mp h with ⟨j, hj, rfl⟩
      have := ih hj
      simp only [List.length_cons]
      omega

theorem insertIndexOf_le_length (sibs : List Task) (prevId : Option String)
    (nextIsNone : Bool) :
    insertIndexOf sibs prevId nextIsNone ≤ sibs.length := by
  unfold insertIndexOf
  cases prevId with
  | none =>
    by_cases h : nextIsNone = true
    · simp [h]
    · simp [h]
  | some p =>
    cases hf : findIdxO (fun t => t.id == p) sibs with
    | none => simp [hf]
    | some i =>
      have := findIdxO_lt_length hf
      simp only [hf]
      omega

theorem pairwise_getElem?_inj {α : Type} {key : α → String} {l : List α}
    (hnd : l.Pairwise (fun a b => key a ≠ key b)) :
    ∀ {i j : Nat} {a b : α}, l[i]? = some a → l[j]? = some b →
      key a = key b → i = j := by
  induction l with
  | nil => intro i j a b ha; simp at ha
  | cons x xs ih =>
    intro i j a b ha hb hab
    rcases List.pairwise_cons.mp hnd with ⟨hx, hxs⟩
    cases i with
    | zero =>
      cases j with
      | zero => rfl
      | succ j =>
        simp only [List.getElem?_cons_zero, Option.some.injEq] at ha
        simp only [List.getElem?_cons_succ] at hb
        subst ha
        exact absurd hab (hx b (getElem?_mem' hb))
    | succ i =>
      cases j with
      | zero =>
        simp only [List.getElem?_cons_zero, Option.some.injEq] at hb
        simp only [List.getElem?_cons_succ] at ha
        subst hb
        exact absurd hab.symm (hx a (getElem?_mem' ha))
      | succ j =>
        simp only [List.getElem?_cons_succ] at ha hb
        have := ih hxs ha hb hab
        omega

theorem foldl_applyOne_single_match :
    ∀ {us : List TaskUpdate} {t : Task} {u : TaskUpdate},
      us.filter (fun v => v.id == t.id) = [u] →
      us.foldl applyOne t = { t with orderIndex := some u.orderIndex,
                                     parentTaskId := u.parentTaskId } := by
  intro us
  induction us with
  | nil =>
    intro t u h
    simp at h
  | cons v vs ih =>
    intro t u h
    by_cases hv : (v.id == t.id) = true
    · simp only [List.filter_cons, hv, if_true, List.cons.injEq] at h
      rcases h with ⟨rfl, hnil⟩
      have hnomatch : ∀ w ∈ vs, w.id ≠ t.id := by
        intro w hw he
        have hwmem : w ∈ vs.filter (fun x => x.id == t.id) :=
          List.mem_filter.mpr ⟨hw, by simp [he]⟩
        rw [hnil] at hwmem
        simp at hwmem
      simp only [List.foldl_cons]
      have happ : applyOne t v =
          { t with orderIndex := some v.orderIndex,
                   parentTaskId := v.parentTaskId } := by
        unfold applyOne
        rw [if_pos (by simpa using (eq_of_beq hv).symm)]
      rw [happ]
      apply foldl_applyOne_of_no_match
      intro w hw
      exact hnomatch w hw
    · simp only [List.filter_cons, hv, Bool.false_eq_true, if_false] at h
      simp only [List.foldl_cons]
      have happ : applyOne t v = t := by
        unfold applyOne
        rw [if_neg]
        intro he
        exact hv (by simpa using (eq_of_beq he).symm)
      rw [happ]
      exact ih h

theorem filter_of_pairwise_getElem {us : List TaskUpdate}
    (hnd : us.Pairwise (fun a b => a.id ≠ b.id)) :
    ∀ {j : Nat} {u : TaskUpdate}, us[j]? = some u →
      us.filter (fun v => v.id == u.id) = [u] := by
  induction us with
  | nil => intro j u h; simp at h
  | cons x xs ih =>
    intro j u h
    rcases List.pairwise_cons.mp hnd with ⟨hx, hxs⟩
    cases j with
    | zero =>
      simp only [List.getElem?_cons_zero, Option.some.injEq] at h
      subst h
      have hnil : xs.filter (fun v => v.id == x.id) = [] := by
        apply List.filter_eq_nil_iff.mpr
        intro v hv
        simp only [beq_iff_eq]
        exact fun he => (hx v hv) he.symm
      simp only [List.filter_cons, beq_self_eq_true, if_true, hnil]
    | succ j =>
      simp only [List.getElem?_cons_succ] at h
      have hu : u ∈ xs := getElem?_mem' h
      have hxu : (x.id == u.id) = false := by
        simp only [beq_eq_false_iff_ne, ne_eq]
        exact hx u hu
      simp only [List.filter_cons, hxu, Bool.false_eq_true, if_false]
      exact ih hxs h

theorem pairwise_id_inj {l : List Task}
    (hnd : l.Pairwise (fun a b => a.id ≠ b.id)) :
    ∀ {a b : Task}, a ∈ l → b ∈ l → a.id = b.id → a = b := by
  induction l with
  | nil => intro a b ha; simp at ha
  | cons x xs ih =>
    intro a b ha hb hab
    rcases List.pairwise_cons.mp hnd with ⟨hx, hxs⟩
    rcases List.mem_cons.mp ha with rfl | ha'
    · rcases List.mem_cons.mp hb with rfl | hb'
      · rfl
      · exact absurd hab (hx b hb')
    · rcases List.mem_cons.mp hb with rfl | hb'
      · exact absurd hab.symm (hx a ha')
      · exact ih hxs ha' hb' hab

theorem renumber_pairwise (target : Option String) (spl : List Task)
    (hpw : spl.Pairwise (fun a b => a.id ≠ b.id)) :
    (renumber target 0 spl).Pairwise (fun a b => a.id ≠ b.id) := by
  have h1 : List.Pairwise (fun a b : String => a ≠ b)
      (spl.map (fun t => t.id)) :=
    List.pairwise_map.mpr hpw
  rw [show spl.map (fun t => t.id) = spl.map Task.id from rfl,
    ← renumber_map_id target 0 spl] at h1
  exact List.pairwise_map.mp h1

theorem m_of_pos (target : Option String) (spl : List Task)
    (hpw : spl.Pairwise (fun a b => a.id ≠ b.id)) (t : Task) (j : Nat)
    (s : Task) (hj : spl[j]? = some s) (hst : s.id = t.id) :
    (renumber target 0 spl).foldl applyOne t =
      { t with orderIndex := some ((j : Int) * 1000),
               parentTaskId := target } := by
  have hus : (renumber target 0 spl)[j]? =
      some ⟨s.id, ((0 + j : Nat) : Int) * 1000, target⟩ := by
    rw [renumber_getElem? target 0 spl j, hj]
    rfl
  have huspw := renumber_pairwise target spl hpw
  have hfilter := filter_of_pairwise_getElem huspw hus
  have hfilter' : (renumber target 0 spl).filter
      (fun v => v.id == t.id) =
      [⟨s.id, ((0 + j : Nat) : Int) * 1000, target⟩] := by
    rw [← hfilter]
    apply List.filter_congr
    intro v _
    rw [show (⟨s.id, ((0 + j : Nat) : Int) * 1000, target⟩ :
      TaskUpdate).id = s.id from rfl, hst]
  have := foldl_applyOne_single_match hfilter'
  rw [this]
  simp

theorem m_of_neg (target : Option String) (spl : List Task) (t : Task)
    (hnot : t.id ∉ spl.map (fun s => s.id)) :
    (renumber target 0 spl).foldl applyOne t = t := by
  apply foldl_applyOne_of_no_match
  intro u hu he
  apply hnot
  have : u.id ∈ (renumber target 0 spl).map TaskUpdate.id :=
    List.mem_map_of_mem _ hu
  rw [renumber_map_id] at this
  rw [← he]
  exact this

theorem sorted_lt_of_keys {α : Type} (key : α → Int) (l : List α)
    (h : ∀ (i j : Nat) (a b : α), i < j → l[i]? = some a →
      l[j]? = some b → key a < key b) :
    List.Sorted (keyLt key) l := by
  rw [List.Sorted, List.pairwise_iff_getElem]
  intro i j hi hj hij
  exact h i j _ _ hij (List.getElem?_eq_getElem hi)
    (List.getElem?_eq_getElem hj)

theorem mem_siblingsWithout {tasks : List Task} {target : Option String}
    {taskId : String} {t : Task} :
    t ∈ siblingsWithout tasks target taskId ↔
      t ∈ tasks ∧ containerEq target t = true ∧ t.id ≠ taskId := by
  unfold siblingsWithout siblingsOf
  rw [List.mem_filter, List.mem_insertionSort, List.mem_filter]
  constructor
  · intro ⟨⟨h1, h2⟩, h3⟩
    exact ⟨h1, h2, by simpa using h3⟩
  · intro ⟨h1, h2, h3⟩
    exact ⟨⟨h1, h2⟩, by simpa using h3⟩

theorem siblingsWithout_pairwise {tasks : List Task}
    {target : Option String} {taskId : String}
    (hp : tasks.Pairwise (fun a b => a.id ≠ b.id)) :
    (siblingsWithout tasks target taskId).Pairwise
      (fun a b => a.id ≠ b.id) := by
  unfold siblingsWithout siblingsOf
  apply List.Pairwise.sublist (List.filter_sublist _)
  exact ((List.perm_insertionSort (keyLe oiKey)
    (tasks.filter (containerEq target))).pairwise_iff
      (fun hab => Ne.symm hab)).mpr
    (List.Pairwise.sublist (List.filter_sublist _) hp)

theorem spliced_pairwise {tasks : List Task} {target : Option String}
    {taskId : String} {moved : Task} {idx : Nat}
    (hp : tasks.Pairwise (fun a b => a.id ≠ b.id))
    (hmid : moved.id = taskId) :
    (spliceAt idx moved (siblingsWithout tasks target taskId)).Pairwise
      (fun a b => a.id ≠ b.id) := by
  have hperm := spliceAt_perm moved idx (siblingsWithout tasks target taskId)
  refine (hperm.pairwise_iff (fun hab => Ne.symm hab)).mpr ?_
  rw [List.pairwise_cons]
  constructor
  · intro s hs
    rw [hmid]
    exact fun he => (mem_siblingsWithout.mp hs).2.2 he.symm
  · exact siblingsWithout_pairwise hp

theorem mem_spliced_ids {tasks : List Task} {target : Option String}
    {taskId : String} {moved : Task} {idx : Nat}
    (hp : tasks.Pairwise (fun a b => a.id ≠ b.id))
    (hmid : moved.id = taskId) :
    ∀ t ∈ tasks,
      (t.id ∈ (spliceAt idx moved
          (siblingsWithout tasks target taskId)).map (fun s => s.id) ↔
        (t.id = taskId ∨
          (containerEq target t = true ∧ t.id ≠ taskId))) := by
  intro t ht
  have hperm := spliceAt_perm moved idx (siblingsWithout tasks target taskId)
  constructor
  · intro hmem
    rcases List.mem_map.mp hmem with ⟨s, hs, hsid⟩
    rcases List.mem_cons.mp (hperm.subset hs) with rfl | hssib
    · left
      rw [← hsid, hmid]
    · rcases mem_siblingsWithout.mp hssib with ⟨hstasks, hscont, hsne⟩
      have hst : s = t := pairwise_id_inj hp hstasks ht hsid
      subst hst
      right
      exact ⟨hscont, hsne⟩
  · intro hcase
    rcases hcase with heq | ⟨hcont, hne⟩
    · apply List.mem_map.mpr
      exact ⟨moved, hperm.mem_iff.mpr (by simp), by rw [hmid, heq]⟩
    · apply List.mem_map.mpr
      refine ⟨t, hperm.mem_iff.mpr ?_, rfl⟩
      right
      exact mem_siblingsWithout.mpr ⟨ht, hcont, hne⟩

theorem container_after_apply {tasks : List Task} {target : Option String}
    {taskId : String} {moved : Task} {idx : Nat}
    (hp : tasks.Pairwise (fun a b => a.id ≠ b.id))
    (htarget : jsOrNull target = target)
    (hmid : moved.id = taskId) :
    ∀ t ∈ tasks,
      containerEq target
          ((renumber target 0 (spliceAt idx moved
            (siblingsWithout tasks target taskId))).foldl applyOne t) =
        (t.id == taskId || (containerEq target t && t.id != taskId)) := by
  intro t ht
  by_cases hmem : t.id ∈ (spliceAt idx moved
      (siblingsWithout tasks target taskId)).map (fun s => s.id)
  · rcases List.mem_map.mp hmem with ⟨s, hs, hsid⟩
    rcases List.mem_iff_getElem?.mp hs with ⟨j, hj⟩
    rw [m_of_pos target _ (spliced_pairwise hp hmid) t j s hj hsid]
    have hLHS : containerEq target
        { t with orderIndex := some ((j : Int) * 1000),
                 parentTaskId := target } = true := by
      unfold containerEq
      simp only [htarget]
      simp
    rw [hLHS]
    have := (mem_spliced_ids hp hmid t ht).mp hmem
    rcases this with heq | ⟨hcont, hne⟩
    · simp [heq]
    · simp [hcont, hne]
  · rw [m_of_neg target _ t hmem]
    have hnotor : ¬(t.id = taskId ∨
        (containerEq target t = true ∧ t.id ≠ taskId)) :=
      fun hc => hmem ((mem_spliced_ids hp hmid t ht).mpr hc)
    push_neg at hnotor
    rcases hnotor with ⟨hne, himp⟩
    by_cases hcont : containerEq target t = true
    · exact absurd (himp hcont) (by simpa using hne)
    · simp only [Bool.eq_false_iff.mpr hcont]
      simp [hne]

theorem sort_filter_after_apply {tasks : List Task}
    {target : Option String} {taskId : String} {moved : Task} {idx : Nat}
    (hp : tasks.Pairwise (fun a b => a.id ≠ b.id))
    (htarget : jsOrNull target = target)
    (hfind : tasks.find? (fun t => t.id == taskId) = some moved) :
    List.insertionSort (keyLe oiKey)
      ((applyUpdatesLocally tasks
        (renumber target 0 (spliceAt idx moved
          (siblingsWithout tasks target taskId)))).filter
        (containerEq target)) =
      (spliceAt idx moved (siblingsWithout tasks target taskId)).map
        (fun t => (renumber target 0 (spliceAt idx moved
          (siblingsWithout tasks target taskId))).foldl applyOne t) := by
  have hmid : moved.id = taskId := by
    have := List.find?_some hfind
    simpa using this
  have happly := applyUpdatesLocally_eq_map
    (renumber target 0 (spliceAt idx moved
      (siblingsWithout tasks target taskId))) tasks hp
  rw [happly, filter_map_comm,
    List.filter_congr (container_after_apply hp htarget hmid)]
  have hsingle : tasks.filter (fun t => t.id == taskId) = [moved] := by
    apply filter_eq_singleton_of_find? _ hfind
    apply hp.imp
    intro a b hab hpa
    have ha : a.id = taskId := by simpa using hpa
    have : b.id ≠ taskId := fun hb => hab (ha ▸ hb ▸ rfl)
    simpa using this
  have hdisj : ∀ t : Task, ¬((t.id == taskId) = true ∧
      (containerEq target t && t.id != taskId) = true) := by
    intro t ⟨h1, h2⟩
    have he : t.id = taskId := by simpa using h1
    have hne : t.id ≠ taskId := by
      have := (Bool.and_eq_true_iff.mp h2).2
      simpa using this
    exact hne he
  have hpermor := filter_or_perm hdisj tasks
  rw [hsingle] at hpermor
  have hsibsperm : List.Perm (siblingsWithout tasks target taskId)
      (tasks.filter (fun t => containerEq target t && t.id != taskId)) := by
    rw [siblingsWithout_eq_sort_filter]
    exact List.perm_insertionSort _ _
  have hsplperm : List.Perm
      (tasks.filter (fun t => t.id == taskId ||
        (containerEq target t && t.id != taskId)))
      (spliceAt idx moved (siblingsWithout tasks target taskId)) := by
    refine hpermor.trans ?_
    have h1 : List.Perm
        (moved :: tasks.filter (fun t => containerEq target t &&
          t.id != taskId))
        (moved :: siblingsWithout tasks target taskId) :=
      (hsibsperm.symm).cons moved
    exact h1.trans (spliceAt_perm moved idx _).symm
  have hMU : List.Perm
      ((tasks.filter (fun t => t.id == taskId ||
        (containerEq target t && t.id != taskId))).map
        (fun t => (renumber target 0 (spliceAt idx moved
          (siblingsWithout tasks target taskId))).foldl applyOne t))
      ((spliceAt idx moved (siblingsWithout tasks target taskId)).map
        (fun t => (renumber target 0 (spliceAt idx moved
          (siblingsWithout tasks target taskId))).foldl applyOne t)) :=
    hsplperm.map _
  have hUkey : ∀ (j : Nat) (a : Task),
      ((spliceAt idx moved (siblingsWithout tasks target taskId)).map
        (fun t => (renumber target 0 (spliceAt idx moved
          (siblingsWithout tasks target taskId))).foldl applyOne t))[j]?
        = some a → oiKey a = (j : Int) * 1000 := by
    intro j a ha
    rw [List.getElem?_map] at ha
    rcases Option.map_eq_some'.mp ha with ⟨s, hsj, hms⟩
    rw [m_of_pos target _ (spliced_pairwise hp hmid) s j s hsj rfl] at hms
    rw [← hms]
    rfl
  have hUsorted : List.Sorted (keyLt oiKey)
      ((spliceAt idx moved (siblingsWithout tasks target taskId)).map
        (fun t => (renumber target 0 (spliceAt idx moved
          (siblingsWithout tasks target taskId))).foldl applyOne t)) := by
    apply sorted_lt_of_keys
    intro i j a b hij ha hb
    rw [hUkey i a ha, hUkey j b hb]
    have : (i : Int) < (j : Int) := by exact_mod_cast hij
    omega
  have hperm2 : List.Perm
      (List.insertionSort (keyLe oiKey)
        ((tasks.filter (fun t => t.id == taskId ||
          (containerEq target t && t.id != taskId))).map
          (fun t => (renumber target 0 (spliceAt idx moved
            (siblingsWithout tasks target taskId))).foldl applyOne t)))
      ((spliceAt idx moved (siblingsWithout tasks target taskId)).map
        (fun t => (renumber target 0 (spliceAt idx moved
          (siblingsWithout tasks target taskId))).foldl applyOne t)) :=
    (List.perm_insertionSort _ _).trans hMU
  have hkeysU : (((spliceAt idx moved
      (siblingsWithout tasks target taskId)).map
      (fun t => (renumber target 0 (spliceAt idx moved
        (siblingsWithout tasks target taskId))).foldl applyOne t)).map
      oiKey).Nodup :=
    List.pairwise_map.mpr (hUsorted.imp (fun h => ne_of_lt h))
  have hkeysM := ((hperm2.map oiKey).nodup_iff).mpr hkeysU
  have hsortM_lt := sorted_lt_of_sorted_le_nodup
    (List.sorted_insertionSort (keyLe oiKey) _) hkeysM
  exact List.eq_of_perm_of_sorted hperm2 hsortM_lt hUsorted

theorem siblingsWithout_after_apply {tasks : List Task}
    {target : Option String} {taskId : String} {moved : Task} {idx : Nat}
    (hp : tasks.Pairwise (fun a b => a.id ≠ b.id))
    (htarget : jsOrNull target = target)
    (hfind : tasks.find? (fun t => t.id == taskId) = some moved) :
    siblingsWithout
      (applyUpdatesLocally tasks
        (renumber target 0 (spliceAt idx moved
          (siblingsWithout tasks target taskId))))
      target taskId =
      (siblingsWithout tasks target taskId).map
        (fun t => (renumber target 0 (spliceAt idx moved
          (siblingsWithout tasks target taskId))).foldl applyOne t) := by
  have hmid : moved.id = taskId := by
    have := List.find?_some hfind
    simpa using this
  have hstep : siblingsWithout
      (applyUpdatesLocally tasks
        (renumber target 0 (spliceAt idx moved
          (siblingsWithout tasks target taskId)))) target taskId =
      (List.insertionSort (keyLe oiKey)
        ((applyUpdatesLocally tasks
          (renumber target 0 (spliceAt idx moved
            (siblingsWithout tasks target taskId)))).filter
          (containerEq target))).filter (fun t => t.id != taskId) := rfl
  rw [hstep, sort_filter_after_apply hp htarget hfind, filter_map_comm]
  have hcongr : (spliceAt idx moved
      (siblingsWithout tasks target taskId)).filter
      (fun s => ((renumber target 0 (spliceAt idx moved
        (siblingsWithout tasks target taskId))).foldl
        applyOne s).id != taskId) =
      (spliceAt idx moved
        (siblingsWithout tasks target taskId)).filter
      (fun s => s.id != taskId) := by
    apply List.filter_congr
    intro s _
    rw [foldl_applyOne_id]
  rw [hcongr]
  rw [spliceAt_filter_neg (by simp [hmid])]
  congr 1
  apply List.filter_eq_self.mpr
  intro t ht
  have := (mem_siblingsWithout.mp ht).2.2
  simpa using this

theorem insertIndexOf_some {sibs : List Task} {p : String} {i : Nat}
    (b : Bool) (h : findIdxO (fun t => t.id == p) sibs = some i) :
    insertIndexOf sibs (some p) b = i + 1 := by
  show (match findIdxO (fun t => t.id == p) sibs with
    | some j => j + 1
    | none => 0) = i + 1
  rw [h]

theorem buildUpdatesArray_reapply {tasks : List Task} {taskId : String}
    {target : Option String} {moved : Task} {idx : Nat}
    (prevArg nextArg : Option String)
    (hp : tasks.Pairwise (fun a b => a.id ≠ b.id))
    (htarget : jsOrNull target = target)
    (hfind : tasks.find? (fun t => t.id == taskId) = some moved)
    (hinsert : insertIndexOf
      ((siblingsWithout tasks target taskId).map
        (fun t => (renumber target 0 (spliceAt idx moved
          (siblingsWithout tasks target taskId))).foldl applyOne t))
      prevArg nextArg.isNone = idx) :
    buildUpdatesArray
      (applyUpdatesLocally tasks
        (renumber target 0 (spliceAt idx moved
          (siblingsWithout tasks target taskId))))
      taskId target prevArg nextArg =
      some (renumber target 0 (spliceAt idx moved
        (siblingsWithout tasks target taskId))) := by
  have hfindnew : (applyUpdatesLocally tasks
      (renumber target 0 (spliceAt idx moved
        (siblingsWithout tasks target taskId)))).find?
      (fun t => t.id == taskId) =
      some ((renumber target 0 (spliceAt idx moved
        (siblingsWithout tasks target taskId))).foldl applyOne moved) := by
    rw [applyUpdatesLocally_eq_map _ tasks hp, find?_map]
    have hfx : (fun t : Task =>
        (((renumber target 0 (spliceAt idx moved
          (siblingsWithout tasks target taskId))).foldl applyOne t).id ==
          taskId)) = (fun t : Task => t.id == taskId) := by
      funext t
      rw [foldl_applyOne_id]
    rw [hfx, hfind]
    rfl
  have h1 : buildUpdatesArray
      (applyUpdatesLocally tasks
        (renumber target 0 (spliceAt idx moved
          (siblingsWithout tasks target taskId))))
      taskId target prevArg nextArg =
      some (renumber target 0
        (spliceAt
          (insertIndexOf
            (siblingsWithout
              (applyUpdatesLocally tasks
                (renumber target 0 (spliceAt idx moved
                  (siblingsWithout tasks target taskId))))
              target taskId)
            prevArg nextArg.isNone)
          ((renumber target 0 (spliceAt idx moved
            (siblingsWithout tasks target taskId))).foldl applyOne moved)
          (siblingsWithout
            (applyUpdatesLocally tasks
              (renumber target 0 (spliceAt idx moved
                (siblingsWithout tasks target taskId))))
            target taskId))) := by
    simp [buildUpdatesArray, hfindnew]
  rw [h1, siblingsWithout_after_apply hp htarget hfind, hinsert]
  congr 1
  apply renumber_congr_ids
  rw [spliceAt_map, spliceAt_map]
  rw [show Task.id ((renumber target 0 (spliceAt idx moved
    (siblingsWithout tasks target taskId))).foldl applyOne moved) =
    Task.id moved from foldl_applyOne_id _ moved]
  congr 1
  rw [List.map_map]
  apply List.map_congr_left
  intro t _
  exact foldl_applyOne_id _ t

/-- Task-list half of C7: applying the plan and re-running the planner
with the neighbours read off the updated order returns the identical
plan. -/
theorem taskPlanner_idem
    (tasks : List TaskListSortable.Task) (taskId : String)
    (target prevId nextId : Option String)
    (us : List TaskListSortable.TaskUpdate) (k : Nat)
    (u : TaskListSortable.TaskUpdate)
    (hnd : (tasks.map (fun t => t.id)).Nodup)
    (htarget : jsOrNull target = target)
    (hbuild : TaskListSortable.buildUpdatesArray tasks taskId target prevId
      nextId = some us)
    (hk : us[k]? = some u) (huid : u.id = taskId) :
    TaskListSortable.buildUpdatesArray
      (TaskListSortable.applyUpdatesLocally tasks us) taskId target
      (if k = 0 then none else (us[k - 1]?).map (fun v => v.id))
      ((us[k + 1]?).map (fun v => v.id)) = some us := by
  have hp : tasks.Pairwise (fun a b => a.id ≠ b.id) :=
    List.pairwise_map.mp hnd
  rcases hfind : tasks.find? (fun t => t.id == taskId) with _ | moved
  · rw [TaskListSortable.buildUpdatesArray] at hbuild
    simp only [hfind] at hbuild
    exact Option.noConfusion hbuild
  · rw [TaskListSortable.buildUpdatesArray] at hbuild
    simp only [hfind, Option.some.injEq] at hbuild
    have hmid : moved.id = taskId := by
      simpa using List.find?_some hfind
    have hidxle := insertIndexOf_le_length (siblingsWithout tasks target taskId) prevId nextId.isNone
    subst hbuild
    have hsplpw := @spliced_pairwise tasks target taskId moved
      (insertIndexOf (siblingsWithout tasks target taskId) prevId nextId.isNone) hp hmid
    have huspw := renumber_pairwise target _ hsplpw
    have hsplidx : (spliceAt (insertIndexOf (siblingsWithout tasks target taskId) prevId nextId.isNone) moved (siblingsWithout tasks target taskId))[(insertIndexOf (siblingsWithout tasks target taskId) prevId nextId.isNone)]? = some moved :=
      spliceAt_getElem?_self _ hidxle
    have husidx : (renumber target 0
        (spliceAt (insertIndexOf (siblingsWithout tasks target taskId) prevId nextId.isNone) moved (siblingsWithout tasks target taskId)))[(insertIndexOf (siblingsWithout tasks target taskId) prevId nextId.isNone)]? =
        some ⟨moved.id, ((0 + (insertIndexOf (siblingsWithout tasks target taskId) prevId nextId.isNone) : Nat) : Int) * 1000, target⟩ := by
      rw [renumber_getElem?, hsplidx]
      rfl
    have hkidx : k = (insertIndexOf (siblingsWithout tasks target taskId) prevId nextId.isNone) :=
      @pairwise_getElem?_inj TaskUpdate (fun v => v.id) _ huspw k
        (insertIndexOf (siblingsWithout tasks target taskId) prevId nextId.isNone) u ⟨moved.id, ((0 + (insertIndexOf (siblingsWithout tasks target taskId) prevId nextId.isNone) : Nat) : Int) * 1000, target⟩ hk
        husidx (show u.id = moved.id from huid.trans hmid.symm)
    subst hkidx
    by_cases hidx0 : (insertIndexOf (siblingsWithout tasks target taskId) prevId nextId.isNone) = 0
    · rw [if_pos hidx0, hidx0]
      apply buildUpdatesArray_reapply _ _ hp htarget hfind
      cases hsibs : (siblingsWithout tasks target taskId) with
      | nil => simp [renumber, spliceAt, insertIndexOf]
      | cons s rest => simp [renumber, spliceAt, insertIndexOf]
    · rw [if_neg hidx0]
      have hlen : (insertIndexOf (siblingsWithout tasks target taskId) prevId nextId.isNone) - 1 < (siblingsWithout tasks target taskId).length := by
        omega
      have hsj : (siblingsWithout tasks target taskId)[(insertIndexOf (siblingsWithout tasks target taskId) prevId nextId.isNone) - 1]? = some ((siblingsWithout tasks target taskId).get ⟨(insertIndexOf (siblingsWithout tasks target taskId) prevId nextId.isNone) - 1, hlen⟩) :=
        List.getElem?_eq_getElem hlen
      have hsplj : (spliceAt (insertIndexOf (siblingsWithout tasks target taskId) prevId nextId.isNone) moved (siblingsWithout tasks target taskId))[(insertIndexOf (siblingsWithout tasks target taskId) prevId nextId.isNone) - 1]? =
          (siblingsWithout tasks target taskId)[(insertIndexOf (siblingsWithout tasks target taskId) prevId nextId.isNone) - 1]? :=
        spliceAt_getElem?_lt (siblingsWithout tasks target taskId) (by omega) hidxle
      have hsibspw := @siblingsWithout_pairwise tasks target taskId hp
      have hfio : findIdxO
          (fun t => t.id == ((siblingsWithout tasks target taskId).get ⟨(insertIndexOf (siblingsWithout tasks target taskId) prevId nextId.isNone) - 1, hlen⟩).id)
          ((siblingsWithout tasks target taskId).map (fun t =>
            (renumber target 0 (spliceAt (insertIndexOf (siblingsWithout tasks target taskId) prevId nextId.isNone) moved (siblingsWithout tasks target taskId))).foldl
              applyOne t)) = some ((insertIndexOf (siblingsWithout tasks target taskId) prevId nextId.isNone) - 1) := by
        apply findIdxO_eq_some
        · rw [List.getElem?_map, hsj]
          rfl
        · rw [foldl_applyOne_id]
          simp
        · intro j2 y hj2 hy
          rw [List.getElem?_map] at hy
          rcases Option.map_eq_some'.mp hy with ⟨s2, hs2, rfl⟩
          rw [foldl_applyOne_id]
          simp only [beq_eq_false_iff_ne, ne_eq]
          intro he
          have := @pairwise_getElem?_inj
            TaskListSortable.Task (fun t => t.id) (siblingsWithout tasks target taskId) hsibspw j2
            ((insertIndexOf (siblingsWithout tasks target taskId) prevId nextId.isNone) - 1) s2 ((siblingsWithout tasks target taskId).get ⟨(insertIndexOf (siblingsWithout tasks target taskId) prevId nextId.isNone) - 1, hlen⟩) hs2 hsj he
          omega
      have hins : insertIndexOf
          ((siblingsWithout tasks target taskId).map (fun t =>
            (renumber target 0 (spliceAt (insertIndexOf (siblingsWithout tasks target taskId) prevId nextId.isNone) moved (siblingsWithout tasks target taskId))).foldl
              applyOne t))
          (Option.map (fun v => v.id)
            ((renumber target 0 (spliceAt (insertIndexOf (siblingsWithout tasks target taskId) prevId nextId.isNone) moved (siblingsWithout tasks target taskId)))[(insertIndexOf (siblingsWithout tasks target taskId) prevId nextId.isNone) - 1]?))
          ((Option.map (fun v => v.id)
            ((renumber target 0
              (spliceAt (insertIndexOf (siblingsWithout tasks target taskId) prevId nextId.isNone) moved (siblingsWithout tasks target taskId)))[(insertIndexOf (siblingsWithout tasks target taskId) prevId nextId.isNone) + 1]?)).isNone) =
          (insertIndexOf (siblingsWithout tasks target taskId) prevId nextId.isNone) := by
        rw [renumber_getElem? target 0 (spliceAt (insertIndexOf (siblingsWithout tasks target taskId) prevId nextId.isNone) moved (siblingsWithout tasks target taskId))
          ((insertIndexOf (siblingsWithout tasks target taskId) prevId nextId.isNone) - 1), hsplj, hsj]
        simp only [Option.map_some']
        rw [insertIndexOf_some _ hfio]
        omega
      exact buildUpdatesArray_reapply _ _ hp htarget hfind hins

end IdempotenceProofs

/-! ### Idempotence of the side-list planner (C7, side part) -/

section SideIdempotenceProofs

open SideListSortable SideFlat

theorem pairwise_key_inj {α : Type} {key : α → String} {l : List α}
    (hnd : l.Pairwise (fun a b => key a ≠ key b)) :
    ∀ {a b : α}, a ∈ l → b ∈ l → key a = key b → a = b := by
  induction l with
  | nil => intro a b ha; simp at ha
  | cons x xs ih =>
    intro a b ha hb hab
    rcases List.pairwise_cons.mp hnd with ⟨hx, hxs⟩
    rcases List.mem_cons.mp ha with rfl | ha'
    · rcases List.mem_cons.mp hb with rfl | hb'
      · rfl
      · exact absurd hab (hx b hb')
    · rcases List.mem_cons.mp hb with rfl | hb'
      · exact absurd hab.symm (hx a ha')
      · exact ih hxs ha' hb' hab

theorem filter_of_pairwise_getElem_key {α : Type} {key : α → String}
    {us : List α} (hnd : us.Pairwise (fun a b => key a ≠ key b)) :
    ∀ {j : Nat} {u : α}, us[j]? = some u →
      us.filter (fun v => key v == key u) = [u] := by
  induction us with
  | nil => intro j u h; simp at h
  | cons x xs ih =>
    intro j u h
    rcases List.pairwise_cons.mp hnd with ⟨hx, hxs⟩
    cases j with
    | zero =>
      simp only [List.getElem?_cons_zero, Option.some.injEq] at h
      subst h
      have hnil : xs.filter (fun v => key v == key x) = [] := by
        apply List.filter_eq_nil_iff.mpr
        intro v hv
        simp only [beq_iff_eq]
        exact fun he => (hx v hv) he.symm
      simp only [List.filter_cons, beq_self_eq_true, if_true, hnil]
    | succ j =>
      simp only [List.getElem?_cons_succ] at h
      have hu : u ∈ xs := getElem?_mem' h
      have hxu : (key x == key u) = false := by
        simp only [beq_eq_false_iff_ne, ne_eq]
        exact hx u hu
      simp only [List.filter_cons, hxu, Bool.false_eq_true, if_false]
      exact ih hxs h

theorem filter_eq_singleton_of_mem_key {α : Type} {key : α → String}
    {l : List α} {a : α} {x : String}
    (hpw : l.Pairwise (fun p q => key p ≠ key q)) (ha : a ∈ l)
    (hk : key a = x) : l.filter (fun b => key b == x) = [a] := by
  induction l with
  | nil => simp at ha
  | cons y ys ih =>
    rcases List.pairwise_cons.mp hpw with ⟨hy, hys⟩
    rcases List.mem_cons.mp ha with rfl | ha'
    · have hnil : ys.filter (fun b => key b == x) = [] := by
        apply List.filter_eq_nil_iff.mpr
        intro v hv
        simp only [beq_iff_eq]
        exact fun he => (hy v hv) (hk.trans he.symm)
      simp only [List.filter_cons, hk, beq_self_eq_true, if_true, hnil]
    · have hyx : (key y == x) = false := by
        simp only [beq_eq_false_iff_ne, ne_eq]
        exact fun he => (hy a ha') (he.trans hk.symm)
      simp only [List.filter_cons, hyx, Bool.false_eq_true, if_false]
      exact ih hys ha'

theorem renumberS_map_id (target : Option String) :
    ∀ (k : Nat) (l : List SideItem),
      (renumberS target k l).map SideUpdate.id = l.map SideItem.id := by
  intro k l
  induction l generalizing k with
  | nil => rfl
  | cons t ts ih => simp [renumberS, ih]

theorem renumberS_pairwise (target : Option String) (spl : List SideItem)
    (hpw : spl.Pairwise (fun a b => a.id ≠ b.id)) :
    (renumberS target 0 spl).Pairwise (fun a b => a.id ≠ b.id) := by
  have h1 : List.Pairwise (fun a b : String => a ≠ b)
      (spl.map (fun t => t.id)) :=
    List.pairwise_map.mpr hpw
  rw [show spl.map (fun t => t.id) = spl.map SideItem.id from rfl,
    ← renumberS_map_id target 0 spl] at h1
  exact List.pairwise_map.mp h1

theorem renumberS_congr_pairs (target : Option String) :
    ∀ (k : Nat) (l₁ l₂ : List SideItem),
      l₁.map (fun t => (t.id, t.itype)) = l₂.map (fun t => (t.id, t.itype)) →
      renumberS target k l₁ = renumberS target k l₂ := by
  intro k l₁
  induction l₁ generalizing k with
  | nil =>
    intro l₂ h
    cases l₂ with
    | nil => rfl
    | cons _ _ => simp at h
  | cons t ts ih =>
    intro l₂ h
    cases l₂ with
    | nil => simp at h
    | cons s ss =>
      simp only [List.map_cons, List.cons.injEq, Prod.mk.injEq] at h
      rcases h with ⟨⟨hid, hty⟩, hrest⟩
      simp [renumberS, hid, hty, ih (k + 1) ss hrest]

theorem insertIndexOfS_le_length (sibs : List SideItem)
    (prevId : Option String) (nextIsNone : Bool) :
    insertIndexOfS sibs prevId nextIsNone ≤ sibs.length := by
  unfold insertIndexOfS
  cases prevId with
  | none =>
    by_cases h : nextIsNone = true
    · simp [h]
    · simp [h]
  | some p =>
    cases hf : findIdxO (fun t => t.id == p) sibs with
    | none => simp [hf]
    | some i =>
      have := findIdxO_lt_length hf
      simp only [hf]
      omega

theorem insertIndexOfS_some {sibs : List SideItem} {p : String} {i : Nat}
    (b : Bool) (h : findIdxO (fun t => t.id == p) sibs = some i) :
    insertIndexOfS sibs (some p) b = i + 1 := by
  show (match findIdxO (fun t => t.id == p) sibs with
    | some j => j + 1
    | none => 0) = i + 1
  rw [h]

theorem itemApply_id (x : SideItem) (u : SideUpdate) :
    (itemApply x u).id = x.id := by
  unfold itemApply
  by_cases h : (u.id == x.id) = true
  · simp [h, eq_of_beq h]
  · simp [h]

theorem foldl_itemApply_id (us : List SideUpdate) :
    ∀ x : SideItem, (us.foldl itemApply x).id = x.id := by
  induction us with
  | nil => intro x; rfl
  | cons u us ih =>
    intro x
    simp only [List.foldl_cons]
    rw [ih (itemApply x u), itemApply_id]

theorem foldl_itemApply_of_no_match {us : List SideUpdate} {x : SideItem}
    (h : ∀ u ∈ us, u.id ≠ x.id) : us.foldl itemApply x = x := by
  induction us with
  | nil => rfl
  | cons u us ih =>
    simp only [List.foldl_cons]
    have hu : itemApply x u = x := by
      unfold itemApply
      rw [if_neg]
      simp only [beq_iff_eq]
      exact fun he => h u (by simp) he
    rw [hu]
    exact ih (fun v hv => h v (by simp [hv]))

theorem foldl_itemApply_single_match :
    ∀ {us : List SideUpdate} {x : SideItem} {u : SideUpdate},
      us.filter (fun v => v.id == x.id) = [u] →
      us.foldl itemApply x = ⟨u.id, u.itype, some u.orderIndex⟩ := by
  intro us
  induction us with
  | nil =>
    intro x u h
    simp at h
  | cons v vs ih =>
    intro x u h
    by_cases hv : (v.id == x.id) = true
    · simp only [List.filter_cons, hv, if_true, List.cons.injEq] at h
      rcases h with ⟨rfl, hnil⟩
      have hnomatch : ∀ w ∈ vs, w.id ≠ (itemApply x v).id := by
        intro w hw he
        have hwid : w.id = x.id := by rw [he, itemApply_id]
        have hwmem : w ∈ vs.filter (fun z => z.id == x.id) :=
          List.mem_filter.mpr ⟨hw, by simp [hwid]⟩
        rw [hnil] at hwmem
        simp at hwmem
      have happ : itemApply x v = ⟨v.id, v.itype, some v.orderIndex⟩ := by
        unfold itemApply
        rw [if_pos hv]
      simp only [List.foldl_cons]
      rw [foldl_itemApply_of_no_match hnomatch, happ]
    · simp only [List.filter_cons, hv, Bool.false_eq_true, if_false] at h
      simp only [List.foldl_cons]
      have happ : itemApply x v = x := by
        unfold itemApply
        rw [if_neg hv]
      rw [happ]
      exact ih h

theorem flatApply_id (r : FlatRec) (u : SideUpdate) :
    (flatApply r u).id = r.id := by
  unfold flatApply
  by_cases h : (u.itype == r.kind && u.id == r.id) = true
  · simp [h]
  · simp [h]

theorem flatApply_kind (r : FlatRec) (u : SideUpdate) :
    (flatApply r u).kind = r.kind := by
  unfold flatApply
  by_cases h : (u.itype == r.kind && u.id == r.id) = true
  · simp [h]
  · simp [h]

theorem foldl_flatApply_id (us : List SideUpdate) :
    ∀ r : FlatRec, (us.foldl flatApply r).id = r.id := by
  induction us with
  | nil => intro r; rfl
  | cons u us ih =>
    intro r
    simp only [List.foldl_cons]
    rw [ih (flatApply r u), flatApply_id]

theorem foldl_flatApply_kind (us : List SideUpdate) :
    ∀ r : FlatRec, (us.foldl flatApply r).kind = r.kind := by
  induction us with
  | nil => intro r; rfl
  | cons u us ih =>
    intro r
    simp only [List.foldl_cons]
    rw [ih (flatApply r u), flatApply_kind]

theorem foldl_flatApply_of_no_cmatch :
    ∀ {us : List SideUpdate} {r : FlatRec},
      (∀ u ∈ us, (u.itype == r.kind && u.id == r.id) = false) →
      us.foldl flatApply r = r := by
  intro us
  induction us with
  | nil => intro r _; rfl
  | cons u us ih =>
    intro r h
    simp only [List.foldl_cons]
    have hu : flatApply r u = r := by
      unfold flatApply
      rw [if_neg (by simp [h u (List.mem_cons_self u us)])]
    rw [hu]
    exact ih (fun v hv => h v (by simp [hv]))

theorem foldl_flatApply_of_no_match {us : List SideUpdate} {r : FlatRec}
    (h : ∀ u ∈ us, u.id ≠ r.id) : us.foldl flatApply r = r := by
  apply foldl_flatApply_of_no_cmatch
  intro u hu
  have : (u.id == r.id) = false := by
    simp only [beq_eq_false_iff_ne, ne_eq]
    exact h u hu
  simp [this]

theorem foldl_flatApply_single_match :
    ∀ {us : List SideUpdate} {r : FlatRec} {u : SideUpdate},
      us.filter (fun v => v.itype == r.kind && v.id == r.id) = [u] →
      us.foldl flatApply r =
        { r with orderIndex := some u.orderIndex,
                 key := if u.itype == "folder" then joinOpt u.parentId
                   else joinOpt u.folderId } := by
  intro us
  induction us with
  | nil =>
    intro r u h
    simp at h
  | cons v vs ih =>
    intro r u h
    by_cases hv : (v.itype == r.kind && v.id == r.id) = true
    · simp only [List.filter_cons, hv, if_true, List.cons.injEq] at h
      rcases h with ⟨rfl, hnil⟩
      have hres : flatApply r v =
          { r with orderIndex := some v.orderIndex,
                   key := if v.itype == "folder" then joinOpt v.parentId
                     else joinOpt v.folderId } := by
        unfold flatApply
        rw [if_pos hv]
      have hnomatch : ∀ w ∈ vs,
          (w.itype == (flatApply r v).kind
            && w.id == (flatApply r v).id) = false := by
        intro w hw
        rw [flatApply_kind, flatApply_id]
        have := List.filter_eq_nil_iff.mp hnil w hw
        exact Bool.eq_false_iff.mpr this
      simp only [List.foldl_cons]
      rw [foldl_flatApply_of_no_cmatch hnomatch, hres]
    · simp only [List.filter_cons, hv, Bool.false_eq_true, if_false] at h
      simp only [List.foldl_cons]
      have happ : flatApply r v = r := by
        unfold flatApply
        rw [if_neg hv]
      rw [happ]
      exact ih h

theorem allItems_eq_flat (st : SideState) (target : Option String) :
    allItemsOf st target =
      ((allRecords st).filter (fun r => jsOrNull r.key == target)).map
        toItem := by
  unfold allItemsOf allRecords
  simp only [List.filter_append, List.map_append, filter_map_comm,
    List.map_map]
  rfl

theorem allRecords_map_id (st : SideState) :
    (allRecords st).map (fun r => r.id) =
      st.folders.map (fun f => f.id) ++ st.objectives.map (fun o => o.id)
        ++ st.notes.map (fun n => n.id) ++ st.bookmarks.map (fun b => b.id)
        ++ st.taskLists.map (fun tl => tl.id) := by
  unfold allRecords
  simp only [List.map_append, List.map_map]
  rfl

theorem allRecords_parts_pairwise {st : SideState}
    (hnd : ((allRecords st).map (fun r => r.id)).Nodup) :
    st.folders.Pairwise (fun a b => a.id ≠ b.id) ∧
    st.objectives.Pairwise (fun a b => a.id ≠ b.id) ∧
    st.notes.Pairwise (fun a b => a.id ≠ b.id) ∧
    st.bookmarks.Pairwise (fun a b => a.id ≠ b.id) ∧
    st.taskLists.Pairwise (fun a b => a.id ≠ b.id) := by
  have hpw : (allRecords st).Pairwise (fun a b => a.id ≠ b.id) :=
    List.pairwise_map.mp hnd
  unfold allRecords at hpw
  rcases List.pairwise_append.mp hpw with ⟨h1234, h5, _⟩
  rcases List.pairwise_append.mp h1234 with ⟨h123, h4, _⟩
  rcases List.pairwise_append.mp h123 with ⟨h12, h3, _⟩
  rcases List.pairwise_append.mp h12 with ⟨h1, h2, _⟩
  have p1 := List.pairwise_map.mp h1
  have p2 := List.pairwise_map.mp h2
  have p3 := List.pairwise_map.mp h3
  have p4 := List.pairwise_map.mp h4
  have p5 := List.pairwise_map.mp h5
  exact ⟨p1, p2, p3, p4, p5⟩

theorem findDropped_spec {st : SideState} {itype id : String}
    {d : SideItem} (h : findDropped st itype id = some d) :
    d.id = id ∧ ∃ r ∈ allRecords st, toItem r = d := by
  unfold findDropped at h
  split_ifs at h
  · rcases Option.map_eq_some'.mp h with ⟨f, hf, rfl⟩
    refine ⟨by simpa using List.find?_some hf, ofFolder f, ?_, rfl⟩
    unfold allRecords
    simp only [List.mem_append, List.mem_map]
    exact Or.inl (Or.inl (Or.inl (Or.inl
      ⟨f, List.mem_of_find?_eq_some hf, rfl⟩)))
  · rcases Option.map_eq_some'.mp h with ⟨f, hf, rfl⟩
    refine ⟨by simpa using List.find?_some hf, ofRec "objective" f, ?_, rfl⟩
    unfold allRecords
    simp only [List.mem_append, List.mem_map]
    exact Or.inl (Or.inl (Or.inl (Or.inr
      ⟨f, List.mem_of_find?_eq_some hf, rfl⟩)))
  · rcases Option.map_eq_some'.mp h with ⟨f, hf, rfl⟩
    refine ⟨by simpa using List.find?_some hf, ofRec "note" f, ?_, rfl⟩
    unfold allRecords
    simp only [List.mem_append, List.mem_map]
    exact Or.inl (Or.inl (Or.inr ⟨f, List.mem_of_find?_eq_some hf, rfl⟩))
  · rcases Option.map_eq_some'.mp h with ⟨f, hf, rfl⟩
    refine ⟨by simpa using List.find?_some hf, ofRec "bookmark" f, ?_, rfl⟩
    unfold allRecords
    simp only [List.mem_append, List.mem_map]
    exact Or.inl (Or.inr ⟨f, List.mem_of_find?_eq_some hf, rfl⟩)
  · rcases Option.map_eq_some'.mp h with ⟨f, hf, rfl⟩
    refine ⟨by simpa using List.find?_some hf, ofRec "task-list" f, ?_, rfl⟩
    unfold allRecords
    simp only [List.mem_append, List.mem_map]
    exact Or.inr ⟨f, List.mem_of_find?_eq_some hf, rfl⟩

theorem mem_allItems_record {st : SideState} {target : Option String}
    {x : SideItem} (hx : x ∈ allItemsOf st target) :
    ∃ r ∈ allRecords st, (jsOrNull r.key == target) = true ∧ toItem r = x := by
  rw [allItems_eq_flat] at hx
  rcases List.mem_map.mp hx with ⟨r, hr, rfl⟩
  rcases List.mem_filter.mp hr with ⟨hrm, hrc⟩
  exact ⟨r, hrm, hrc, rfl⟩

theorem record_mem_allItems {st : SideState} {target : Option String}
    {r : FlatRec} (hr : r ∈ allRecords st)
    (hc : (jsOrNull r.key == target) = true) :
    toItem r ∈ allItemsOf st target := by
  rw [allItems_eq_flat]
  exact List.mem_map_of_mem _ (List.mem_filter.mpr ⟨hr, hc⟩)

theorem allItems_pairwiseS {st : SideState} {target : Option String}
    (hpw : (allRecords st).Pairwise (fun a b => a.id ≠ b.id)) :
    (allItemsOf st target).Pairwise (fun a b => a.id ≠ b.id) := by
  rw [allItems_eq_flat, List.pairwise_map]
  exact List.Pairwise.sublist (List.filter_sublist _) hpw

theorem mem_itemsWithoutS {st : SideState} {target : Option String}
    {id : String} {x : SideItem} :
    x ∈ itemsWithout st target id ↔
      x ∈ allItemsOf st target ∧ x.id ≠ id := by
  unfold itemsWithout sortedItemsOf
  rw [List.mem_filter, List.mem_insertionSort]
  constructor
  · intro ⟨h1, h2⟩
    exact ⟨h1, by simpa using h2⟩
  · intro ⟨h1, h2⟩
    exact ⟨h1, by simpa using h2⟩

theorem itemsWithoutS_pairwise {st : SideState} {target : Option String}
    {id : String}
    (hpw : (allRecords st).Pairwise (fun a b => a.id ≠ b.id)) :
    (itemsWithout st target id).Pairwise (fun a b => a.id ≠ b.id) := by
  unfold itemsWithout sortedItemsOf
  apply List.Pairwise.sublist (List.filter_sublist _)
  exact ((List.perm_insertionSort (keyLe oiKeyS)
    (allItemsOf st target)).pairwise_iff (fun hab => Ne.symm hab)).mpr
    (allItems_pairwiseS hpw)

theorem spliced_pairwiseS {st : SideState} {target : Option String}
    {id : String} {dropped : SideItem} {idx : Nat}
    (hpw : (allRecords st).Pairwise (fun a b => a.id ≠ b.id))
    (hdid : dropped.id = id) :
    (spliceAt idx dropped (itemsWithout st target id)).Pairwise
      (fun a b => a.id ≠ b.id) := by
  have hperm := spliceAt_perm dropped idx (itemsWithout st target id)
  refine (hperm.pairwise_iff (fun hab => Ne.symm hab)).mpr ?_
  rw [List.pairwise_cons]
  constructor
  · intro s hs
    rw [hdid]
    exact fun he => (mem_itemsWithoutS.mp hs).2 he.symm
  · exact itemsWithoutS_pairwise hpw

theorem flat_commute_folder :
    ∀ (us : List SideUpdate) (f : Folder),
      ofFolder (us.foldl (fun x u =>
        if (u.itype == "folder") && (x.id == u.id) then
          { x with orderIndex := some u.orderIndex,
                   parentId := joinOpt u.parentId }
        else x) f) = us.foldl flatApply (ofFolder f) := by
  intro us
  induction us with
  | nil => intro f; rfl
  | cons u us ih =>
    intro f
    simp only [List.foldl_cons]
    rw [ih]
    congr 1
    by_cases h1 : (u.itype == "folder") = true
    · have h1' : u.itype = "folder" := eq_of_beq h1
      by_cases h2 : (f.id == u.id) = true
      · have h2' : f.id = u.id := eq_of_beq h2
        simp [flatApply, ofFolder, h1, h2, h1', h2']
      · have hA : (f.id == u.id) = false := Bool.eq_false_iff.mpr h2
        have hB : (u.id == f.id) = false := by
          simp only [beq_eq_false_iff_ne, ne_eq] at hA ⊢
          exact fun he => hA he.symm
        simp [flatApply, ofFolder, h1, hA, hB]
    · have hA : (u.itype == "folder") = false := Bool.eq_false_iff.mpr h1
      simp [flatApply, ofFolder, hA]

theorem flat_commute_rec (K : String) (hK : (K == "folder") = false) :
    ∀ (us : List SideUpdate) (o : SideRec),
      ofRec K (us.foldl (fun x u =>
        if (u.itype == K) && (x.id == u.id) then
          { x with orderIndex := some u.orderIndex,
                   folderId := joinOpt u.folderId }
        else x) o) = us.foldl flatApply (ofRec K o) := by
  intro us
  induction us with
  | nil => intro o; rfl
  | cons u us ih =>
    intro o
    simp only [List.foldl_cons]
    rw [ih]
    congr 1
    by_cases h1 : (u.itype == K) = true
    · have h1' : u.itype = K := eq_of_beq h1
      by_cases h2 : (o.id == u.id) = true
      · have h2' : o.id = u.id := eq_of_beq h2
        simp [flatApply, ofRec, h1, h2, h1', h2', hK]
      · have hA : (o.id == u.id) = false := Bool.eq_false_iff.mpr h2
        have hB : (u.id == o.id) = false := by
          simp only [beq_eq_false_iff_ne, ne_eq] at hA ⊢
          exact fun he => hA he.symm
        simp [flatApply, ofRec, h1, hA, hB]
    · have hA : (u.itype == K) = false := Bool.eq_false_iff.mpr h1
      simp [flatApply, ofRec, hA]

theorem allRecords_apply (st : SideState) (us : List SideUpdate)
    (hnd : ((allRecords st).map (fun r => r.id)).Nodup) :
    allRecords (applyUpdatesLocally st us) =
      (allRecords st).map (fun r => us.foldl flatApply r) := by
  rcases allRecords_parts_pairwise hnd with ⟨p1, p2, p3, p4, p5⟩
  have e1 : (applyUpdatesLocally st us).folders.map ofFolder
      = (st.folders.map ofFolder).map (fun r => us.foldl flatApply r) := by
    rw [applyS_folders, foldCond_eq_map (fun f => f.id)
      (fun u => u.itype == "folder")
      (fun u f => { f with orderIndex := some u.orderIndex,
                           parentId := joinOpt u.parentId })
      (fun u a => rfl) us st.folders p1, List.map_map, List.map_map]
    apply List.map_congr_left
    intro f _
    exact flat_commute_folder us f
  have e2 : (applyUpdatesLocally st us).objectives.map (ofRec "objective")
      = (st.objectives.map (ofRec "objective")).map
          (fun r => us.foldl flatApply r) := by
    rw [applyS_objectives, foldCond_eq_map (fun o => o.id)
      (fun u => u.itype == "objective")
      (fun u o => { o with orderIndex := some u.orderIndex,
                           folderId := joinOpt u.folderId })
      (fun u a => rfl) us st.objectives p2, List.map_map, List.map_map]
    apply List.map_congr_left
    intro o _
    exact flat_commute_rec "objective" (by decide) us o
  have e3 : (applyUpdatesLocally st us).notes.map (ofRec "note")
      = (st.notes.map (ofRec "note")).map
          (fun r => us.foldl flatApply r) := by
    rw [applyS_notes, foldCond_eq_map (fun n => n.id)
      (fun u => u.itype == "note")
      (fun u n => { n with orderIndex := some u.orderIndex,
                           folderId := joinOpt u.folderId })
      (fun u a => rfl) us st.notes p3, List.map_map, List.map_map]
    apply List.map_congr_left
    intro n _
    exact flat_commute_rec "note" (by decide) us n
  have e4 : (applyUpdatesLocally st us).bookmarks.map (ofRec "bookmark")
      = (st.bookmarks.map (ofRec "bookmark")).map
          (fun r => us.foldl flatApply r) := by
    rw [applyS_bookmarks, foldCond_eq_map (fun b => b.id)
      (fun u => u.itype == "bookmark")
      (fun u b => { b with orderIndex := some u.orderIndex,
                           folderId := joinOpt u.folderId })
      (fun u a => rfl) us st.bookmarks p4, List.map_map, List.map_map]
    apply List.map_congr_left
    intro b _
    exact flat_commute_rec "bookmark" (by decide) us b
  have e5 : (applyUpdatesLocally st us).taskLists.map (ofRec "task-list")
      = (st.taskLists.map (ofRec "task-list")).map
          (fun r => us.foldl flatApply r) := by
    rw [applyS_taskLists, foldCond_eq_map (fun tl => tl.id)
      (fun u => u.itype == "task-list")
      (fun u tl => { tl with orderIndex := some u.orderIndex,
                             folderId := joinOpt u.folderId })
      (fun u a => rfl) us st.taskLists p5, List.map_map, List.map_map]
    apply List.map_congr_left
    intro tl _
    exact flat_commute_rec "task-list" (by decide) us tl
  unfold allRecords
  rw [List.map_append, List.map_append, List.map_append, List.map_append]
  rw [e1, e2, e3, e4, e5]

theorem spl_mem_toItem {st : SideState} {target : Option String}
    {itype id : String} {dropped : SideItem} {idx : Nat}
    (hfd : findDropped st itype id = some dropped) :
    ∀ s ∈ spliceAt idx dropped (itemsWithout st target id),
      ∃ r ∈ allRecords st, toItem r = s := by
  intro s hs
  rcases List.mem_cons.mp
      ((spliceAt_perm dropped idx (itemsWithout st target id)).subset hs)
    with rfl | hsib
  · exact (findDropped_spec hfd).2
  · rcases mem_itemsWithoutS.mp hsib with ⟨hall, _⟩
    rcases mem_allItems_record hall with ⟨r, hr, _, hrs⟩
    exact ⟨r, hr, hrs⟩

theorem spl_kind_coherent {st : SideState} {target : Option String}
    {itype id : String} {dropped : SideItem} {idx : Nat}
    (hpwR : (allRecords st).Pairwise (fun a b => a.id ≠ b.id))
    (hfd : findDropped st itype id = some dropped) :
    ∀ s ∈ spliceAt idx dropped (itemsWithout st target id),
      ∀ r ∈ allRecords st, r.id = s.id → toItem r = s := by
  intro s hs r hr hid
  rcases spl_mem_toItem hfd s hs with ⟨r', hr', hr's⟩
  have hids : r'.id = r.id := by
    have h1 : (toItem r').id = s.id := by rw [hr's]
    simpa [toItem] using h1.trans hid.symm
  have hrr : r' = r := pairwise_key_inj hpwR hr' hr hids
  rw [← hrr, hr's]

theorem mem_spliced_ids_flat {st : SideState} {target : Option String}
    {itype id : String} {dropped : SideItem} {idx : Nat}
    (hpwR : (allRecords st).Pairwise (fun a b => a.id ≠ b.id))
    (hfd : findDropped st itype id = some dropped) :
    ∀ r ∈ allRecords st,
      (r.id ∈ (spliceAt idx dropped (itemsWithout st target id)).map
          (fun s => s.id) ↔
        (r.id = id ∨
          ((jsOrNull r.key == target) = true ∧ r.id ≠ id))) := by
  intro r hr
  have hdid : dropped.id = id := (findDropped_spec hfd).1
  have hperm := spliceAt_perm dropped idx (itemsWithout st target id)
  constructor
  · intro hmem
    rcases List.mem_map.mp hmem with ⟨s, hs, hsid⟩
    rcases List.mem_cons.mp (hperm.subset hs) with rfl | hssib
    · left
      rw [← hsid, hdid]
    · rcases mem_itemsWithoutS.mp hssib with ⟨hall, hne⟩
      rcases mem_allItems_record hall with ⟨r', hr', hc', hrs⟩
      have hids : r'.id = r.id := by
        have h1 : (toItem r').id = s.id := by rw [hrs]
        simpa [toItem] using h1.trans hsid
      have hrr : r' = r := pairwise_key_inj hpwR hr' hr hids
      rw [hrr] at hc'
      right
      refine ⟨hc', ?_⟩
      rw [← hsid]
      exact hne
  · intro hcase
    rcases hcase with heq | ⟨hcont, hne⟩
    · apply List.mem_map.mpr
      exact ⟨dropped, hperm.mem_iff.mpr (by simp), by rw [hdid, heq]⟩
    · apply List.mem_map.mpr
      refine ⟨toItem r, hperm.mem_iff.mpr ?_, rfl⟩
      right
      apply mem_itemsWithoutS.mpr
      exact ⟨record_mem_allItems hr hcont, hne⟩

theorem m_flat_of_pos (target : Option String) (spl : List SideItem)
    (hpw : spl.Pairwise (fun a b => a.id ≠ b.id)) (r : FlatRec) (j : Nat)
    (s : SideItem) (hj : spl[j]? = some s) (hsid : s.id = r.id)
    (hsk : s.itype = r.kind) :
    (renumberS target 0 spl).foldl flatApply r =
      { r with orderIndex := some ((j : Int) * 1000), key := target } := by
  have hus : (renumberS target 0 spl)[j]? =
      some ⟨s.id, s.itype, ((0 + j : Nat) : Int) * 1000,
        if s.itype == "folder" then some target else none,
        if s.itype == "folder" then none else some target⟩ := by
    rw [renumberS_getElem? target 0 spl j, hj]
    rfl
  have huspw := renumberS_pairwise target spl hpw
  have hfilter := filter_of_pairwise_getElem_key huspw hus
  have hfilter1 : (renumberS target 0 spl).filter
      (fun v => v.id == r.id) =
      [⟨s.id, s.itype, ((0 + j : Nat) : Int) * 1000,
        if s.itype == "folder" then some target else none,
        if s.itype == "folder" then none else some target⟩] := by
    rw [← hfilter]
    apply List.filter_congr
    intro v _
    rw [show (⟨s.id, s.itype, ((0 + j : Nat) : Int) * 1000,
        if s.itype == "folder" then some target else none,
        if s.itype == "folder" then none else some target⟩ :
      SideUpdate).id = s.id from rfl, hsid]
  have hfilter2 : (renumberS target 0 spl).filter
      (fun v => v.itype == r.kind && v.id == r.id) =
      [⟨s.id, s.itype, ((0 + j : Nat) : Int) * 1000,
        if s.itype == "folder" then some target else none,
        if s.itype == "folder" then none else some target⟩] := by
    rw [← hfilter1]
    apply List.filter_congr
    intro v hv
    by_cases hid : (v.id == r.id) = true
    · have hvmem : v ∈ (renumberS target 0 spl).filter
          (fun w => w.id == r.id) :=
        List.mem_filter.mpr ⟨hv, hid⟩
      rw [hfilter1] at hvmem
      simp only [List.mem_singleton] at hvmem
      subst hvmem
      simp [hid, hsk]
    · simp [hid]
  rw [foldl_flatApply_single_match hfilter2]
  have hkey : (if (⟨s.id, s.itype, ((0 + j : Nat) : Int) * 1000,
        if s.itype == "folder" then some target else none,
        if s.itype == "folder" then none else some target⟩ :
      SideUpdate).itype == "folder" then
      joinOpt (⟨s.id, s.itype, ((0 + j : Nat) : Int) * 1000,
        if s.itype == "folder" then some target else none,
        if s.itype == "folder" then none else some target⟩ :
        SideUpdate).parentId
    else joinOpt (⟨s.id, s.itype, ((0 + j : Nat) : Int) * 1000,
        if s.itype == "folder" then some target else none,
        if s.itype == "folder" then none else some target⟩ :
      SideUpdate).folderId) = target := by
    by_cases hf : (s.itype == "folder") = true
    · show (if s.itype == "folder" then
          joinOpt (if s.itype == "folder" then some target else none)
        else joinOpt (if s.itype == "folder" then none else some target))
          = target
      simp [hf, joinOpt]
    · show (if s.itype == "folder" then
          joinOpt (if s.itype == "folder" then some target else none)
        else joinOpt (if s.itype == "folder" then none else some target))
          = target
      simp [hf, joinOpt]
  rw [hkey]
  simp

theorem m_flat_of_neg (target : Option String) (spl : List SideItem)
    (r : FlatRec) (hnot : r.id ∉ spl.map (fun s => s.id)) :
    (renumberS target 0 spl).foldl flatApply r = r := by
  apply foldl_flatApply_of_no_match
  intro u hu he
  apply hnot
  have h1 : u.id ∈ (renumberS target 0 spl).map SideUpdate.id :=
    List.mem_map_of_mem _ hu
  rw [renumberS_map_id] at h1
  rw [← he]
  exact h1

theorem mItem_of_pos (target : Option String) (spl : List SideItem)
    (hpw : spl.Pairwise (fun a b => a.id ≠ b.id)) (x : SideItem) (j : Nat)
    (s : SideItem) (hj : spl[j]? = some s) (hsid : s.id = x.id) :
    (renumberS target 0 spl).foldl itemApply x =
      ⟨s.id, s.itype, some ((j : Int) * 1000)⟩ := by
  have hus : (renumberS target 0 spl)[j]? =
      some ⟨s.id, s.itype, ((0 + j : Nat) : Int) * 1000,
        if s.itype == "folder" then some target else none,
        if s.itype == "folder" then none else some target⟩ := by
    rw [renumberS_getElem? target 0 spl j, hj]
    rfl
  have huspw := renumberS_pairwise target spl hpw
  have hfilter := filter_of_pairwise_getElem_key huspw hus
  have hfilter1 : (renumberS target 0 spl).filter
      (fun v => v.id == x.id) =
      [⟨s.id, s.itype, ((0 + j : Nat) : Int) * 1000,
        if s.itype == "folder" then some target else none,
        if s.itype == "folder" then none else some target⟩] := by
    rw [← hfilter]
    apply List.filter_congr
    intro v _
    rw [show (⟨s.id, s.itype, ((0 + j : Nat) : Int) * 1000,
        if s.itype == "folder" then some target else none,
        if s.itype == "folder" then none else some target⟩ :
      SideUpdate).id = s.id from rfl, hsid]
  rw [foldl_itemApply_single_match hfilter1]
  simp

theorem mItem_of_neg (target : Option String) (spl : List SideItem)
    (x : SideItem) (hnot : x.id ∉ spl.map (fun s => s.id)) :
    (renumberS target 0 spl).foldl itemApply x = x := by
  apply foldl_itemApply_of_no_match
  intro u hu he
  apply hnot
  have h1 : u.id ∈ (renumberS target 0 spl).map SideUpdate.id :=
    List.mem_map_of_mem _ hu
  rw [renumberS_map_id] at h1
  rw [← he]
  exact h1

theorem container_after_apply_flat {st : SideState}
    {target : Option String} {itype id : String} {dropped : SideItem}
    {idx : Nat}
    (hpwR : (allRecords st).Pairwise (fun a b => a.id ≠ b.id))
    (htarget : jsOrNull target = target)
    (hfd : findDropped st itype id = some dropped) :
    ∀ r ∈ allRecords st,
      (jsOrNull ((renumberS target 0 (spliceAt idx dropped
          (itemsWithout st target id))).foldl flatApply r).key == target) =
        (r.id == id || ((jsOrNull r.key == target) && r.id != id)) := by
  intro r hr
  have hdid : dropped.id = id := (findDropped_spec hfd).1
  have hsplpw : (spliceAt idx dropped (itemsWithout st target id)).Pairwise
      (fun a b => a.id ≠ b.id) := spliced_pairwiseS hpwR hdid
  by_cases hmem : r.id ∈ (spliceAt idx dropped
      (itemsWithout st target id)).map (fun s => s.id)
  · rcases List.mem_map.mp hmem with ⟨s, hs, hsid⟩
    rcases List.mem_iff_getElem?.mp hs with ⟨j, hj⟩
    have hts : toItem r = s := spl_kind_coherent hpwR hfd s hs r hr hsid.symm
    have hsk : s.itype = r.kind := by rw [← hts]; rfl
    rw [m_flat_of_pos target _ hsplpw r j s hj hsid hsk]
    have hLHS : (jsOrNull ({ r with
        orderIndex := some ((j : Int) * 1000),
        key := target } : FlatRec).key == target) = true := by
      show (jsOrNull target == target) = true
      rw [htarget]
      simp
    rw [hLHS]
    have hcase := (mem_spliced_ids_flat hpwR hfd r hr).mp hmem
    rcases hcase with heq | ⟨hcont, hne⟩
    · simp [heq]
    · simp [hcont, hne]
  · rw [m_flat_of_neg target _ r hmem]
    have hnotor : ¬(r.id = id ∨
        ((jsOrNull r.key == target) = true ∧ r.id ≠ id)) :=
      fun hc => hmem ((mem_spliced_ids_flat hpwR hfd r hr).mpr hc)
    push_neg at hnotor
    rcases hnotor with ⟨hne, himp⟩
    by_cases hcont : (jsOrNull r.key == target) = true
    · exact absurd (himp hcont) (by simpa using hne)
    · simp only [Bool.eq_false_iff.mpr hcont]
      simp [hne]

theorem toItem_mFlat_comm {st : SideState} {target : Option String}
    {itype id : String} {dropped : SideItem} {idx : Nat}
    (hpwR : (allRecords st).Pairwise (fun a b => a.id ≠ b.id))
    (hfd : findDropped st itype id = some dropped) :
    ∀ r ∈ allRecords st,
      toItem ((renumberS target 0 (spliceAt idx dropped
          (itemsWithout st target id))).foldl flatApply r) =
        (renumberS target 0 (spliceAt idx dropped
          (itemsWithout st target id))).foldl itemApply (toItem r) := by
  intro r hr
  have hdid : dropped.id = id := (findDropped_spec hfd).1
  have hsplpw : (spliceAt idx dropped (itemsWithout st target id)).Pairwise
      (fun a b => a.id ≠ b.id) := spliced_pairwiseS hpwR hdid
  by_cases hmem : r.id ∈ (spliceAt idx dropped
      (itemsWithout st target id)).map (fun s => s.id)
  · rcases List.mem_map.mp hmem with ⟨s, hs, hsid⟩
    rcases List.mem_iff_getElem?.mp hs with ⟨j, hj⟩
    have hts : toItem r = s := spl_kind_coherent hpwR hfd s hs r hr hsid.symm
    have hsk : s.itype = r.kind := by rw [← hts]; rfl
    rw [m_flat_of_pos target _ hsplpw r j s hj hsid hsk]
    rw [mItem_of_pos target _ hsplpw (toItem r) j s hj
      (show s.id = (toItem r).id from by rw [hts])]
    rw [show toItem { r with orderIndex := some ((j : Int) * 1000),
                             key := target }
      = ⟨r.id, r.kind, some ((j : Int) * 1000)⟩ from rfl]
    rw [hsid, hsk]
  · rw [m_flat_of_neg target _ r hmem]
    rw [mItem_of_neg target _ (toItem r) hmem]

theorem sortS_filter_after_apply {st : SideState} {target : Option String}
    {itype id : String} {dropped : SideItem} {idx : Nat}
    (hnd : ((allRecords st).map (fun r => r.id)).Nodup)
    (htarget : jsOrNull target = target)
    (hfd : findDropped st itype id = some dropped) :
    sortedItemsOf (applyUpdatesLocally st (renumberS target 0 (spliceAt idx dropped (itemsWithout st target id)))) target =
      (spliceAt idx dropped (itemsWithout st target id)).map (fun x => (renumberS target 0 (spliceAt idx dropped (itemsWithout st target id))).foldl itemApply x) := by
  have hpwR : (allRecords st).Pairwise (fun a b => a.id ≠ b.id) :=
    List.pairwise_map.mp hnd
  have hdid : dropped.id = id := (findDropped_spec hfd).1
  have hsplpw : (spliceAt idx dropped (itemsWithout st target id)).Pairwise (fun a b => a.id ≠ b.id) :=
    spliced_pairwiseS hpwR hdid
  rcases (findDropped_spec hfd).2 with ⟨rd, hrd, hrdi⟩
  have hrdid : rd.id = id := by
    have h1 : (toItem rd).id = dropped.id := by rw [hrdi]
    simpa [toItem] using h1.trans hdid
  unfold sortedItemsOf
  rw [allItems_eq_flat, allRecords_apply st (renumberS target 0 (spliceAt idx dropped (itemsWithout st target id))) hnd, filter_map_comm,
    List.filter_congr (container_after_apply_flat hpwR htarget hfd),
    List.map_map]
  have hmapc : ((allRecords st).filter (fun r => r.id == id || ((jsOrNull r.key == target) && r.id != id))).map
      (toItem ∘ (fun r => (renumberS target 0 (spliceAt idx dropped (itemsWithout st target id))).foldl flatApply r)) =
      ((allRecords st).filter (fun r => r.id == id || ((jsOrNull r.key == target) && r.id != id))).map
      (fun r => (renumberS target 0 (spliceAt idx dropped (itemsWithout st target id))).foldl itemApply (toItem r)) := by
    apply List.map_congr_left
    intro r hr
    exact toItem_mFlat_comm hpwR hfd r (List.mem_of_mem_filter hr)
  rw [hmapc]
  have hq_disj : ∀ r : FlatRec, ¬((r.id == id) = true ∧
      ((jsOrNull r.key == target) && r.id != id) = true) := by
    intro r hcontr
    rcases hcontr with ⟨hA, hB⟩
    have he : r.id = id := by simpa using hA
    have hne : r.id ≠ id := by
      have h2 := (Bool.and_eq_true_iff.mp hB).2
      simpa using h2
    exact hne he
  have hsingle : (allRecords st).filter (fun r => r.id == id) = [rd] :=
    filter_eq_singleton_of_mem_key hpwR hrd hrdid
  have hpermor := filter_or_perm hq_disj (allRecords st)
  rw [hsingle] at hpermor
  have hsibs_flat : (allItemsOf st target).filter (fun x => x.id != id)
      = ((allRecords st).filter (fun r => (jsOrNull r.key == target) && r.id != id)).map toItem := by
    rw [allItems_eq_flat, filter_map_comm, List.filter_filter]
    congr 1
    apply List.filter_congr
    intro r _
    rw [Bool.and_comm]
    rfl
  have hsibsperm : List.Perm (itemsWithout st target id)
      (((allRecords st).filter (fun r => (jsOrNull r.key == target) && r.id != id)).map toItem) := by
    rw [itemsWithout_eq_sort_filter, hsibs_flat]
    exact List.perm_insertionSort _ _
  have hconsmap : ([rd] ++ (allRecords st).filter (fun r => (jsOrNull r.key == target) && r.id != id)).map toItem
      = dropped :: ((allRecords st).filter (fun r => (jsOrNull r.key == target) && r.id != id)).map toItem := by
    simp [hrdi]
  have hitemperm : List.Perm
      (((allRecords st).filter (fun r => r.id == id || ((jsOrNull r.key == target) && r.id != id))).map toItem) (spliceAt idx dropped (itemsWithout st target id)) := by
    refine (hpermor.map toItem).trans ?_
    rw [hconsmap]
    exact (hsibsperm.symm.cons dropped).trans
      (spliceAt_perm dropped idx (itemsWithout st target id)).symm
  have hMU : List.Perm
      (((allRecords st).filter (fun r => r.id == id || ((jsOrNull r.key == target) && r.id != id))).map
        (fun r => (renumberS target 0 (spliceAt idx dropped (itemsWithout st target id))).foldl itemApply (toItem r)))
      ((spliceAt idx dropped (itemsWithout st target id)).map (fun x => (renumberS target 0 (spliceAt idx dropped (itemsWithout st target id))).foldl itemApply x)) := by
    have h3 := hitemperm.map (fun x => (renumberS target 0 (spliceAt idx dropped (itemsWithout st target id))).foldl itemApply x)
    rw [List.map_map] at h3
    exact h3
  have hUkey : ∀ (j : Nat) (a : SideItem),
      ((spliceAt idx dropped (itemsWithout st target id)).map (fun x => (renumberS target 0 (spliceAt idx dropped (itemsWithout st target id))).foldl itemApply x))[j]? = some a →
      oiKeyS a = (j : Int) * 1000 := by
    intro j a ha
    rw [List.getElem?_map] at ha
    rcases Option.map_eq_some'.mp ha with ⟨s, hsj, hms⟩
    rw [mItem_of_pos target _ hsplpw s j s hsj rfl] at hms
    rw [← hms]
    rfl
  have hUsorted : List.Sorted (keyLt oiKeyS) ((spliceAt idx dropped (itemsWithout st target id)).map (fun x => (renumberS target 0 (spliceAt idx dropped (itemsWithout st target id))).foldl itemApply x)) := by
    apply sorted_lt_of_keys
    intro i j a b hij ha hb
    rw [hUkey i a ha, hUkey j b hb]
    have hcast : (i : Int) < (j : Int) := by exact_mod_cast hij
    omega
  have hperm2 : List.Perm
      (List.insertionSort (keyLe oiKeyS)
        (((allRecords st).filter (fun r => r.id == id || ((jsOrNull r.key == target) && r.id != id))).map
          (fun r => (renumberS target 0 (spliceAt idx dropped (itemsWithout st target id))).foldl itemApply (toItem r))))
      ((spliceAt idx dropped (itemsWithout st target id)).map (fun x => (renumberS target 0 (spliceAt idx dropped (itemsWithout st target id))).foldl itemApply x)) :=
    (List.perm_insertionSort _ _).trans hMU
  have hkeysU : (((spliceAt idx dropped (itemsWithout st target id)).map (fun x => (renumberS target 0 (spliceAt idx dropped (itemsWithout st target id))).foldl itemApply x)).map oiKeyS).Nodup :=
    List.pairwise_map.mpr (hUsorted.imp (fun h => ne_of_lt h))
  have hkeysM := ((hperm2.map oiKeyS).nodup_iff).mpr hkeysU
  have hsortM_lt := sorted_lt_of_sorted_le_nodup
    (List.sorted_insertionSort (keyLe oiKeyS) _) hkeysM
  exact List.eq_of_perm_of_sorted hperm2 hsortM_lt hUsorted

theorem itemsWithout_after_applyS {st : SideState}
    {target : Option String} {itype id : String} {dropped : SideItem}
    {idx : Nat}
    (hnd : ((allRecords st).map (fun r => r.id)).Nodup)
    (htarget : jsOrNull target = target)
    (hfd : findDropped st itype id = some dropped) :
    itemsWithout (applyUpdatesLocally st (renumberS target 0 (spliceAt idx dropped (itemsWithout st target id)))) target id =
      (itemsWithout st target id).map (fun x => (renumberS target 0 (spliceAt idx dropped (itemsWithout st target id))).foldl itemApply x) := by
  have hdid : dropped.id = id := (findDropped_spec hfd).1
  have hstep : itemsWithout (applyUpdatesLocally st (renumberS target 0 (spliceAt idx dropped (itemsWithout st target id)))) target id =
      (sortedItemsOf (applyUpdatesLocally st (renumberS target 0 (spliceAt idx dropped (itemsWithout st target id)))) target).filter
        (fun t => t.id != id) := rfl
  rw [hstep, sortS_filter_after_apply hnd htarget hfd, filter_map_comm]
  have hcongr : (spliceAt idx dropped (itemsWithout st target id)).filter
      (fun s => ((renumberS target 0 (spliceAt idx dropped (itemsWithout st target id))).foldl itemApply s).id != id)
      = (spliceAt idx dropped (itemsWithout st target id)).filter (fun s => s.id != id) := by
    apply List.filter_congr
    intro s _
    rw [foldl_itemApply_id]
  rw [hcongr, spliceAt_filter_neg (by simp [hdid])]
  congr 1
  apply List.filter_eq_self.mpr
  intro t ht
  have h4 := (mem_itemsWithoutS.mp ht).2
  simpa using h4

theorem find?_fold_proj {α : Type} (ident : α → String)
    (cond : SideUpdate → Bool) (ov : SideUpdate → α → α)
    (hovid : ∀ u a, ident (ov u a) = ident a)
    (us : List SideUpdate) (l : List α) (x : String)
    (hpw : l.Pairwise (fun a b => ident a ≠ ident b)) :
    ((us.foldl (fun acc u => if cond u then
        setFirst (fun a => ident a == u.id) (ov u) acc else acc) l).find?
      (fun a => ident a == x))
      = (l.find? (fun a => ident a == x)).map (fun a =>
          us.foldl (fun y u =>
            if cond u && (ident y == u.id) then ov u y else y) a) := by
  rw [foldCond_eq_map ident cond ov hovid us l hpw, find?_map]
  have hpred : (fun a => ident (us.foldl (fun x u =>
      if cond u && (ident x == u.id) then ov u x else x) a) == x)
      = (fun a : α => ident a == x) := by
    funext a
    rw [foldCondElem_id ident cond ov hovid us a]
  rw [hpred]

theorem findDropped_after_apply {st : SideState} {itype id : String}
    {dropped : SideItem} (us : List SideUpdate)
    (hnd : ((allRecords st).map (fun r => r.id)).Nodup)
    (hfd : findDropped st itype id = some dropped) :
    ∃ d2, findDropped (applyUpdatesLocally st us) itype id = some d2 ∧
      d2.id = dropped.id ∧ d2.itype = dropped.itype := by
  rcases allRecords_parts_pairwise hnd with ⟨p1, p2, p3, p4, p5⟩
  unfold findDropped at hfd ⊢
  split_ifs at hfd ⊢
  · rcases Option.map_eq_some'.mp hfd with ⟨f, hf, rfl⟩
    rw [applyS_folders, find?_fold_proj (fun a => a.id)
      (fun u => u.itype == "folder")
      (fun u a => { a with orderIndex := some u.orderIndex,
                           parentId := joinOpt u.parentId })
      (fun u a => rfl) us st.folders id p1, hf]
    refine ⟨_, rfl, ?_, rfl⟩
    exact foldCondElem_id (fun a => a.id) (fun u => u.itype == "folder")
      (fun u a => { a with orderIndex := some u.orderIndex,
                           parentId := joinOpt u.parentId })
      (fun u a => rfl) us f
  · rcases Option.map_eq_some'.mp hfd with ⟨f, hf, rfl⟩
    rw [applyS_objectives, find?_fold_proj (fun a => a.id)
      (fun u => u.itype == "objective")
      (fun u a => { a with orderIndex := some u.orderIndex,
                           folderId := joinOpt u.folderId })
      (fun u a => rfl) us st.objectives id p2, hf]
    refine ⟨_, rfl, ?_, rfl⟩
    exact foldCondElem_id (fun a => a.id) (fun u => u.itype == "objective")
      (fun u a => { a with orderIndex := some u.orderIndex,
                           folderId := joinOpt u.folderId })
      (fun u a => rfl) us f
  · rcases Option.map_eq_some'.mp hfd with ⟨f, hf, rfl⟩
    rw [applyS_notes, find?_fold_proj (fun a => a.id)
      (fun u => u.itype == "note")
      (fun u a => { a with orderIndex := some u.orderIndex,
                           folderId := joinOpt u.folderId })
      (fun u a => rfl) us st.notes id p3, hf]
    refine ⟨_, rfl, ?_, rfl⟩
    exact foldCondElem_id (fun a => a.id) (fun u => u.itype == "note")
      (fun u a => { a with orderIndex := some u.orderIndex,
                           folderId := joinOpt u.folderId })
      (fun u a => rfl) us f
  · rcases Option.map_eq_some'.mp hfd with ⟨f, hf, rfl⟩
    rw [applyS_bookmarks, find?_fold_proj (fun a => a.id)
      (fun u => u.itype == "bookmark")
      (fun u a => { a with orderIndex := some u.orderIndex,
                           folderId := joinOpt u.folderId })
      (fun u a => rfl) us st.bookmarks id p4, hf]
    refine ⟨_, rfl, ?_, rfl⟩
    exact foldCondElem_id (fun a => a.id) (fun u => u.itype == "bookmark")
      (fun u a => { a with orderIndex := some u.orderIndex,
                           folderId := joinOpt u.folderId })
      (fun u a => rfl) us f
  · rcases Option.map_eq_some'.mp hfd with ⟨f, hf, rfl⟩
    rw [applyS_taskLists, find?_fold_proj (fun a => a.id)
      (fun u => u.itype == "task-list")
      (fun u a => { a with orderIndex := some u.orderIndex,
                           folderId := joinOpt u.folderId })
      (fun u a => rfl) us st.taskLists id p5, hf]
    refine ⟨_, rfl, ?_, rfl⟩
    exact foldCondElem_id (fun a => a.id) (fun u => u.itype == "task-list")
      (fun u a => { a with orderIndex := some u.orderIndex,
                           folderId := joinOpt u.folderId })
      (fun u a => rfl) us f

theorem buildUpdatesArray_reapplyS {st : SideState} {itype id : String}
    {target : Option String} {dropped : SideItem} {idx : Nat}
    (prevArg nextArg : Option String)
    (hnd : ((allRecords st).map (fun r => r.id)).Nodup)
    (htarget : jsOrNull target = target)
    (hfd : findDropped st itype id = some dropped)
    (hinsert : insertIndexOfS ((itemsWithout st target id).map (fun x => (renumberS target 0 (spliceAt idx dropped (itemsWithout st target id))).foldl itemApply x))
      prevArg nextArg.isNone = idx) :
    buildUpdatesArray (applyUpdatesLocally st (renumberS target 0 (spliceAt idx dropped (itemsWithout st target id))))
      itype id target prevArg nextArg = some (renumberS target 0 (spliceAt idx dropped (itemsWithout st target id))) := by
  rcases findDropped_after_apply (renumberS target 0 (spliceAt idx dropped (itemsWithout st target id))) hnd hfd
    with ⟨d2, hfd2, hd2id, hd2ty⟩
  have h1 : buildUpdatesArray (applyUpdatesLocally st (renumberS target 0 (spliceAt idx dropped (itemsWithout st target id))))
      itype id target prevArg nextArg
      = some (renumberS target 0 (spliceAt
          (insertIndexOfS
            (itemsWithout (applyUpdatesLocally st (renumberS target 0 (spliceAt idx dropped (itemsWithout st target id)))) target id)
            prevArg nextArg.isNone)
          d2
          (itemsWithout (applyUpdatesLocally st (renumberS target 0 (spliceAt idx dropped (itemsWithout st target id)))) target id))) := by
    simp [buildUpdatesArray, hfd2]
  rw [h1, itemsWithout_after_applyS hnd htarget hfd, hinsert]
  congr 1
  apply renumberS_congr_pairs
  rw [spliceAt_map, spliceAt_map]
  have hhead : (d2.id, d2.itype) = (dropped.id, dropped.itype) := by
    simp [hd2id, hd2ty]
  rw [hhead]
  congr 1
  rw [List.map_map]
  apply List.map_congr_left
  intro x hx
  have hpwR : (allRecords st).Pairwise (fun a b => a.id ≠ b.id) :=
    List.pairwise_map.mp hnd
  have hdid : dropped.id = id := (findDropped_spec hfd).1
  have hsplpw : (spliceAt idx dropped (itemsWithout st target id)).Pairwise (fun a b => a.id ≠ b.id) :=
    spliced_pairwiseS hpwR hdid
  have hxspl : x ∈ (spliceAt idx dropped (itemsWithout st target id)) :=
    (spliceAt_perm dropped idx (itemsWithout st target id)).mem_iff.mpr (List.mem_cons.mpr (Or.inr hx))
  rcases List.mem_iff_getElem?.mp hxspl with ⟨j, hj⟩
  show (fun t : SideItem => (t.id, t.itype)) ((renumberS target 0 (spliceAt idx dropped (itemsWithout st target id))).foldl itemApply x)
    = (fun t : SideItem => (t.id, t.itype)) x
  rw [mItem_of_pos target _ hsplpw x j x hj rfl]

theorem sidePlanner_idem
    (st : SideState) (itype id : String)
    (target prevId nextId : Option String)
    (us : List SideUpdate) (k : Nat) (u : SideUpdate)
    (hnd : ((allRecords st).map (fun r => r.id)).Nodup)
    (htarget : jsOrNull target = target)
    (hbuild : buildUpdatesArray st itype id target prevId nextId = some us)
    (hk : us[k]? = some u) (huid : u.id = id) :
    buildUpdatesArray (applyUpdatesLocally st us) itype id target
      (if k = 0 then none else (us[k - 1]?).map (fun v => v.id))
      ((us[k + 1]?).map (fun v => v.id)) = some us := by
  have hpwR : (allRecords st).Pairwise (fun a b => a.id ≠ b.id) :=
    List.pairwise_map.mp hnd
  rcases hfd : findDropped st itype id with _ | dropped
  · rw [buildUpdatesArray] at hbuild
    simp only [hfd] at hbuild
    exact Option.noConfusion hbuild
  · rw [buildUpdatesArray] at hbuild
    simp only [hfd, Option.some.injEq] at hbuild
    have hdid : dropped.id = id := (findDropped_spec hfd).1
    have hidxle := insertIndexOfS_le_length (itemsWithout st target id) prevId nextId.isNone
    subst hbuild
    have hsplpw : (spliceAt (insertIndexOfS (itemsWithout st target id) prevId nextId.isNone) dropped (itemsWithout st target id)).Pairwise (fun a b => a.id ≠ b.id) :=
      spliced_pairwiseS hpwR hdid
    have huspw := renumberS_pairwise target _ hsplpw
    have hsplidx : (spliceAt (insertIndexOfS (itemsWithout st target id) prevId nextId.isNone) dropped (itemsWithout st target id))[(insertIndexOfS (itemsWithout st target id) prevId nextId.isNone)]? = some dropped :=
      spliceAt_getElem?_self _ hidxle
    have husidx : (renumberS target 0 (spliceAt (insertIndexOfS (itemsWithout st target id) prevId nextId.isNone) dropped (itemsWithout st target id)))[(insertIndexOfS (itemsWithout st target id) prevId nextId.isNone)]? =
        some ⟨dropped.id, dropped.itype, ((0 + (insertIndexOfS (itemsWithout st target id) prevId nextId.isNone) : Nat) : Int) * 1000,
        if dropped.itype == "folder" then some target else none,
        if dropped.itype == "folder" then none else some target⟩ := by
      rw [renumberS_getElem? target 0 (spliceAt (insertIndexOfS (itemsWithout st target id) prevId nextId.isNone) dropped (itemsWithout st target id)) (insertIndexOfS (itemsWithout st target id) prevId nextId.isNone), hsplidx]
      rfl
    have hkidx : k = (insertIndexOfS (itemsWithout st target id) prevId nextId.isNone) :=
      @pairwise_getElem?_inj SideUpdate (fun v => v.id) _ huspw k
        (insertIndexOfS (itemsWithout st target id) prevId nextId.isNone) u ⟨dropped.id, dropped.itype, ((0 + (insertIndexOfS (itemsWithout st target id) prevId nextId.isNone) : Nat) : Int) * 1000,
        if dropped.itype == "folder" then some target else none,
        if dropped.itype == "folder" then none else some target⟩ hk
        husidx (show u.id = dropped.id from huid.trans hdid.symm)
    subst hkidx
    by_cases hidx0 : (insertIndexOfS (itemsWithout st target id) prevId nextId.isNone) = 0
    · rw [if_pos hidx0, hidx0]
      apply buildUpdatesArray_reapplyS _ _ hnd htarget hfd
      cases hsibs : itemsWithout st target id with
      | nil => simp [renumberS, spliceAt, insertIndexOfS]
      | cons s rest => simp [renumberS, spliceAt, insertIndexOfS]
    · rw [if_neg hidx0]
      have hlen : (insertIndexOfS (itemsWithout st target id) prevId nextId.isNone) - 1 < (itemsWithout st target id).length := by
        omega
      have hsj : (itemsWithout st target id)[(insertIndexOfS (itemsWithout st target id) prevId nextId.isNone) - 1]? = some ((itemsWithout st target id).get ⟨(insertIndexOfS (itemsWithout st target id) prevId nextId.isNone) - 1, hlen⟩) :=
        List.getElem?_eq_getElem hlen
      have hsplj : (spliceAt (insertIndexOfS (itemsWithout st target id) prevId nextId.isNone) dropped (itemsWithout st target id))[(insertIndexOfS (itemsWithout st target id) prevId nextId.isNone) - 1]? = (itemsWithout st target id)[(insertIndexOfS (itemsWithout st target id) prevId nextId.isNone) - 1]? :=
        spliceAt_getElem?_lt (itemsWithout st target id) (by omega) hidxle
      have hsibspw : (itemsWithout st target id).Pairwise (fun a b => a.id ≠ b.id) :=
        itemsWithoutS_pairwise hpwR
      have hfio : findIdxO (fun t => t.id == ((itemsWithout st target id).get ⟨(insertIndexOfS (itemsWithout st target id) prevId nextId.isNone) - 1, hlen⟩).id)
          ((itemsWithout st target id).map (fun x => (renumberS target 0 (spliceAt (insertIndexOfS (itemsWithout st target id) prevId nextId.isNone) dropped (itemsWithout st target id))).foldl itemApply x)) = some ((insertIndexOfS (itemsWithout st target id) prevId nextId.isNone) - 1) := by
        apply findIdxO_eq_some
        · rw [List.getElem?_map, hsj]
          rfl
        · rw [foldl_itemApply_id]
          simp
        · intro j2 y hj2 hy
          rw [List.getElem?_map] at hy
          rcases Option.map_eq_some'.mp hy with ⟨s2, hs2, rfl⟩
          rw [foldl_itemApply_id]
          simp only [beq_eq_false_iff_ne, ne_eq]
          intro he
          have h9 := @pairwise_getElem?_inj SideItem (fun t => t.id)
            (itemsWithout st target id) hsibspw j2
            ((insertIndexOfS (itemsWithout st target id) prevId nextId.isNone) - 1) s2 ((itemsWithout st target id).get ⟨(insertIndexOfS (itemsWithout st target id) prevId nextId.isNone) - 1, hlen⟩) hs2 hsj he
          omega
      have hins : insertIndexOfS ((itemsWithout st target id).map (fun x => (renumberS target 0 (spliceAt (insertIndexOfS (itemsWithout st target id) prevId nextId.isNone) dropped (itemsWithout st target id))).foldl itemApply x))
          (Option.map (fun v => v.id) ((renumberS target 0 (spliceAt (insertIndexOfS (itemsWithout st target id) prevId nextId.isNone) dropped (itemsWithout st target id)))[(insertIndexOfS (itemsWithout st target id) prevId nextId.isNone) - 1]?))
          ((Option.map (fun v => v.id) ((renumberS target 0 (spliceAt (insertIndexOfS (itemsWithout st target id) prevId nextId.isNone) dropped (itemsWithout st target id)))[(insertIndexOfS (itemsWithout st target id) prevId nextId.isNone) + 1]?)).isNone)
          = (insertIndexOfS (itemsWithout st target id) prevId nextId.isNone) := by
        rw [renumberS_getElem? target 0 (spliceAt (insertIndexOfS (itemsWithout st target id) prevId nextId.isNone) dropped (itemsWithout st target id)) ((insertIndexOfS (itemsWithout st target id) prevId nextId.isNone) - 1), hsplj, hsj]
        simp only [Option.map_some']
        rw [insertIndexOfS_some _ hfio]
        omega
      exact buildUpdatesArray_reapplyS _ _ hnd htarget hfd hins

end SideIdempotenceProofs

/-- C7: the planner is idempotent with respect to final positions —
applying its output to the node collections and re-running the planner for
the same logical placement, with the previous/next siblings read off the
already-updated container order (`us`), returns the identical update list:
every affected node is assigned the same `orderIndex` and parent key as
before, so the relative order does not change.  Stated for both adapters:
the task-list planner and the heterogeneous side-list planner (with ids
unique across the five side collections).  Hypotheses: node ids are
unique, the target key is not the JS-falsy empty string, the first run
produced `us`, and `k` is the moved node's position in `us`. -/
theorem claim_C7_planner_idempotent :
    (∀ (tasks : List TaskListSortable.Task) (taskId : String)
      (target prevId nextId : Option String)
      (us : List TaskListSortable.TaskUpdate) (k : Nat)
      (u : TaskListSortable.TaskUpdate),
      (tasks.map (fun t => t.id)).Nodup →
      jsOrNull target = target →
      TaskListSortable.buildUpdatesArray tasks taskId target prevId nextId
        = some us →
      us[k]? = some u → u.id = taskId →
      TaskListSortable.buildUpdatesArray
        (TaskListSortable.applyUpdatesLocally tasks us) taskId target
        (if k = 0 then none else (us[k - 1]?).map (fun v => v.id))
        ((us[k + 1]?).map (fun v => v.id)) = some us) ∧
    (∀ (st : SideListSortable.SideState) (itype id : String)
      (target prevId nextId : Option String)
      (us : List SideListSortable.SideUpdate) (k : Nat)
      (u : SideListSortable.SideUpdate),
      (st.folders.map (fun f => f.id) ++ st.objectives.map (fun o => o.id)
        ++ st.notes.map (fun n => n.id) ++ st.bookmarks.map (fun b => b.id)
        ++ st.taskLists.map (fun tl => tl.id)).Nodup →
      jsOrNull target = target →
      SideListSortable.buildUpdatesArray st itype id target prevId nextId
        = some us →
      us[k]? = some u → u.id = id →
      SideListSortable.buildUpdatesArray
        (SideListSortable.applyUpdatesLocally st us) itype id target
        (if k = 0 then none else (us[k - 1]?).map (fun v => v.id))
        ((us[k + 1]?).map (fun v => v.id)) = some us) :=
  ⟨fun tasks taskId target prevId nextId us k u hnd htarget hbuild hk huid =>
      taskPlanner_idem tasks taskId target prevId nextId us k u hnd htarget
        hbuild hk huid,
    fun st itype id target prevId nextId us k u hnd htarget hbuild hk huid =>
      sidePlanner_idem st itype id target prevId nextId us k u
        (by rw [allRecords_map_id]; exact hnd) htarget hbuild hk huid⟩

/-- Witness for C7: tasks `a, b, c` at root with `c` dropped between `a`
and `b`, and a side list of three root objectives with `c` dropped between
`a` and `b` — in both adapters the plan is applied locally and re-running
the planner with the neighbours read off the updated order returns the
identical plan. -/
theorem claim_C7_planner_idempotent_witness :
    (TaskListSortable.buildUpdatesArray
      (TaskListSortable.applyUpdatesLocally
        [⟨"a", none, some 0, ""⟩, ⟨"b", none, some 1000, ""⟩,
          ⟨"c", none, some 2000, ""⟩]
        [⟨"a", 0, none⟩, ⟨"c", 1000, none⟩, ⟨"b", 2000, none⟩])
      "c" none (some "a") (some "b") =
      some [⟨"a", 0, none⟩, ⟨"c", 1000, none⟩, ⟨"b", 2000, none⟩]) ∧
    (SideListSortable.buildUpdatesArray
      (SideListSortable.applyUpdatesLocally
        ⟨[], [⟨"a", none, some 0⟩, ⟨"b", none, some 1000⟩,
          ⟨"c", none, some 2000⟩], [], [], []⟩
        [⟨"a", "objective", 0, none, some none⟩,
          ⟨"c", "objective", 1000, none, some none⟩,
          ⟨"b", "objective", 2000, none, some none⟩])
      "objective" "c" none (some "a") (some "b") =
      some [⟨"a", "objective", 0, none, some none⟩,
        ⟨"c", "objective", 1000, none, some none⟩,
        ⟨"b", "objective", 2000, none, some none⟩]) :=
  ⟨claim_C7_planner_idempotent.1
      [⟨"a", none, some 0, ""⟩, ⟨"b", none, some 1000, ""⟩,
        ⟨"c", none, some 2000, ""⟩]
      "c" none (some "a") (some "b")
      [⟨"a", 0, none⟩, ⟨"c", 1000, none⟩, ⟨"b", 2000, none⟩] 1
      ⟨"c", 1000, none⟩ (by decide) rfl (by decide) (by decide) rfl,
    claim_C7_planner_idempotent.2
      ⟨[], [⟨"a", none, some 0⟩, ⟨"b", none, some 1000⟩,
        ⟨"c", none, some 2000⟩], [], [], []⟩
      "objective" "c" none (some "a") (some "b")
      [⟨"a", "objective", 0, none, some none⟩,
        ⟨"c", "objective", 1000, none, some none⟩,
        ⟨"b", "objective", 2000, none, some none⟩] 1
      ⟨"c", "objective", 1000, none, some none⟩
      (by decide) rfl (by decide) (by decide) rfl⟩
